import Mathlib

/-!
# adk-go-bedrock: the translation layer

A shallow embedding of the converters of `adk-go-bedrock`
(`internal/converters/request.go`, `internal/converters/tools.go`,
`internal/converters/response.go`, `bedrock.go`, `request.go`, `generate_stream.go`)
and the properties of them that the design document states.

Conventions of the embedding

* A Go pointer or a Go map that may be `nil` is an `Option`; a Go slice is a `List`
  (a nil slice and an empty slice are both `[]`).
* A Go `(value, error)` result is an `Except GoError value`.
* A Go `string` and a Go `[]byte` are both byte sequences; both are `String` here, so the
  conversion `string(b)` is the identity.
* `strings.ToLower` is a parameter `ToLower : String → String` of every function that calls
  it: the Unicode case tables are not part of this development, so nothing is assumed
  about it. `strings.ToLower` below is its restriction to ASCII input, used to evaluate
  the functions on concrete ASCII strings.
* `json.Unmarshal` is a parameter `Unmarshal` of the functions that call it, for the same
  reason; `json.Marshal` is modelled on the values of `GoAny`.
* A Go map is the list of its key/value pairs, in the order its entries are assigned; the
  keys of a map are distinct.
-/

/-! ## Go runtime: errors, dynamic values, `strings`, `encoding/json` -/

/-- A Go `error` value, kept as the call that built it: `errorf format args` is
`fmt.Errorf(format, args...)` with the operands of its `%s`, `%d` and `%q` verbs in order
(a number in decimal), and `errors.New(msg)` is `errorf msg []`; `wrapf format inner` is
`fmt.Errorf(format, inner)`, whose one verb is `%w`. The text `fmt` renders is not
modelled. -/
inductive GoError where
  | errorf (format : String) (args : List String)
  | wrapf (format : String) (inner : GoError)
deriving DecidableEq, Repr

deriving instance DecidableEq for Except

/-- A finite Go `float64`, given by the decimal text `encoding/json` writes for it (the
shortest text that reads back as the same number), which determines the number. -/
structure Float64 where
  text : String
deriving DecidableEq, Repr

/-- A value of Go type `any`, restricted to what the converters put into or read from a
`map[string]any`: JSON-like values of the Go types `bool`, `int`, `int64`, `float64`,
`string`, `[]any`, `[]string`, `map[string]any` and `[]map[string]any`, plus
`unsupported typ` for a value `encoding/json` refuses to encode (a channel, a function, a
NaN). A `map` is a non-nil Go map given as its key/value pairs; `slice`, `strings` and
`maps` are non-nil slices. -/
inductive GoAny where
  | null
  | bool (b : Bool)
  | int (n : Int)
  | str (s : String)
  | slice (xs : List GoAny)
  | map (kvs : List (String × GoAny))
  | unsupported (typ : String)
  | int64 (n : Int)
  | float64 (f : Float64)
  | strings (xs : List String)
  | maps (ms : List (List (String × GoAny)))
deriving Repr

/-- A Go `map[string]any` that is not nil, as its key/value pairs. -/
abbrev GoMap := List (String × GoAny)

namespace strings

/-- The function `strings.ToLower` on ASCII input: `A`..`Z` become `a`..`z`. -/
def ToLower (s : String) : String := ⟨s.data.map Char.toLower⟩

/-- The function `strings.HasPrefix`: `s` starts with `pre`. -/
def HasPrefix (s pre : String) : Bool := pre.data.isPrefixOf s.data

end strings

namespace json

/-- One lower-case hexadecimal digit. -/
def hexDigit (n : Nat) : Char :=
  if n < 10 then Char.ofNat (48 + n) else Char.ofNat (87 + n)

/-- The encoding of one character inside a JSON string, as `encoding/json` writes it with
HTML escaping on (the default of `json.Marshal`). -/
def escapeChar (c : Char) : String :=
  if c.toNat = 34 then "\\\""
  else if c.toNat = 92 then "\\\\"
  else if c.toNat = 8 then "\\b"
  else if c.toNat = 12 then "\\f"
  else if c.toNat = 10 then "\\n"
  else if c.toNat = 13 then "\\r"
  else if c.toNat = 9 then "\\t"
  else if c.toNat < 32 ∨ c.toNat = 60 ∨ c.toNat = 62 ∨ c.toNat = 38 then
    "\\u00" ++ String.singleton (hexDigit (c.toNat / 16))
      ++ String.singleton (hexDigit (c.toNat % 16))
  else if c.toNat = 8232 then "\\u2028"
  else if c.toNat = 8233 then "\\u2029"
  else String.singleton c

/-- A JSON string literal. -/
def quote (s : String) : String :=
  "\"" ++ String.join (s.data.map escapeChar) ++ "\""

/-- The order of map keys in the output: `a` is before `b` byte by byte, which for UTF-8
text is character by character. -/
def keyLess : List Char → List Char → Bool
  | _, [] => false
  | [], _ :: _ => true
  | a :: as, b :: bs => a.toNat < b.toNat || (a.toNat = b.toNat && keyLess as bs)

/-- Insertion of an encoded field into a list of fields sorted by key. -/
def insertField (f : String × String) : List (String × String) → List (String × String)
  | [] => [f]
  | g :: rest => if keyLess f.1.data g.1.data then f :: g :: rest else g :: insertField f rest

/-- The fields of a map in the order `encoding/json` writes them: sorted by key. -/
def sortFields (fs : List (String × String)) : List (String × String) :=
  fs.foldr insertField []

/-- The text of a JSON object with the given encoded fields. -/
def object (fs : List (String × String)) : String :=
  "\x7b" ++ String.intercalate "," ((sortFields fs).map (fun f => quote f.1 ++ ":" ++ f.2))
    ++ "\x7d"

mutual

/-- The function `json.Marshal` on a dynamic value. -/
def Marshal : GoAny → Except GoError String
  | .null => .ok "null"
  | .bool b => .ok (if b then "true" else "false")
  | .int n => .ok (toString n)
  | .str s => .ok (quote s)
  | .slice xs =>
    match MarshalList xs with
    | .error err => .error err
    | .ok items => .ok ("[" ++ String.intercalate "," items ++ "]")
  | .map kvs =>
    match MarshalFields kvs with
    | .error err => .error err
    | .ok fs => .ok (object fs)
  | .unsupported typ => .error (.errorf "json: unsupported type: %s" [typ])
  | .int64 n => .ok (toString n)
  | .float64 f => .ok f.text
  | .strings xs => .ok ("[" ++ String.intercalate "," (xs.map quote) ++ "]")
  | .maps ms =>
    match MarshalMaps ms with
    | .error err => .error err
    | .ok items => .ok ("[" ++ String.intercalate "," items ++ "]")

/-- The encodings of the elements of a slice, failing at the first that fails. -/
def MarshalList : List GoAny → Except GoError (List String)
  | [] => .ok []
  | x :: xs =>
    match Marshal x with
    | .error err => .error err
    | .ok s =>
      match MarshalList xs with
      | .error err => .error err
      | .ok ss => .ok (s :: ss)

/-- The encodings of the values of a map, failing at the first that fails. -/
def MarshalFields : List (String × GoAny) → Except GoError (List (String × String))
  | [] => .ok []
  | (k, v) :: kvs =>
    match Marshal v with
    | .error err => .error err
    | .ok s =>
      match MarshalFields kvs with
      | .error err => .error err
      | .ok fs => .ok ((k, s) :: fs)

/-- The encodings of the maps of a slice of maps, failing at the first that fails. -/
def MarshalMaps : List (List (String × GoAny)) → Except GoError (List String)
  | [] => .ok []
  | m :: ms =>
    match MarshalFields m with
    | .error err => .error err
    | .ok fs =>
      match MarshalMaps ms with
      | .error err => .error err
      | .ok ss => .ok (object fs :: ss)

end

end json

/-! ## The data model: `genai` turns and parts, `bedrockclient` messages -/

namespace genai

/-- Inline binary data (`genai.Blob`). -/
structure Blob where
  MIMEType : String := ""
  Data : String := ""
deriving DecidableEq, Repr

/-- A reference to a file by URI (`genai.FileData`). -/
structure FileData where
  FileURI : String := ""
  MIMEType : String := ""
deriving DecidableEq, Repr

/-- The result of a function call (`genai.FunctionResponse`); `Response` is a
`map[string]any`, `none` when the map is nil. -/
structure FunctionResponse where
  ID : String := ""
  Name : String := ""
  Response : Option GoMap := none
deriving Repr

/-- A function call predicted by the model (`genai.FunctionCall`); `Args` is a
`map[string]any`, `none` when the map is nil. -/
structure FunctionCall where
  ID : String := ""
  Name : String := ""
  Args : Option GoMap := none
deriving Repr

/-- Code generated by the model (`genai.ExecutableCode`). -/
structure ExecutableCode where
  Code : String := ""
  Language : String := ""
deriving DecidableEq, Repr

/-- The result of executing code (`genai.CodeExecutionResult`). -/
structure CodeExecutionResult where
  Outcome : String := ""
  Output : String := ""
deriving DecidableEq, Repr

/-- One part of a turn (`genai.Part`): a Go struct of optional fields, of which the
converter reads these seven. The zero value has every field unset. -/
structure Part where
  Text : String := ""
  InlineData : Option Blob := none
  FileData : Option FileData := none
  FunctionResponse : Option FunctionResponse := none
  FunctionCall : Option FunctionCall := none
  ExecutableCode : Option ExecutableCode := none
  CodeExecutionResult : Option CodeExecutionResult := none
deriving Repr

/-- One turn of the conversation (`genai.Content`): a role and `[]*Part`. -/
structure Content where
  Parts : List (Option Part) := []
  Role : String := ""
deriving Repr

/-- The function-calling policy (`genai.FunctionCallingConfig`); `Mode` is a Go string
type. -/
structure FunctionCallingConfig where
  Mode : String := ""
  AllowedFunctionNames : List String := []
deriving DecidableEq, Repr

/-- The constant `genai.FunctionCallingConfigModeNone`. -/
def FunctionCallingConfigModeNone : String := "NONE"

/-- The constant `genai.FunctionCallingConfigModeAuto`. -/
def FunctionCallingConfigModeAuto : String := "AUTO"

/-- The constant `genai.FunctionCallingConfigModeAny`. -/
def FunctionCallingConfigModeAny : String := "ANY"

/-- The tool configuration of a request (`genai.ToolConfig`). -/
structure ToolConfig where
  FunctionCallingConfig : Option FunctionCallingConfig := none
deriving DecidableEq, Repr

/-- The per-call configuration (`genai.GenerateContentConfig`), with the fields
`convertRequest` reads. `ToolT` is the type of a tool declaration (`genai.Tool`). A
`float32` is given by the `float64` of the same value, which makes the widening
`float64(x)` the identity. -/
structure GenerateContentConfig (ToolT : Type) where
  SystemInstruction : Option Content := none
  Temperature : Option Float := none
  TopP : Option Float := none
  TopK : Option Float := none
  StopSequences : List String := []
  MaxOutputTokens : Int := 0
  Tools : List (Option ToolT) := []
  ToolConfig : Option ToolConfig := none

end genai

namespace bedrockclient

/-- The role of a wire message (`bedrockclient.ChatMessageType`, a Go string type). -/
abbrev ChatMessageType := String

/-- Modelled from the spec: the constant `ChatMessageTypeAI`, whose declaration is not among
the sources; the role the design document calls `assistant/ai`. -/
def ChatMessageTypeAI : ChatMessageType := "ai"

/-- Modelled from the spec: the constant `ChatMessageTypeHuman`, whose declaration is not
among the sources; the role the design document calls `human`. -/
def ChatMessageTypeHuman : ChatMessageType := "human"

/-- Modelled from the spec: the constant `ChatMessageTypeSystem`, whose declaration is not
among the sources; the role the design document calls `system`. -/
def ChatMessageTypeSystem : ChatMessageType := "system"

/-- Modelled from the spec: the constant `ChatMessageTypeFunction`, whose declaration is not
among the sources; the role the design document calls `function`, the tool-result role. -/
def ChatMessageTypeFunction : ChatMessageType := "function"

/-- Modelled from the spec: the struct `bedrockclient.Message`, whose declaration is not among
the sources: the wire message, with the fields the converters and the client test set. The
zero value `Message{}` is the structure with every field empty. The Go field `Type` is
`Type_` here. -/
structure Message where
  Role : ChatMessageType := ""
  Type_ : String := ""
  Content : String := ""
  MimeType : String := ""
  ToolUseID : String := ""
  ToolCallID : String := ""
  ToolName : String := ""
  ToolArgs : String := ""
deriving DecidableEq, Repr

end bedrockclient

/-! ## `internal/converters/request.go` -/

namespace converters

open bedrockclient

/-- The function `mapRole`: the wire role of a nominal role, compared in lower case. -/
def mapRole (ToLower : String → String) (role : String) : Except GoError ChatMessageType :=
  if ToLower role = "user" then .ok ChatMessageTypeHuman
  else if ToLower role = "model" ∨ ToLower role = "assistant" then .ok ChatMessageTypeAI
  else .error (.errorf "unsupported role: %s" [role])

/-- The function `mapImageMediaType`: the four image media types the gateway accepts. -/
def mapImageMediaType (mimeType : String) : Except GoError String :=
  if mimeType = "image/jpeg" then .ok "image/jpeg"
  else if mimeType = "image/png" then .ok "image/png"
  else if mimeType = "image/gif" then .ok "image/gif"
  else if mimeType = "image/webp" then .ok "image/webp"
  else .error (.errorf "unsupported image media type: %s" [mimeType])

/-- The function `inlineDataToBlock`. -/
def inlineDataToBlock (ToLower : String → String) (blob : Option genai.Blob)
    (role : ChatMessageType) : Except GoError Message :=
  match blob with
  | none => .ok {}
  | some blob =>
    let mimeType := ToLower blob.MIMEType
    if strings.HasPrefix mimeType "image/" then
      match mapImageMediaType mimeType with
      | .error err => .error err
      | .ok mediaType =>
        .ok { Role := role, Type_ := "image", MimeType := mediaType, Content := blob.Data }
    else .error (.errorf "unsupported MIME type for inline data: %s" [mimeType])

/-- The function `fileDataToBlock`. -/
def fileDataToBlock (ToLower : String → String) (fileData : Option genai.FileData)
    (role : ChatMessageType) : Except GoError Message :=
  match fileData with
  | none => .ok {}
  | some fileData =>
    let mimeType := ToLower fileData.MIMEType
    if strings.HasPrefix mimeType "image/" then
      .ok { Role := role, Type_ := "image_url", Content := fileData.FileURI }
    else .error (.errorf "unsupported MIME type for file data: %s" [mimeType])

/-- The function `functionResponseToBlock`. -/
def functionResponseToBlock (resp : Option genai.FunctionResponse) (role : ChatMessageType) :
    Except GoError Message :=
  match resp with
  | none => .ok {}
  | some resp =>
    if resp.ID = "" then
      .error (.errorf "FunctionResponse.ID is required for tool call correlation (function: %s)"
        [resp.Name])
    else
      match resp.Response with
      | none => .ok { Type_ := "tool_result", ToolUseID := resp.ID, Content := "", Role := role }
      | some response =>
        match json.Marshal (.map response) with
        | .error err => .error (.wrapf "failed to marshal function response: %w" err)
        | .ok jsonBytes =>
          .ok { Type_ := "tool_result", ToolUseID := resp.ID, Content := jsonBytes, Role := role }

/-- The function `functionCallToBlock`. The error of `json.Marshal` is discarded, and the
bytes it returns with an error are nil, the empty string. -/
def functionCallToBlock (call : Option genai.FunctionCall) (role : ChatMessageType) :
    Except GoError Message :=
  match call with
  | none => .ok {}
  | some call =>
    let input : GoAny :=
      match call.Args with
      | none => .map []
      | some args => if args.length = 0 then .map [] else .map args
    let inputJSON : String :=
      match json.Marshal input with
      | .ok bytes => bytes
      | .error _ => ""
    .ok { Type_ := "tool_call", Role := role, ToolCallID := call.ID, ToolName := call.Name,
          ToolArgs := inputJSON }

/-- The function `PartToContentBlock`: the first populated field of the part, in the order
text, inline data, file data, function response, function call, decides the message. -/
def PartToContentBlock (ToLower : String → String) (part : Option genai.Part)
    (role : ChatMessageType) : Except GoError Message :=
  match part with
  | none => .ok {}
  | some part =>
    if part.Text ≠ "" then .ok { Role := role, Type_ := "text", Content := part.Text }
    else if part.InlineData.isSome then inlineDataToBlock ToLower part.InlineData role
    else if part.FileData.isSome then fileDataToBlock ToLower part.FileData role
    else if part.FunctionResponse.isSome then functionResponseToBlock part.FunctionResponse role
    else if part.FunctionCall.isSome then functionCallToBlock part.FunctionCall role
    else if part.ExecutableCode.isSome ∨ part.CodeExecutionResult.isSome then
      .error (.errorf "ExecutableCode and CodeExecutionResult are not supported by Anthropic" [])
    else .ok {}

/-- The first loop of `contentToMessage`: whether some non-nil part carries a
`FunctionResponse`. -/
def hasFunctionResponse (parts : List (Option genai.Part)) : Bool :=
  parts.any fun part =>
    match part with
    | none => false
    | some part => part.FunctionResponse.isSome

/-- The first loop of `contentToMessage`: whether some non-nil part carries a
`FunctionCall`. -/
def hasFunctionCall (parts : List (Option genai.Part)) : Bool :=
  parts.any fun part =>
    match part with
    | none => false
    | some part => part.FunctionCall.isSome

/-- The role decision of `contentToMessage` (the `if`/`else if`/`else` on the two flags). -/
def resolveRole (ToLower : String → String) (content : genai.Content) :
    Except GoError ChatMessageType :=
  if hasFunctionResponse content.Parts then .ok ChatMessageTypeFunction
  else if hasFunctionCall content.Parts then .ok ChatMessageTypeAI
  else mapRole ToLower content.Role

/-- The second loop of `contentToMessage`: `resp` is the slice built so far. A nil part is
skipped; the first part that fails ends the loop with its error, wrapped. -/
def convertParts (ToLower : String → String) (role : ChatMessageType) :
    List (Option genai.Part) → List Message → Except GoError (List Message)
  | [], resp => .ok resp
  | none :: rest, resp => convertParts ToLower role rest resp
  | some part :: rest, resp =>
    match PartToContentBlock ToLower (some part) role with
    | .error err => .error (.wrapf "failed to convert part: %w" err)
    | .ok block => convertParts ToLower role rest (resp ++ [block])

/-- The function `contentToMessage`. -/
def contentToMessage (ToLower : String → String) (content : Option genai.Content) :
    Except GoError (List Message) :=
  match content with
  | none => .ok []
  | some content =>
    if content.Parts.length = 0 then .ok []
    else
      match resolveRole ToLower content with
      | .error err => .error err
      | .ok role => convertParts ToLower role content.Parts []

/-- The loop of `ContentsToMessages`: `messages` is the slice built so far. A nil turn is
skipped; the first turn that fails ends the loop with its error, wrapped, and no message. -/
def convertContents (ToLower : String → String) :
    List (Option genai.Content) → List Message → Except GoError (List Message)
  | [], messages => .ok messages
  | none :: rest, messages => convertContents ToLower rest messages
  | some content :: rest, messages =>
    match contentToMessage ToLower (some content) with
    | .error err => .error (.wrapf "failed to convert content: %w" err)
    | .ok msg => convertContents ToLower rest (messages ++ msg)

/-- The function `ContentsToMessages`. -/
def ContentsToMessages (ToLower : String → String) (contents : List (Option genai.Content)) :
    Except GoError (List Message) :=
  if contents.length = 0 then .ok []
  else convertContents ToLower contents []

/-- The loop of `SystemInstructionToSystem`: `res` is the text built so far. -/
def joinSystemParts : List (Option genai.Part) → String → String
  | [], res => res
  | none :: rest, res => joinSystemParts rest res
  | some part :: rest, res =>
    if part.Text ≠ "" then joinSystemParts rest (res ++ part.Text ++ "\n")
    else joinSystemParts rest res

/-- The function `SystemInstructionToSystem`. -/
def SystemInstructionToSystem (instruction : Option genai.Content) : String :=
  match instruction with
  | none => ""
  | some instruction =>
    if instruction.Parts.length = 0 then ""
    else joinSystemParts instruction.Parts ""

end converters

/-! ## `internal/converters/tools.go`: the tool choice -/

namespace converters

/-- The Go type `toolChoiceKind`, an `int`. -/
abbrev toolChoiceKind := Int

/-- The constant `toolChoiceNone` (`iota` 0). -/
def toolChoiceNone : toolChoiceKind := 0

/-- The constant `toolChoiceAuto` (`iota` 1). -/
def toolChoiceAuto : toolChoiceKind := 1

/-- The constant `toolChoiceAny` (`iota` 2). -/
def toolChoiceAny : toolChoiceKind := 2

/-- The constant `toolChoiceTool` (`iota` 3). -/
def toolChoiceTool : toolChoiceKind := 3

/-- The struct `resolvedToolChoice`; `toolName` is set when `kind` is `toolChoiceTool`. -/
structure resolvedToolChoice where
  kind : toolChoiceKind := 0
  toolName : String := ""
deriving DecidableEq, Repr

/-- The value `ToolConfigToToolChoice` returns as `interface{}`: a Go `string`, or the
`[]byte` of an encoded directive. -/
inductive ToolChoiceValue where
  | string (s : String)
  | bytes (b : String)
deriving DecidableEq, Repr

/-- The function `resolveToolChoice`. -/
def resolveToolChoice (config : Option genai.ToolConfig) : Except GoError resolvedToolChoice :=
  match config with
  | none => .ok { kind := toolChoiceNone }
  | some config =>
    match config.FunctionCallingConfig with
    | none => .ok { kind := toolChoiceNone }
    | some fcc =>
      if fcc.AllowedFunctionNames.length > 1 then
        .error (.errorf
          "Anthropic does not support multiple AllowedFunctionNames (got %d); use a single function name or remove the restriction"
          [toString fcc.AllowedFunctionNames.length])
      else if fcc.Mode = genai.FunctionCallingConfigModeNone then .ok { kind := toolChoiceNone }
      else if fcc.Mode = genai.FunctionCallingConfigModeAuto then .ok { kind := toolChoiceAuto }
      else if fcc.Mode = genai.FunctionCallingConfigModeAny then
        match fcc.AllowedFunctionNames with
        | [name] => .ok { kind := toolChoiceTool, toolName := name }
        | _ => .ok { kind := toolChoiceAny }
      else
        .error (.errorf
          "unsupported FunctionCallingConfig mode %q; supported modes are: ModeNone, ModeAuto, ModeAny"
          [fcc.Mode])

/-- The function `ToolConfigToToolChoice`. The error of `json.Marshal` is discarded, and the
bytes it returns with an error are nil, the empty string. -/
def ToolConfigToToolChoice (config : Option genai.ToolConfig) :
    Except GoError (Option ToolChoiceValue) :=
  match resolveToolChoice config with
  | .error err => .error err
  | .ok resolved =>
    if resolved.kind = toolChoiceNone then .ok (some (.string "none"))
    else if resolved.kind = toolChoiceAuto then .ok (some (.string "auto"))
    else if resolved.kind = toolChoiceAny then .ok (some (.string "required"))
    else if resolved.kind = toolChoiceTool then
      let resp : String :=
        match json.Marshal (.map [("type", .str "tool"),
            ("function", .map [("name", .str resolved.toolName)])]) with
        | .ok bytes => bytes
        | .error _ => ""
      .ok (some (.bytes resp))
    else .error (.errorf "unexpected tool choice kind: %d" [toString resolved.kind])

end converters

/-! ## `request.go` -/

namespace llms

/-- The options of a completion call (`llms.CallOptions`), with the fields `convertRequest`
sets. `LT` is the type of a gateway tool definition (`llms.Tool`). `ToolChoice` is a Go
`any`, `none` when nil. -/
structure CallOptions (LT : Type) where
  MaxTokens : Int := 0
  Temperature : Float := 0
  TopP : Float := 0
  TopK : Int := 0
  StopWords : List String := []
  Tools : List LT := []
  ToolChoice : Option converters.ToolChoiceValue := none

end llms

namespace model

/-- A generation request of the orchestration layer (`model.LLMRequest`). -/
structure LLMRequest (ToolT : Type) where
  Contents : List (Option genai.Content) := []
  Config : Option (genai.GenerateContentConfig ToolT) := none

end model

namespace adkgobedrock

open bedrockclient

/-- The struct `bedrockModel`, without its client handle. -/
structure bedrockModel where
  modelName : String := ""
  maxTokens : Int := 0
deriving DecidableEq, Repr

/-- The Go conversion `int(f)` of a float: truncation toward zero, for a finite `f` in the
range of `int`. For a value outside that range, an infinity or a NaN the result of the Go
conversion depends on the platform and is not what this function returns. -/
def intOfFloat (f : Float) : Int :=
  if f < 0 then -((-f).toUInt64.toNat : Int) else (f.toUInt64.toNat : Int)

/-- The method `convertRequest`. `ToolsToBedrockTools` is the converter of the tool
declarations (`converters.ToolsToBedrockTools`), which cannot fail; the method is
parametric in it and in the two tool types. The result is the pair of the messages and the
options, or the error. The source fills the options by one guarded assignment per field
after `option.MaxTokens = m.maxTokens`; here each field is written with the value it has
after those assignments (a field never assigned keeps its zero value). -/
def convertRequest {ToolT LT : Type} (ToLower : String → String)
    (ToolsToBedrockTools : List (Option ToolT) → List LT)
    (m : bedrockModel) (req : model.LLMRequest ToolT) :
    Except GoError (List Message × llms.CallOptions LT) :=
  match converters.ContentsToMessages ToLower req.Contents with
  | .error err => .error (.wrapf "failed to convert contents: %w" err)
  | .ok messages =>
    match req.Config with
    | none => .ok (messages, { MaxTokens := m.maxTokens })
    | some config =>
      let messages : List Message :=
        match config.SystemInstruction with
        | none => messages
        | some instruction =>
          let systemPrompt := converters.SystemInstructionToSystem (some instruction)
          [{ Role := ChatMessageTypeSystem, Type_ := "text", Content := systemPrompt }]
            ++ messages
      let option : llms.CallOptions LT :=
        { MaxTokens := if config.MaxOutputTokens > 0 then config.MaxOutputTokens else m.maxTokens
          Temperature := match config.Temperature with
            | none => 0
            | some t => t
          TopP := match config.TopP with
            | none => 0
            | some p => p
          TopK := match config.TopK with
            | none => 0
            | some k => intOfFloat k
          StopWords := if config.StopSequences.length > 0 then config.StopSequences else []
          Tools := if config.Tools.length > 0 then ToolsToBedrockTools config.Tools else [] }
      match config.ToolConfig with
      | none => .ok (messages, option)
      | some toolConfig =>
        match converters.ToolConfigToToolChoice (some toolConfig) with
        | .error err => .error err
        | .ok toolChoice => .ok (messages, { option with ToolChoice := toolChoice })

end adkgobedrock

/-! ## `internal/converters/tools.go`: the schema converter -/

namespace genai

/-- A parameter schema (`genai.Schema`), with the fields `SchemaToMap` reads. A pointer field
is `none` when nil, `Default` (a Go `any`) is `none` when nil, `Properties` (a Go map of
schema pointers, given as its key/value pairs) is `none` when nil. The pointers to `int64`
and `float64` are given by the number they point to. The Go field `Type` is `Type_`
here. -/
structure Schema where
  AnyOf : List (Option Schema)
  Default : Option GoAny := none
  Description : String := ""
  Enum : List String := []
  Format : String := ""
  Items : Option Schema
  MaxItems : Option Int := none
  MaxLength : Option Int := none
  Maximum : Option Float64 := none
  MinItems : Option Int := none
  MinLength : Option Int := none
  Minimum : Option Float64 := none
  Nullable : Option Bool := none
  Pattern : String := ""
  Properties : Option (List (String × Option Schema))
  Required : List String := []
  Type_ : String := ""

/-- The zero value `genai.Schema{}`: no field is set. -/
def Schema.zero : Schema :=
  { AnyOf := [], Items := none, Properties := none }

end genai

namespace converters

/-- The guarded assignment `if present { result[key] = value }`, as the entries it adds to
the map. -/
def setIf (present : Bool) (key : String) (value : GoAny) : GoMap :=
  if present then [(key, value)] else []

/-- The guarded assignment `if p != nil { result[key] = *p }`, as the entries it adds to the
map: `value` is `none` when the guard does not hold. -/
def setSome (key : String) (value : Option GoAny) : GoMap :=
  match value with
  | none => []
  | some v => [(key, v)]

/-- A `map[string]any` stored in an `any`; a nil map is a value that `encoding/json` writes
as `null`. -/
def GoAny.ofMap (m : Option GoMap) : GoAny :=
  match m with
  | none => .null
  | some kvs => .map kvs

/-- The Go `len` of a map that may be nil. -/
def mapLen {α : Type} (m : Option (List α)) : Nat :=
  match m with
  | none => 0
  | some kvs => kvs.length

mutual

/-- The function `SchemaToMap`. The map `result` is the list of the entries its guarded
assignments add, in the order of the source; the keys are distinct constants, so no
assignment replaces an earlier one. -/
def SchemaToMap (ToLower : String → String) (schema : Option genai.Schema) : Option GoMap :=
  match schema with
  | none => none
  | some schema =>
    some (
      setIf (schema.Type_ ≠ "") "type" (.str (ToLower schema.Type_)) ++
      setIf (schema.Description ≠ "") "description" (.str schema.Description) ++
      setIf (schema.Enum.length > 0) "enum" (.strings schema.Enum) ++
      setIf (schema.Format ≠ "") "format" (.str schema.Format) ++
      setIf schema.Items.isSome "items" (GoAny.ofMap (SchemaToMap ToLower schema.Items)) ++
      setIf (mapLen schema.Properties > 0) "properties"
        (GoAny.ofMap (schemaPropertiesToMap ToLower schema.Properties)) ++
      setIf (schema.Required.length > 0) "required" (.strings schema.Required) ++
      setIf (schema.Nullable = some true) "nullable" (.bool true) ++
      setSome "default" schema.Default ++
      setSome "minimum" (schema.Minimum.map GoAny.float64) ++
      setSome "maximum" (schema.Maximum.map GoAny.float64) ++
      setSome "minLength" (schema.MinLength.map GoAny.int64) ++
      setSome "maxLength" (schema.MaxLength.map GoAny.int64) ++
      setSome "minItems" (schema.MinItems.map GoAny.int64) ++
      setSome "maxItems" (schema.MaxItems.map GoAny.int64) ++
      setIf (schema.Pattern ≠ "") "pattern" (.str schema.Pattern) ++
      setIf (schema.AnyOf.length > 0 ∧ (anyOfToMaps ToLower schema.AnyOf).length > 0) "anyOf"
        (.maps (anyOfToMaps ToLower schema.AnyOf)))
termination_by sizeOf schema
decreasing_by
  all_goals simp_wf
  all_goals cases schema
  all_goals simp
  all_goals omega

/-- The function `schemaPropertiesToMap`. -/
def schemaPropertiesToMap (ToLower : String → String)
    (props : Option (List (String × Option genai.Schema))) : Option GoMap :=
  match props with
  | none => none
  | some props => some (propertiesToEntries ToLower props)
termination_by sizeOf props

/-- The loop of `schemaPropertiesToMap` over the entries of the map: a nil schema is
skipped. -/
def propertiesToEntries (ToLower : String → String)
    (props : List (String × Option genai.Schema)) : GoMap :=
  match props with
  | [] => []
  | (_, none) :: rest => propertiesToEntries ToLower rest
  | (name, some schema) :: rest =>
    (name, GoAny.ofMap (SchemaToMap ToLower (some schema))) :: propertiesToEntries ToLower rest
termination_by sizeOf props

/-- The loop of `SchemaToMap` over `schema.AnyOf`: the slice `anyOf` it builds, without the
branches for which `SchemaToMap` returns nil. -/
def anyOfToMaps (ToLower : String → String) (branches : List (Option genai.Schema)) :
    List GoMap :=
  match branches with
  | [] => []
  | s :: rest =>
    match SchemaToMap ToLower s with
    | none => anyOfToMaps ToLower rest
    | some m => m :: anyOfToMaps ToLower rest
termination_by sizeOf branches

end

end converters

/-! ## `internal/converters/response.go` -/

namespace genai

/-- The constant `genai.FinishReasonStop`. -/
def FinishReasonStop : String := "STOP"

/-- The constant `genai.FinishReasonMaxTokens`. -/
def FinishReasonMaxTokens : String := "MAX_TOKENS"

/-- The constant `genai.FinishReasonUnspecified`. -/
def FinishReasonUnspecified : String := "FINISH_REASON_UNSPECIFIED"

/-- The token usage of a response (`genai.GenerateContentResponseUsageMetadata`), with the
three `int32` counts the converter sets. -/
structure GenerateContentResponseUsageMetadata where
  PromptTokenCount : Int := 0
  CandidatesTokenCount : Int := 0
  TotalTokenCount : Int := 0
deriving DecidableEq, Repr

end genai

namespace llms

/-- The name and the JSON argument text of a call (`llms.FunctionCall`). -/
structure FunctionCall where
  Name : String := ""
  Arguments : String := ""
deriving DecidableEq, Repr

/-- A tool call of a completion (`llms.ToolCall`). The code dereferences its `FunctionCall`
pointer without a nil check; the embedding takes the pointer as a value. -/
structure ToolCall where
  ID : String := ""
  Type_ : String := ""
  FunctionCall : FunctionCall := {}
deriving DecidableEq, Repr

/-- One candidate of a completion (`llms.ContentChoice`), with the fields the converter
reads; `GenerationInfo` is a `map[string]any`, `none` when nil. -/
structure ContentChoice where
  Content : String := ""
  StopReason : String := ""
  GenerationInfo : Option GoMap := none
  ToolCalls : List ToolCall := []
deriving Repr

/-- The result of a completion call (`llms.ContentResponse`). The code dereferences the
first entry of `Choices` without a nil check; the embedding takes the entries as values. -/
structure ContentResponse where
  Choices : List ContentChoice := []
deriving Repr

end llms

namespace model

/-- A response of the model to the orchestration layer (`model.LLMResponse`), with the
fields this layer sets. -/
structure LLMResponse where
  Content : Option genai.Content := none
  UsageMetadata : Option genai.GenerateContentResponseUsageMetadata := none
  FinishReason : String := ""
  Partial : Bool := false
  TurnComplete : Bool := false
deriving Repr

end model

namespace converters

/-- The Go conversion `int32(n)`: the value of the low 32 bits of `n`, as a signed number.
For an `int` sum `a + b` the conversion `int32(a + b)` is `toInt32 (a + b)` whatever the
width of `int`, since the sum wraps at a multiple of 2^32. -/
def toInt32 (n : Int) : Int := (n + 2147483648) % 4294967296 - 2147483648

/-- The value of a key in a `map[string]any` that may be nil. -/
def mapIndex (m : Option GoMap) (key : String) : Option GoAny :=
  match m with
  | none => none
  | some kvs => kvs.lookup key

/-- The function `UsageToMetadata`: both type assertions `.(int)` have to succeed. -/
def UsageToMetadata (usage : Option GoMap) :
    Except GoError genai.GenerateContentResponseUsageMetadata :=
  match mapIndex usage "input_tokens", mapIndex usage "output_tokens" with
  | some (.int inputTokens), some (.int outputTokens) =>
    .ok { PromptTokenCount := toInt32 inputTokens,
          CandidatesTokenCount := toInt32 outputTokens,
          TotalTokenCount := toInt32 (inputTokens + outputTokens) }
  | _, _ => .error (.errorf "failed to parse usage" [])

/-- The function `StopReasonToFinishReason`. -/
def StopReasonToFinishReason (sr : String) : String :=
  if sr = "end_turn" then genai.FinishReasonStop
  else if sr = "max_tokens" then genai.FinishReasonMaxTokens
  else if sr = "stop_sequence" then genai.FinishReasonStop
  else if sr = "tool_use" then genai.FinishReasonStop
  else genai.FinishReasonUnspecified

/-- The loop of `MessageToLLMResponse` over the tool calls: `parts` is the slice built so
far. `Unmarshal arguments` is `json.Unmarshal([]byte(arguments), &args)` for a fresh empty
map `args`: the error, or the value of `args` afterwards (which is nil after the JSON text
`null`). The first call whose arguments do not parse ends the loop with its error,
wrapped. -/
def convertToolCalls (Unmarshal : String → Except GoError (Option GoMap)) :
    List llms.ToolCall → List (Option genai.Part) → Except GoError (List (Option genai.Part))
  | [], parts => .ok parts
  | functioncall :: rest, parts =>
    match Unmarshal functioncall.FunctionCall.Arguments with
    | .error err => .error (.wrapf "failed to convert content block: %w" err)
    | .ok args =>
      convertToolCalls Unmarshal rest
        (parts ++ [some { FunctionCall := some { ID := functioncall.ID, Name := functioncall.FunctionCall.Name, Args := args } }])

/-- The function `MessageToLLMResponse`; `json.Unmarshal` is the parameter `Unmarshal`
described at `convertToolCalls`. -/
def MessageToLLMResponse (Unmarshal : String → Except GoError (Option GoMap))
    (msg : Option llms.ContentResponse) : Except GoError model.LLMResponse :=
  match msg with
  | none => .error (.errorf "nil message received" [])
  | some msg =>
    match msg.Choices with
    | [] => .error (.errorf "nil message received" [])
    | avaibleChoice :: _ =>
      let parts : List (Option genai.Part) :=
        if avaibleChoice.Content ≠ "" then [some { Text := avaibleChoice.Content }] else []
      match convertToolCalls Unmarshal avaibleChoice.ToolCalls parts with
      | .error err => .error err
      | .ok parts =>
        match UsageToMetadata avaibleChoice.GenerationInfo with
        | .error err => .error err
        | .ok usage =>
          .ok { Content := some { Role := "model", Parts := parts },
                UsageMetadata := some usage,
                FinishReason := StopReasonToFinishReason avaibleChoice.StopReason }

end converters

/-! ## `generate_stream.go` -/

namespace adkgobedrock

open bedrockclient

/-- One call of the consumer of the sequence: `yield(resp, nil)` or `yield(nil, err)`. -/
inductive StreamItem where
  | response (resp : model.LLMResponse)
  | failure (err : GoError)
deriving Repr

/-- One run of the completion client on a streaming call, as the client sees it: it
returns its result, or it hands a chunk to the streaming function and goes on according to
what that function returns (nil, or an error). Every client that returns is such a tree. -/
inductive ClientRun where
  | done (result : Except GoError llms.ContentResponse)
  | chunk (bytes : String) (next : Option GoError → ClientRun)

namespace ClientRun

/-- The chunks a run delivers, and its result, when the streaming function never returns an
error. -/
def uninterrupted : ClientRun → List String × Except GoError llms.ContentResponse
  | done result => ([], result)
  | chunk bytes next => (bytes :: (uninterrupted (next none)).1, (uninterrupted (next none)).2)

/-- A client run that delivers the given chunks in order and then returns the given result,
and that stops and returns the error of the streaming function when that function fails. -/
def scripted (result : Except GoError llms.ContentResponse) : List String → ClientRun
  | [] => done result
  | bytes :: rest =>
    chunk bytes fun answer =>
      match answer with
      | none => scripted result rest
      | some err => done (.error err)

end ClientRun

/-- Whether an item is a response with `TurnComplete` set. -/
def StreamItem.turnComplete : StreamItem → Bool
  | .response resp => resp.TurnComplete
  | .failure _ => false

/-- The partial response the streaming function yields for a chunk. -/
def partialResponse (chunk : String) : model.LLMResponse :=
  { Partial := true, Content := some { Role := "model", Parts := [some { Text := chunk }] } }

/-- The run of the client under the streaming function of `generateStream`. `yield` is the
consumer: it is given the items yielded so far, the last one being the current item, and
answers whether it wants more. `yielded` is the list of the items yielded so far. The result
is what the client returns, and the items yielded when it returns. -/
def runStreaming (yield : List StreamItem → Bool) :
    ClientRun → List StreamItem → Except GoError llms.ContentResponse × List StreamItem
  | .done result, yielded => (result, yielded)
  | .chunk bytes next, yielded =>
    if yield (yielded ++ [.response (partialResponse bytes)]) then
      runStreaming yield (next none) (yielded ++ [.response (partialResponse bytes)])
    else
      runStreaming yield (next (some (.errorf "yield break" [])))
        (yielded ++ [.response (partialResponse bytes)])

/-- What one iteration of the sequence `generateStream` returns does: the calls of `yield`,
in order, and whether the completion client was called. -/
structure StreamRun where
  yielded : List StreamItem := []
  clientCalled : Bool := false
deriving Repr

/-- The method `generateStream`, run against a consumer `yield` (see `runStreaming`) and a
completion client: `CreateCompletion modelName msgs options` is the run of the client for
these arguments. -/
def generateStream {ToolT LT : Type} (ToLower : String → String)
    (ToolsToBedrockTools : List (Option ToolT) → List LT)
    (Unmarshal : String → Except GoError (Option GoMap))
    (CreateCompletion : String → List Message → llms.CallOptions LT → ClientRun)
    (m : bedrockModel) (req : model.LLMRequest ToolT) (yield : List StreamItem → Bool) :
    StreamRun :=
  match convertRequest ToLower ToolsToBedrockTools m req with
  | .error err =>
    { yielded := [.failure (.wrapf "failed to convert request: %w" err)], clientCalled := false }
  | .ok (msgs, options) =>
    match runStreaming yield (CreateCompletion m.modelName msgs options) [] with
    | (.error err, yielded) =>
      { yielded := yielded ++ [.failure (.wrapf "failed to call model: %w" err)],
        clientCalled := true }
    | (.ok originResp, yielded) =>
      match converters.MessageToLLMResponse Unmarshal (some originResp) with
      | .error err =>
        { yielded := yielded ++ [.failure (.wrapf "failed to convert stream response: %w" err)],
          clientCalled := true }
      | .ok resp =>
        { yielded := yielded ++ [.response { resp with TurnComplete := true }],
          clientCalled := true }

end adkgobedrock

/-! ## `internal/converters/tools.go`: the tool declarations -/

namespace jsonschema

/-- A JSON schema (`jsonschema.Schema` of `jsonschema-go`), with the fields the converter
reads. `Enum` is a Go `[]any`; `Items` is `none` when nil; `Properties` (a Go map of schema
pointers, given as its key/value pairs) is `none` when nil. The Go field `Type` is `Type_`
here. -/
structure Schema where
  Type_ : String := ""
  Description : String := ""
  Enum : List GoAny := []
  Items : Option Schema
  Properties : Option (List (String × Option Schema))
  Required : List String := []

/-- The zero value `jsonschema.Schema{}`. -/
def Schema.zero : Schema :=
  { Items := none, Properties := none }

end jsonschema

namespace genai

/-- The dynamic value of the field `ParametersJsonSchema` (a Go `any`) when it is not nil, by
the cases of the type switch of `extractFunctionParams`: a `map[string]any` (`none` when the
map is nil), a `*jsonschema.Schema`, or a value of another type, given by the name of its
type. The code reads `schema.Required` of the pointer without a nil check; the embedding
takes the pointer as a value. -/
inductive JsonSchemaValue where
  | map (schema : Option GoMap)
  | jsonschema (schema : jsonschema.Schema)
  | other (typ : String)

/-- A function declaration (`genai.FunctionDeclaration`), with the fields the converter
reads. `Parameters` is `none` when nil, and so is `ParametersJsonSchema`. -/
structure FunctionDeclaration where
  Name : String := ""
  Description : String := ""
  Parameters : Option Schema := none
  ParametersJsonSchema : Option JsonSchemaValue := none

/-- A tool of a request (`genai.Tool`), with its function declarations. -/
structure Tool where
  FunctionDeclarations : List (Option FunctionDeclaration) := []

end genai

namespace llms

/-- The definition of a function of a gateway tool (`llms.FunctionDefinition`);
`Parameters` is a Go `any`. -/
structure FunctionDefinition where
  Name : String := ""
  Description : String := ""
  Parameters : GoAny := .null

/-- A gateway tool definition (`llms.Tool`); `Function` is `none` when nil. The Go field
`Type` is `Type_` here. -/
structure Tool where
  Type_ : String := ""
  Function : Option FunctionDefinition := none

end llms

namespace converters

mutual

/-- The function `jsonSchemaToProperties`. -/
def jsonSchemaToProperties (schema : Option jsonschema.Schema) : Option GoMap :=
  match schema with
  | none => none
  | some schema =>
    match _h : schema.Properties with
    | none => none
    | some props => some (jsonSchemaEntries props)
termination_by 2 * sizeOf schema
decreasing_by
  all_goals simp_wf
  all_goals cases schema
  all_goals simp at _h
  all_goals subst _h
  all_goals simp
  all_goals omega

/-- The loop of `jsonSchemaToProperties` over the entries of `schema.Properties`: an entry
with a nil schema gets the nil map. -/
def jsonSchemaEntries (props : List (String × Option jsonschema.Schema)) : GoMap :=
  match props with
  | [] => []
  | (name, propSchema) :: rest =>
    (name, GoAny.ofMap (jsonSchemaPropertyToMap propSchema)) :: jsonSchemaEntries rest
termination_by 2 * sizeOf props
decreasing_by
  all_goals simp_wf
  all_goals omega

/-- The function `jsonSchemaPropertyToMap`. The map `result` is the list of the entries its
guarded assignments add, in the order of the source. -/
def jsonSchemaPropertyToMap (schema : Option jsonschema.Schema) : Option GoMap :=
  match schema with
  | none => none
  | some schema =>
    some (
      setIf (schema.Type_ ≠ "") "type" (.str schema.Type_) ++
      setIf (schema.Description ≠ "") "description" (.str schema.Description) ++
      setIf (schema.Enum.length > 0) "enum" (.slice schema.Enum) ++
      setIf schema.Items.isSome "items" (GoAny.ofMap (jsonSchemaPropertyToMap schema.Items)) ++
      setIf schema.Properties.isSome "properties"
        (GoAny.ofMap (jsonSchemaToProperties (some schema))) ++
      setIf (schema.Required.length > 0) "required" (.strings schema.Required))
termination_by 2 * sizeOf schema + 1
decreasing_by
  all_goals simp_wf
  all_goals cases schema
  all_goals simp
  all_goals omega

end

/-- The loop of `extractRequiredFields` over a `[]any`: the entries that are strings are
appended to the result, in order. -/
def appendStrings : List GoAny → List String
  | [] => []
  | .str s :: rest => s :: appendStrings rest
  | _ :: rest => appendStrings rest

/-- The function `extractRequiredFields`. The argument is a Go `any`, `none` when nil. -/
def extractRequiredFields (v : Option GoAny) : List String :=
  match v with
  | none => []
  | some (.strings req) => req
  | some (.slice req) => appendStrings req
  | some _ => []

/-- The type assertion `v.(map[string]any)` on a Go `any` (`none` when nil): the map when
the assertion holds. It holds for a `GoAny.map`, which is a map that is not nil;
`GoAny.null` is read as the nil interface value, for which it does not hold. -/
def assertMap (v : Option GoAny) : Option GoMap :=
  match v with
  | some (.map props) => some props
  | _ => none

/-- The function `extractFunctionParams`: the pair of `properties` and `required`.
`properties` starts as the empty map and is replaced by the map a converter returns when
that map is not nil (for the raw map: when the type assertion holds), which is
`Option.getD` with the empty map. -/
def extractFunctionParams (ToLower : String → String) (fd : genai.FunctionDeclaration) :
    GoMap × List String :=
  match fd.Parameters with
  | some parameters =>
    ((schemaPropertiesToMap ToLower parameters.Properties).getD [], parameters.Required)
  | none =>
    match fd.ParametersJsonSchema with
    | none => ([], [])
    | some (.map schema) =>
      ((assertMap (mapIndex schema "properties")).getD [],
       extractRequiredFields (mapIndex schema "required"))
    | some (.jsonschema schema) =>
      ((jsonSchemaToProperties (some schema)).getD [],
       if schema.Required.length > 0 then schema.Required else [])
    | some (.other _) => ([], [])

/-- The function `FunctionDeclarationToTool`. The map literal of `Parameters` is the list of
its three entries. A nil `required` and an empty one are the same list here, so the value
under `required` does not tell which of the two the code stores (`encoding/json` writes
the first as `null`, the second as `[]`). -/
def FunctionDeclarationToTool (ToLower : String → String) (fd : genai.FunctionDeclaration) :
    llms.Tool :=
  { Type_ := "function",
    Function := some { Name := fd.Name, Description := fd.Description, Parameters := .map [("type", .str "object"), ("properties", .map (extractFunctionParams ToLower fd).1), ("required", .strings (extractFunctionParams ToLower fd).2)] } }

/-- The inner loop of `ToolsToBedrockTools` over the declarations of one tool: a nil
declaration is skipped. -/
def declarationsToTools (ToLower : String → String) :
    List (Option genai.FunctionDeclaration) → List llms.Tool
  | [] => []
  | none :: rest => declarationsToTools ToLower rest
  | some fd :: rest => FunctionDeclarationToTool ToLower fd :: declarationsToTools ToLower rest

/-- The function `ToolsToBedrockTools`: a nil tool and a tool without declarations add
nothing. -/
def ToolsToBedrockTools (ToLower : String → String) :
    List (Option genai.Tool) → List llms.Tool
  | [] => []
  | none :: rest => ToolsToBedrockTools ToLower rest
  | some tool :: rest =>
    declarationsToTools ToLower tool.FunctionDeclarations ++ ToolsToBedrockTools ToLower rest

end converters

/-! ## `bedrock.go` -/

namespace adkgobedrock

/-- The constant `defaultMaxTokens`. -/
def defaultMaxTokens : Int := 4096

/-- The constructor `NewModel`, without the client handle. -/
def NewModel (modelName : String) (maxTokens : Int) : bedrockModel :=
  { modelName := modelName,
    maxTokens := if maxTokens ≤ 0 then defaultMaxTokens else maxTokens }

end adkgobedrock

/-! ## Lemmas on the two loops -/

namespace converters

open bedrockclient

/-- The accumulator of the part loop is a prefix of its result. -/
theorem convertParts_acc (ToLower : String → String) (role : ChatMessageType)
    (parts : List (Option genai.Part)) (acc : List Message) :
    convertParts ToLower role parts acc =
      match convertParts ToLower role parts [] with
      | .ok msgs => .ok (acc ++ msgs)
      | .error err => .error err := by
  induction parts generalizing acc with
  | nil => simp [convertParts]
  | cons p rest ih =>
    cases p with
    | none => simpa [convertParts] using ih acc
    | some part =>
      simp only [convertParts]
      cases hb : PartToContentBlock ToLower (some part) role with
      | error err => rfl
      | ok block =>
        simp only []
        rw [ih (acc ++ [block]), ih ([] ++ [block])]
        cases convertParts ToLower role rest [] with
        | error err => rfl
        | ok msgs => simp

/-- The part loop, one step at a non-nil part. -/
theorem convertParts_cons_some (ToLower : String → String) (role : ChatMessageType)
    (part : genai.Part) (rest : List (Option genai.Part)) :
    convertParts ToLower role (some part :: rest) [] =
      match PartToContentBlock ToLower (some part) role with
      | .error err => .error (.wrapf "failed to convert part: %w" err)
      | .ok block =>
        match convertParts ToLower role rest [] with
        | .ok msgs => .ok (block :: msgs)
        | .error err => .error err := by
  simp only [convertParts]
  cases hb : PartToContentBlock ToLower (some part) role with
  | error err => rfl
  | ok block =>
    simp only []
    rw [convertParts_acc]
    cases convertParts ToLower role rest [] with
    | error err => rfl
    | ok msgs => simp

/-- A successful part loop yields one message per non-nil part, in order, each the
conversion of its part under the given role. -/
theorem convertParts_ok (ToLower : String → String) (role : ChatMessageType)
    (parts : List (Option genai.Part)) (msgs : List Message)
    (h : convertParts ToLower role parts [] = .ok msgs) :
    List.Forall₂ (fun part m => PartToContentBlock ToLower (some part) role = .ok m)
      (parts.filterMap id) msgs := by
  induction parts generalizing msgs with
  | nil =>
    simp [convertParts] at h
    subst h
    exact List.Forall₂.nil
  | cons p rest ih =>
    cases p with
    | none =>
      simp only [convertParts] at h
      simpa using ih msgs h
    | some part =>
      rw [convertParts_cons_some] at h
      cases hb : PartToContentBlock ToLower (some part) role with
      | error err => simp [hb] at h
      | ok block =>
        cases hr : convertParts ToLower role rest [] with
        | error err => simp [hb, hr] at h
        | ok tail =>
          simp [hb, hr] at h
          subst h
          have hcons : List.Forall₂
              (fun part m => PartToContentBlock ToLower (some part) role = .ok m)
              (part :: rest.filterMap id) (block :: tail) :=
            List.Forall₂.cons hb (ih tail hr)
          simpa using hcons

/-- A part loop fails only with a wrapped part error. -/
theorem convertParts_error (ToLower : String → String) (role : ChatMessageType)
    (parts : List (Option genai.Part)) (err : GoError)
    (h : convertParts ToLower role parts [] = .error err) :
    ∃ part inner, some part ∈ parts ∧ PartToContentBlock ToLower (some part) role = .error inner ∧
      err = .wrapf "failed to convert part: %w" inner := by
  induction parts with
  | nil => simp [convertParts] at h
  | cons p rest ih =>
    cases p with
    | none =>
      simp only [convertParts] at h
      obtain ⟨part, inner, hm, hp, he⟩ := ih h
      exact ⟨part, inner, List.mem_cons_of_mem _ hm, hp, he⟩
    | some part =>
      rw [convertParts_cons_some] at h
      cases hb : PartToContentBlock ToLower (some part) role with
      | error inner =>
        simp [hb] at h
        exact ⟨part, inner, List.mem_cons_self _ _, hb, h.symm⟩
      | ok block =>
        cases hr : convertParts ToLower role rest [] with
        | error e2 =>
          simp [hb, hr] at h
          subst h
          obtain ⟨part2, inner, hm, hp, he⟩ := ih hr
          exact ⟨part2, inner, List.mem_cons_of_mem _ hm, hp, he⟩
        | ok tail => simp [hb, hr] at h

/-- A part loop that meets a failing part fails. -/
theorem convertParts_fails_of_mem (ToLower : String → String) (role : ChatMessageType)
    (parts : List (Option genai.Part)) (part : genai.Part) (inner : GoError)
    (hm : some part ∈ parts) (hp : PartToContentBlock ToLower (some part) role = .error inner) :
    ∃ err, convertParts ToLower role parts [] = .error err := by
  induction parts with
  | nil => simp at hm
  | cons p rest ih =>
    cases p with
    | none =>
      simp only [convertParts]
      simp at hm
      exact ih hm
    | some q =>
      rw [convertParts_cons_some]
      cases hb : PartToContentBlock ToLower (some q) role with
      | error e => exact ⟨_, rfl⟩
      | ok block =>
        have hm2 : some part ∈ rest := by
          rcases List.mem_cons.mp hm with h1 | h1
          · have : part = q := by simpa using h1
            subst this
            rw [hp] at hb
            cases hb
          · exact h1
        obtain ⟨e, he⟩ := ih hm2
        exact ⟨e, by simp [he]⟩

/-- The flag `hasFunctionResponse` is set exactly when some non-nil part carries a
`FunctionResponse`. -/
theorem hasFunctionResponse_iff (parts : List (Option genai.Part)) :
    hasFunctionResponse parts = true ↔
      ∃ part, some part ∈ parts ∧ part.FunctionResponse.isSome = true := by
  unfold hasFunctionResponse
  rw [List.any_eq_true]
  constructor
  · rintro ⟨p, hm, hp⟩
    cases p with
    | none => simp at hp
    | some part => exact ⟨part, hm, hp⟩
  · rintro ⟨part, hm, hp⟩
    exact ⟨some part, hm, hp⟩

/-- The flag `hasFunctionCall` is set exactly when some non-nil part carries a
`FunctionCall`. -/
theorem hasFunctionCall_iff (parts : List (Option genai.Part)) :
    hasFunctionCall parts = true ↔
      ∃ part, some part ∈ parts ∧ part.FunctionCall.isSome = true := by
  unfold hasFunctionCall
  rw [List.any_eq_true]
  constructor
  · rintro ⟨p, hm, hp⟩
    cases p with
    | none => simp at hp
    | some part => exact ⟨part, hm, hp⟩
  · rintro ⟨part, hm, hp⟩
    exact ⟨some part, hm, hp⟩

/-- The part loop over a concatenation: the first list is converted, then the second. -/
theorem convertParts_append (ToLower : String → String) (role : ChatMessageType)
    (before after : List (Option genai.Part)) (acc : List Message) :
    convertParts ToLower role (before ++ after) acc =
      match convertParts ToLower role before acc with
      | .ok msgs => convertParts ToLower role after msgs
      | .error err => .error err := by
  induction before generalizing acc with
  | nil => simp [convertParts]
  | cons p rest ih =>
    cases p with
    | none => simpa [convertParts] using ih acc
    | some part =>
      simp only [List.cons_append, convertParts]
      cases PartToContentBlock ToLower (some part) role with
      | error err => rfl
      | ok block => exact ih _

/-- The accumulator of the turn loop is a prefix of its result. -/
theorem convertContents_acc (ToLower : String → String)
    (contents : List (Option genai.Content)) (acc : List Message) :
    convertContents ToLower contents acc =
      match convertContents ToLower contents [] with
      | .ok msgs => .ok (acc ++ msgs)
      | .error err => .error err := by
  induction contents generalizing acc with
  | nil => simp [convertContents]
  | cons c rest ih =>
    cases c with
    | none => simpa [convertContents] using ih acc
    | some content =>
      simp only [convertContents]
      cases contentToMessage ToLower (some content) with
      | error err => rfl
      | ok msg =>
        simp only []
        rw [ih (acc ++ msg), ih ([] ++ msg)]
        cases convertContents ToLower rest [] with
        | error err => rfl
        | ok msgs => simp

/-- The turn loop over a concatenation: the first list is converted, then the second. -/
theorem convertContents_append (ToLower : String → String)
    (before after : List (Option genai.Content)) (acc : List Message) :
    convertContents ToLower (before ++ after) acc =
      match convertContents ToLower before acc with
      | .ok msgs => convertContents ToLower after msgs
      | .error err => .error err := by
  induction before generalizing acc with
  | nil => simp [convertContents]
  | cons c rest ih =>
    cases c with
    | none => simpa [convertContents] using ih acc
    | some content =>
      simp only [List.cons_append, convertContents]
      cases contentToMessage ToLower (some content) with
      | error err => rfl
      | ok msg => exact ih _

/-- The function `ContentsToMessages` is the turn loop started with no message. -/
theorem ContentsToMessages_eq (ToLower : String → String)
    (contents : List (Option genai.Content)) :
    ContentsToMessages ToLower contents = convertContents ToLower contents [] := by
  cases contents with
  | nil => rfl
  | cons c rest => simp [ContentsToMessages]

/-- A Turn that holds a part which fails under every role does not convert. -/
theorem contentToMessage_fails_of_part (ToLower : String → String) (content : genai.Content)
    (part : genai.Part) (hm : some part ∈ content.Parts)
    (hp : ∀ role, ∃ inner, PartToContentBlock ToLower (some part) role = .error inner) :
    ∃ err, contentToMessage ToLower (some content) = .error err := by
  have hlen : content.Parts.length ≠ 0 := by
    intro h0
    rw [List.length_eq_zero.mp h0] at hm
    simp at hm
  simp only [contentToMessage, hlen, if_false]
  cases hr : resolveRole ToLower content with
  | error err => exact ⟨err, rfl⟩
  | ok r =>
    obtain ⟨inner, hin⟩ := hp r
    exact convertParts_fails_of_mem ToLower r content.Parts part inner hm hin

/-- A sequence of Turns that holds a Turn which does not convert does not convert. -/
theorem ContentsToMessages_fails_of_content (ToLower : String → String)
    (contents : List (Option genai.Content)) (content : genai.Content)
    (hc : some content ∈ contents)
    (herr : ∃ err, contentToMessage ToLower (some content) = .error err) :
    ∃ err, ContentsToMessages ToLower contents = .error err := by
  obtain ⟨err, herr⟩ := herr
  rw [ContentsToMessages_eq]
  have key : ∀ (cs : List (Option genai.Content)) (acc : List Message),
      some content ∈ cs → ∃ e, convertContents ToLower cs acc = .error e := by
    intro cs
    induction cs with
    | nil => intro acc h; simp at h
    | cons c rest ih =>
      intro acc h
      cases c with
      | none =>
        simp only [convertContents]
        simp at h
        exact ih acc h
      | some c0 =>
        simp only [convertContents]
        cases hc0 : contentToMessage ToLower (some c0) with
        | error e => exact ⟨_, rfl⟩
        | ok msg =>
          have h2 : some content ∈ rest := by
            rcases List.mem_cons.mp h with h1 | h1
            · have : content = c0 := by simpa using h1
              subst this
              rw [herr] at hc0
              cases hc0
            · exact h1
          exact ih _ h2
  exact key contents [] hc

end converters

namespace converters

open bedrockclient

/-- A message built from a part that carries a `FunctionResponse` or a `FunctionCall` has the
role the part was converted under. -/
theorem PartToContentBlock_function_role (ToLower : String → String) (part : genai.Part)
    (role : ChatMessageType) (m : Message)
    (hFn : part.FunctionResponse.isSome = true ∨ part.FunctionCall.isSome = true)
    (h : PartToContentBlock ToLower (some part) role = .ok m) : m.Role = role := by
  unfold PartToContentBlock at h
  simp only [] at h
  split at h
  · cases h; rfl
  · split at h
    · rename_i hI
      cases hb : part.InlineData with
      | none => simp [hb] at hI
      | some blob =>
        rw [hb] at h
        simp only [inlineDataToBlock] at h
        split at h
        · split at h
          · cases h
          · cases h; rfl
        · cases h
    · split at h
      · rename_i hF
        cases hb : part.FileData with
        | none => simp [hb] at hF
        | some fileData =>
          rw [hb] at h
          simp only [fileDataToBlock] at h
          split at h
          · cases h; rfl
          · cases h
      · split at h
        · rename_i hR
          cases hb : part.FunctionResponse with
          | none => simp [hb] at hR
          | some resp =>
            rw [hb] at h
            simp only [functionResponseToBlock] at h
            split at h
            · cases h
            · split at h
              · cases h; rfl
              · split at h
                · cases h
                · cases h; rfl
        · split at h
          · rename_i hC
            cases hb : part.FunctionCall with
            | none => simp [hb] at hC
            | some call =>
              rw [hb] at h
              simp only [functionCallToBlock] at h
              cases h; rfl
          · rename_i hR hC
            rcases hFn with hFn | hFn
            · exact absurd hFn hR
            · exact absurd hFn hC

/-- C1. Role resolution in `contentToMessage`. If some part of the Turn carries a
`FunctionResponse` the effective role is the tool-result role, and otherwise, if some part
carries a `FunctionCall`, it is the assistant role; this holds whatever the nominal role of
the Turn is. The conversion then never fails with an unsupported-role error (a failure is
the wrapped failure of one of its parts), and when it succeeds every message built from a
`FunctionResponse` or `FunctionCall` part has that role. -/
theorem contentToMessage_forced_role (ToLower : String → String) (content : genai.Content)
    (role : ChatMessageType)
    (h : ((∃ part, some part ∈ content.Parts ∧ part.FunctionResponse.isSome = true) ∧
            role = ChatMessageTypeFunction) ∨
         ((¬ ∃ part, some part ∈ content.Parts ∧ part.FunctionResponse.isSome = true) ∧
            (∃ part, some part ∈ content.Parts ∧ part.FunctionCall.isSome = true) ∧
            role = ChatMessageTypeAI)) :
    resolveRole ToLower content = .ok role ∧
    (∀ nominal, contentToMessage ToLower (some content) ≠
        .error (.errorf "unsupported role: %s" [nominal])) ∧
    (∀ err, contentToMessage ToLower (some content) = .error err →
        ∃ part inner, some part ∈ content.Parts ∧
          PartToContentBlock ToLower (some part) role = .error inner ∧
          err = .wrapf "failed to convert part: %w" inner) ∧
    (∀ msgs, contentToMessage ToLower (some content) = .ok msgs →
        List.Forall₂
          (fun part m => PartToContentBlock ToLower (some part) role = .ok m ∧
            (part.FunctionResponse.isSome = true ∨ part.FunctionCall.isSome = true →
              m.Role = role))
          (content.Parts.filterMap id) msgs) := by
  have hrole : resolveRole ToLower content = .ok role := by
    unfold resolveRole
    rcases h with ⟨hfr, rfl⟩ | ⟨hnfr, hfc, rfl⟩
    · rw [(hasFunctionResponse_iff _).mpr hfr]; rfl
    · have h1 : hasFunctionResponse content.Parts = false := by
        cases hb : hasFunctionResponse content.Parts with
        | false => rfl
        | true => exact absurd ((hasFunctionResponse_iff _).mp hb) hnfr
      rw [h1, (hasFunctionCall_iff _).mpr hfc]; rfl
  have hne : content.Parts.length ≠ 0 := by
    have : ∃ part, some part ∈ content.Parts := by
      rcases h with ⟨⟨p, hp, _⟩, _⟩ | ⟨_, ⟨p, hp, _⟩, _⟩ <;> exact ⟨p, hp⟩
    obtain ⟨p, hp⟩ := this
    intro h0
    rw [List.length_eq_zero] at h0
    rw [h0] at hp
    simp at hp
  have hrun : contentToMessage ToLower (some content) =
      convertParts ToLower role content.Parts [] := by
    simp only [contentToMessage, hne, if_false, hrole]
  have herr : ∀ err, contentToMessage ToLower (some content) = .error err →
      ∃ part inner, some part ∈ content.Parts ∧
        PartToContentBlock ToLower (some part) role = .error inner ∧
        err = .wrapf "failed to convert part: %w" inner := by
    intro err he
    rw [hrun] at he
    exact convertParts_error ToLower role content.Parts err he
  refine ⟨hrole, ?_, herr, ?_⟩
  · intro nominal he
    obtain ⟨_, _, _, _, hw⟩ := herr _ he
    cases hw
  · intro msgs hok
    rw [hrun] at hok
    refine (convertParts_ok ToLower role content.Parts msgs hok).imp ?_
    intro part m hpm
    exact ⟨hpm, fun hFn => PartToContentBlock_function_role ToLower part role m hFn hpm⟩

/-- C1, at a Turn of nominal role `tool` (which `mapRole` rejects) with a `FunctionCall` part
and a `FunctionResponse` part: the role is the tool-result role, and both messages carry
it. -/
theorem contentToMessage_forced_role_witness :
    mapRole strings.ToLower "tool" = .error (.errorf "unsupported role: %s" ["tool"]) ∧
    resolveRole strings.ToLower
      { Role := "tool",
        Parts := [some { FunctionCall := some { ID := "c1", Name := "f" } },
                  some { FunctionResponse := some { ID := "c1", Name := "f" } }] } =
      .ok ChatMessageTypeFunction ∧
    contentToMessage strings.ToLower
      (some { Role := "tool",
              Parts := [some { FunctionCall := some { ID := "c1", Name := "f" } },
                        some { FunctionResponse := some { ID := "c1", Name := "f" } }] }) =
      .ok [{ Role := ChatMessageTypeFunction, Type_ := "tool_call", ToolCallID := "c1",
             ToolName := "f", ToolArgs := "\x7b\x7d" },
           { Role := ChatMessageTypeFunction, Type_ := "tool_result", ToolUseID := "c1" }] :=
  ⟨by decide,
   (contentToMessage_forced_role strings.ToLower
      { Role := "tool",
        Parts := [some { FunctionCall := some { ID := "c1", Name := "f" } },
                  some { FunctionResponse := some { ID := "c1", Name := "f" } }] }
      ChatMessageTypeFunction
      (Or.inl ⟨⟨{ FunctionResponse := some { ID := "c1", Name := "f" } }, by simp, rfl⟩,
        rfl⟩)).1,
   by decide⟩

end converters

namespace converters

open bedrockclient

/-- C2, as stated, fails: the role string `USER` is none of `user`, `model`, `assistant`, and
`mapRole` maps it to the human role instead of rejecting it (likewise `Model` to the
assistant role), because the role is compared in lower case. -/
theorem mapRole_accepts_upper_case :
    "USER" ≠ "user" ∧ "USER" ≠ "model" ∧ "USER" ≠ "assistant" ∧
    mapRole strings.ToLower "USER" = .ok ChatMessageTypeHuman ∧
    mapRole strings.ToLower "Model" = .ok ChatMessageTypeAI := by
  decide

/-- C2, amended. For a Turn with no `FunctionResponse` and no `FunctionCall` part the role is
the one `mapRole` gives to the nominal role, and `mapRole` decides on the lower-cased role
string: `user` maps to human, `model` and `assistant` map to assistant, and a role whose
lower-cased form is none of the three is rejected with the unsupported-role error (which
then is the error of the conversion of a Turn that has parts). -/
theorem mapRole_lower_cased (ToLower : String → String) (content : genai.Content)
    (hFR : ¬ ∃ part, some part ∈ content.Parts ∧ part.FunctionResponse.isSome = true)
    (hFC : ¬ ∃ part, some part ∈ content.Parts ∧ part.FunctionCall.isSome = true) :
    resolveRole ToLower content = mapRole ToLower content.Role ∧
    (ToLower content.Role = "user" →
      mapRole ToLower content.Role = .ok ChatMessageTypeHuman) ∧
    (ToLower content.Role = "model" ∨ ToLower content.Role = "assistant" →
      mapRole ToLower content.Role = .ok ChatMessageTypeAI) ∧
    (ToLower content.Role ≠ "user" → ToLower content.Role ≠ "model" →
      ToLower content.Role ≠ "assistant" →
      mapRole ToLower content.Role = .error (.errorf "unsupported role: %s" [content.Role]) ∧
      (content.Parts ≠ [] →
        contentToMessage ToLower (some content) =
          .error (.errorf "unsupported role: %s" [content.Role]))) := by
  have h1 : hasFunctionResponse content.Parts = false := by
    cases hb : hasFunctionResponse content.Parts with
    | false => rfl
    | true => exact absurd ((hasFunctionResponse_iff _).mp hb) hFR
  have h2 : hasFunctionCall content.Parts = false := by
    cases hb : hasFunctionCall content.Parts with
    | false => rfl
    | true => exact absurd ((hasFunctionCall_iff _).mp hb) hFC
  have hres : resolveRole ToLower content = mapRole ToLower content.Role := by
    simp [resolveRole, h1, h2]
  refine ⟨hres, ?_, ?_, ?_⟩
  · intro hu
    simp [mapRole, hu]
  · intro hm
    have hnu : ToLower content.Role ≠ "user" := by
      rcases hm with hm | hm <;> rw [hm] <;> decide
    simp [mapRole, hnu, hm]
  · intro hu hm ha
    have hmap : mapRole ToLower content.Role =
        .error (.errorf "unsupported role: %s" [content.Role]) := by
      simp [mapRole, hu, hm, ha]
    refine ⟨hmap, ?_⟩
    intro hne
    have hlen : content.Parts.length ≠ 0 := by
      intro h0
      exact hne (List.length_eq_zero.mp h0)
    simp only [contentToMessage, hlen, if_false, hres, hmap]

/-- C2, amended, at the Turn of nominal role `Assistant` with one text part: the role is the
assistant role. -/
theorem mapRole_lower_cased_witness :
    strings.ToLower "Assistant" = "assistant" ∧
    mapRole strings.ToLower "Assistant" = .ok ChatMessageTypeAI :=
  ⟨by decide,
   (mapRole_lower_cased strings.ToLower
      { Role := "Assistant", Parts := [some { Text := "hi" }] }
      (by simp) (by simp)).2.2.1 (Or.inr (by decide))⟩

/-- C3, at the failing input: the Turn of role `user` whose one part is the text part with
the empty string converts to one message, the zero message, whose role is empty and not the
resolved role (human). -/
theorem contentToMessage_empty_text_part :
    resolveRole strings.ToLower { Role := "user", Parts := [some { Text := "" }] } =
      .ok ChatMessageTypeHuman ∧
    contentToMessage strings.ToLower (some { Role := "user", Parts := [some { Text := "" }] }) =
      .ok [{ Role := "", Type_ := "", Content := "" }] ∧
    ("" : ChatMessageType) ≠ ChatMessageTypeHuman ∧
    contentToMessage strings.ToLower (some { Role := "user", Parts := [some { Text := "x" }] }) =
      .ok [{ Role := ChatMessageTypeHuman, Type_ := "text", Content := "x" }] := by
  decide

/-- C5. For a `FunctionCall` whose argument map is nil or empty, `functionCallToBlock`
succeeds with the message of type `tool_call` that carries the given role, the id and the
name of the call, and whose arguments are exactly the two characters of the empty JSON
object (so neither `null` nor the empty string); a part whose first populated field is that
call converts to the same message. -/
theorem functionCallToBlock_empty_args (ToLower : String → String) (call : genai.FunctionCall)
    (role : ChatMessageType) (h : call.Args = none ∨ call.Args = some []) :
    functionCallToBlock (some call) role =
      .ok { Type_ := "tool_call", Role := role, ToolCallID := call.ID, ToolName := call.Name,
            ToolArgs := "\x7b\x7d" } ∧
    ("\x7b\x7d" : String).data = [Char.ofNat 123, Char.ofNat 125] ∧
    ("\x7b\x7d" : String) ≠ "null" ∧ ("\x7b\x7d" : String) ≠ "" ∧
    (∀ part : genai.Part, part.Text = "" → part.InlineData = none → part.FileData = none →
      part.FunctionResponse = none → part.FunctionCall = some call →
      PartToContentBlock ToLower (some part) role =
        .ok { Type_ := "tool_call", Role := role, ToolCallID := call.ID, ToolName := call.Name,
              ToolArgs := "\x7b\x7d" }) := by
  have hcall : functionCallToBlock (some call) role =
      .ok { Type_ := "tool_call", Role := role, ToolCallID := call.ID, ToolName := call.Name,
            ToolArgs := "\x7b\x7d" } := by
    have hm : json.Marshal (.map []) = .ok "\x7b\x7d" := by decide
    rcases h with h | h <;> simp [functionCallToBlock, h, hm]
  refine ⟨hcall, by decide, by decide, by decide, ?_⟩
  intro part hT hI hF hR hC
  simp only [PartToContentBlock, hT, hI, hF, hR, hC, ne_eq, not_true_eq_false, if_false,
    Option.isSome_none, Option.isSome_some, Bool.false_eq_true, if_true]
  exact hcall

/-- C5, at a call with a nil argument map and under the assistant role. -/
theorem functionCallToBlock_empty_args_witness :
    functionCallToBlock (some { ID := "c1", Name := "get_weather", Args := none })
        ChatMessageTypeAI =
      .ok { Type_ := "tool_call", Role := ChatMessageTypeAI, ToolCallID := "c1",
            ToolName := "get_weather", ToolArgs := "\x7b\x7d" } :=
  (functionCallToBlock_empty_args strings.ToLower
    { ID := "c1", Name := "get_weather", Args := none } ChatMessageTypeAI (Or.inl rfl)).1

end converters

namespace strings

/-- The model of `strings.HasPrefix` says that `s` is `pre` followed by some text. -/
theorem HasPrefix_iff (s pre : String) : HasPrefix s pre = true ↔ ∃ rest, s = pre ++ rest := by
  unfold HasPrefix
  rw [List.isPrefixOf_iff_prefix]
  constructor
  · rintro ⟨t, ht⟩
    refine ⟨⟨t⟩, ?_⟩
    apply String.ext
    simp [String.data_append, ht]
  · rintro ⟨rest, rfl⟩
    exact ⟨rest.data, by simp [String.data_append]⟩

end strings

namespace converters

open bedrockclient

/-- C6, as stated, fails at every part in which a field that `PartToContentBlock` tests
before the code fields is populated as well: a part with `ExecutableCode` or
`CodeExecutionResult` and, besides, a text, an inline image, an image file, a
`FunctionResponse` or a `FunctionCall` is converted to the message of that field, without
the code, and with no error; the Turn that holds the part converts. -/
theorem PartToContentBlock_code_not_rejected :
    PartToContentBlock strings.ToLower
        (some { Text := "x", ExecutableCode := some { Code := "print(1)", Language := "PYTHON" } })
        ChatMessageTypeHuman =
      .ok { Role := ChatMessageTypeHuman, Type_ := "text", Content := "x" } ∧
    PartToContentBlock strings.ToLower
        (some { InlineData := some { MIMEType := "image/png", Data := "PNG" },
                CodeExecutionResult := some { Outcome := "OUTCOME_OK", Output := "1" } })
        ChatMessageTypeHuman =
      .ok { Role := ChatMessageTypeHuman, Type_ := "image", MimeType := "image/png",
            Content := "PNG" } ∧
    PartToContentBlock strings.ToLower
        (some { FileData := some { FileURI := "s3://bucket/cat.png", MIMEType := "image/png" },
                ExecutableCode := some { Code := "print(1)", Language := "PYTHON" } })
        ChatMessageTypeHuman =
      .ok { Role := ChatMessageTypeHuman, Type_ := "image_url",
            Content := "s3://bucket/cat.png" } ∧
    PartToContentBlock strings.ToLower
        (some { FunctionResponse := some { ID := "call_1", Name := "f" },
                CodeExecutionResult := some { Outcome := "OUTCOME_OK", Output := "1" } })
        ChatMessageTypeFunction =
      .ok { Role := ChatMessageTypeFunction, Type_ := "tool_result", ToolUseID := "call_1" } ∧
    PartToContentBlock strings.ToLower
        (some { FunctionCall := some { ID := "call_1", Name := "f" },
                ExecutableCode := some { Code := "print(1)", Language := "PYTHON" } })
        ChatMessageTypeAI =
      .ok { Role := ChatMessageTypeAI, Type_ := "tool_call", ToolCallID := "call_1",
            ToolName := "f", ToolArgs := "\x7b\x7d" } ∧
    contentToMessage strings.ToLower
        (some { Role := "user",
                Parts := [some { Text := "x", ExecutableCode := some { Code := "print(1)", Language := "PYTHON" } }] }) =
      .ok [{ Role := ChatMessageTypeHuman, Type_ := "text", Content := "x" }] := by
  decide

/-- C6, amended. A part in which `ExecutableCode` or `CodeExecutionResult` is populated and
none of the fields tested before them is (no text, no inline data, no file data, no
`FunctionResponse`, no `FunctionCall`: the one populated variant of the data model) is
rejected by `PartToContentBlock` with the not-supported error, and the conversion of every
Turn and of every sequence that holds such a part fails: no message is returned in which
the unsupported content is dropped. -/
theorem PartToContentBlock_rejects_code (ToLower : String → String) (part : genai.Part)
    (role : ChatMessageType)
    (hcode : part.ExecutableCode.isSome = true ∨ part.CodeExecutionResult.isSome = true)
    (hText : part.Text = "") (hInline : part.InlineData = none) (hFile : part.FileData = none)
    (hResp : part.FunctionResponse = none) (hCall : part.FunctionCall = none) :
    PartToContentBlock ToLower (some part) role =
      .error (.errorf "ExecutableCode and CodeExecutionResult are not supported by Anthropic" []) ∧
    (∀ content : genai.Content, some part ∈ content.Parts →
      ∃ err, contentToMessage ToLower (some content) = .error err) ∧
    (∀ contents : List (Option genai.Content), ∀ content : genai.Content,
      some content ∈ contents → some part ∈ content.Parts →
      ∃ err, ContentsToMessages ToLower contents = .error err) := by
  have hpart : ∀ r : ChatMessageType, PartToContentBlock ToLower (some part) r =
      .error (.errorf "ExecutableCode and CodeExecutionResult are not supported by Anthropic"
        []) := by
    intro r
    simp only [PartToContentBlock, hText, hInline, hFile, hResp, hCall, ne_eq,
      not_true_eq_false, if_false, Option.isSome_none, Bool.false_eq_true]
    rw [if_pos hcode]
  have hturn : ∀ content : genai.Content, some part ∈ content.Parts →
      ∃ err, contentToMessage ToLower (some content) = .error err := fun content hm =>
    contentToMessage_fails_of_part ToLower content part hm (fun r => ⟨_, hpart r⟩)
  exact ⟨hpart role, hturn, fun contents content hc hm =>
    ContentsToMessages_fails_of_content ToLower contents content hc (hturn content hm)⟩

/-- C6, amended, at a part that holds executable code and nothing else. -/
theorem PartToContentBlock_rejects_code_witness :
    PartToContentBlock strings.ToLower
        (some { ExecutableCode := some { Code := "print(1)", Language := "PYTHON" } })
        ChatMessageTypeHuman =
      .error (.errorf "ExecutableCode and CodeExecutionResult are not supported by Anthropic"
        []) :=
  (PartToContentBlock_rejects_code strings.ToLower
    { ExecutableCode := some { Code := "print(1)", Language := "PYTHON" } }
    ChatMessageTypeHuman (Or.inl rfl) rfl rfl rfl rfl rfl).1

/-- C7. Inline binary data: `inlineDataToBlock` succeeds exactly when the lower-cased MIME
type is one of `image/jpeg`, `image/png`, `image/gif`, `image/webp`; the message then has
type `image`, that media type, the given role and the bytes of the blob as content. Every
other MIME type fails with an unsupported-type error: the unsupported-image-media-type error
when it starts with `image/`, the unsupported-MIME-type error otherwise. -/
theorem inlineDataToBlock_image_types (ToLower : String → String) (blob : genai.Blob)
    (role : ChatMessageType) :
    ((∃ m, inlineDataToBlock ToLower (some blob) role = .ok m) ↔
      ToLower blob.MIMEType ∈ ["image/jpeg", "image/png", "image/gif", "image/webp"]) ∧
    (ToLower blob.MIMEType ∈ ["image/jpeg", "image/png", "image/gif", "image/webp"] →
      inlineDataToBlock ToLower (some blob) role =
        .ok { Role := role, Type_ := "image", MimeType := ToLower blob.MIMEType,
              Content := blob.Data }) ∧
    (ToLower blob.MIMEType ∉ ["image/jpeg", "image/png", "image/gif", "image/webp"] →
      ((∃ rest, ToLower blob.MIMEType = "image/" ++ rest) →
        inlineDataToBlock ToLower (some blob) role =
          .error (.errorf "unsupported image media type: %s" [ToLower blob.MIMEType])) ∧
      ((¬ ∃ rest, ToLower blob.MIMEType = "image/" ++ rest) →
        inlineDataToBlock ToLower (some blob) role =
          .error (.errorf "unsupported MIME type for inline data: %s"
            [ToLower blob.MIMEType]))) := by
  have hin : ToLower blob.MIMEType ∈ ["image/jpeg", "image/png", "image/gif", "image/webp"] →
      inlineDataToBlock ToLower (some blob) role =
        .ok { Role := role, Type_ := "image", MimeType := ToLower blob.MIMEType,
              Content := blob.Data } := by
    intro h
    simp only [List.mem_cons, List.mem_singleton, List.not_mem_nil, or_false] at h
    rcases h with h | h | h | h <;>
      simp only [inlineDataToBlock, h] <;> rfl
  have hout : ToLower blob.MIMEType ∉ ["image/jpeg", "image/png", "image/gif", "image/webp"] →
      ((∃ rest, ToLower blob.MIMEType = "image/" ++ rest) →
        inlineDataToBlock ToLower (some blob) role =
          .error (.errorf "unsupported image media type: %s" [ToLower blob.MIMEType])) ∧
      ((¬ ∃ rest, ToLower blob.MIMEType = "image/" ++ rest) →
        inlineDataToBlock ToLower (some blob) role =
          .error (.errorf "unsupported MIME type for inline data: %s"
            [ToLower blob.MIMEType])) := by
    intro h
    simp only [List.mem_cons, List.mem_singleton, List.not_mem_nil, or_false, not_or] at h
    obtain ⟨h1, h2, h3, h4⟩ := h
    constructor
    · intro hp
      have hp2 := (strings.HasPrefix_iff _ _).mpr hp
      simp [inlineDataToBlock, hp2, mapImageMediaType, h1, h2, h3, h4]
    · intro hp
      have hp2 : strings.HasPrefix (ToLower blob.MIMEType) "image/" = false := by
        cases hb : strings.HasPrefix (ToLower blob.MIMEType) "image/" with
        | false => rfl
        | true => exact absurd ((strings.HasPrefix_iff _ _).mp hb) hp
      simp [inlineDataToBlock, hp2]
  refine ⟨⟨?_, fun h => ⟨_, hin h⟩⟩, hin, hout⟩
  rintro ⟨m, hm⟩
  by_contra hnot
  obtain ⟨ha, hb⟩ := hout hnot
  by_cases hp : ∃ rest, ToLower blob.MIMEType = "image/" ++ rest
  · rw [ha hp] at hm; cases hm
  · rw [hb hp] at hm; cases hm

/-- C7 at three blobs: an upper-case `IMAGE/PNG` is accepted as `image/png`, `image/bmp` and
`application/pdf` are refused. -/
theorem inlineDataToBlock_image_types_witness :
    inlineDataToBlock strings.ToLower (some { MIMEType := "IMAGE/PNG", Data := "png-bytes" })
        ChatMessageTypeHuman =
      .ok { Role := ChatMessageTypeHuman, Type_ := "image", MimeType := "image/png",
            Content := "png-bytes" } ∧
    inlineDataToBlock strings.ToLower (some { MIMEType := "image/bmp", Data := "b" })
        ChatMessageTypeHuman =
      .error (.errorf "unsupported image media type: %s" ["image/bmp"]) ∧
    inlineDataToBlock strings.ToLower (some { MIMEType := "application/pdf", Data := "b" })
        ChatMessageTypeHuman =
      .error (.errorf "unsupported MIME type for inline data: %s" ["application/pdf"]) :=
  ⟨(inlineDataToBlock_image_types strings.ToLower { MIMEType := "IMAGE/PNG", Data := "png-bytes" }
      ChatMessageTypeHuman).2.1 (by decide),
   by decide, by decide⟩

/-- C8. File references: `fileDataToBlock` succeeds exactly when the lower-cased MIME type
starts with `image/`; the message then has type `image_url`, the given role and the file URI,
unchanged, as content. Every other MIME type fails with the unsupported-MIME-type error. -/
theorem fileDataToBlock_image_only (ToLower : String → String) (fileData : genai.FileData)
    (role : ChatMessageType) :
    ((∃ m, fileDataToBlock ToLower (some fileData) role = .ok m) ↔
      ∃ rest, ToLower fileData.MIMEType = "image/" ++ rest) ∧
    ((∃ rest, ToLower fileData.MIMEType = "image/" ++ rest) →
      fileDataToBlock ToLower (some fileData) role =
        .ok { Role := role, Type_ := "image_url", Content := fileData.FileURI }) ∧
    ((¬ ∃ rest, ToLower fileData.MIMEType = "image/" ++ rest) →
      fileDataToBlock ToLower (some fileData) role =
        .error (.errorf "unsupported MIME type for file data: %s"
          [ToLower fileData.MIMEType])) := by
  have hin : (∃ rest, ToLower fileData.MIMEType = "image/" ++ rest) →
      fileDataToBlock ToLower (some fileData) role =
        .ok { Role := role, Type_ := "image_url", Content := fileData.FileURI } := by
    intro hp
    have hp2 := (strings.HasPrefix_iff _ _).mpr hp
    simp [fileDataToBlock, hp2]
  have hout : (¬ ∃ rest, ToLower fileData.MIMEType = "image/" ++ rest) →
      fileDataToBlock ToLower (some fileData) role =
        .error (.errorf "unsupported MIME type for file data: %s"
          [ToLower fileData.MIMEType]) := by
    intro hp
    have hp2 : strings.HasPrefix (ToLower fileData.MIMEType) "image/" = false := by
      cases hb : strings.HasPrefix (ToLower fileData.MIMEType) "image/" with
      | false => rfl
      | true => exact absurd ((strings.HasPrefix_iff _ _).mp hb) hp
    simp [fileDataToBlock, hp2]
  refine ⟨⟨?_, fun h => ⟨_, hin h⟩⟩, hin, hout⟩
  rintro ⟨m, hm⟩
  by_contra hnot
  rw [hout hnot] at hm
  cases hm

/-- C8 at two file references: `Image/TIFF` is accepted, `video/mp4` is refused. -/
theorem fileDataToBlock_image_only_witness :
    fileDataToBlock strings.ToLower
        (some { FileURI := "s3://bucket/scan.tiff", MIMEType := "Image/TIFF" })
        ChatMessageTypeHuman =
      .ok { Role := ChatMessageTypeHuman, Type_ := "image_url",
            Content := "s3://bucket/scan.tiff" } ∧
    fileDataToBlock strings.ToLower
        (some { FileURI := "s3://bucket/clip.mp4", MIMEType := "video/mp4" })
        ChatMessageTypeHuman =
      .error (.errorf "unsupported MIME type for file data: %s" ["video/mp4"]) :=
  ⟨(fileDataToBlock_image_only strings.ToLower
      { FileURI := "s3://bucket/scan.tiff", MIMEType := "Image/TIFF" }
      ChatMessageTypeHuman).2.1 ⟨"tiff", by decide⟩,
   by decide⟩

end converters

namespace converters

open bedrockclient

/-- C4, as stated, fails three ways. A sequence whose second Turn holds a `FunctionResponse`
with an empty id, after a Turn of unsupported role, fails with the error of the first Turn,
which does not name the missing id. A `FunctionResponse` with a non-empty id whose result
holds a value that `encoding/json` cannot encode yields no message but the marshal error.
And a part that holds a `FunctionResponse` with an empty id and, besides, a text, an inline
image or an image file (the fields `PartToContentBlock` tests before the response) converts,
to the message of that field in the function role, without the response and with no
error. -/
theorem ContentsToMessages_missing_id_not_named :
    ContentsToMessages strings.ToLower
        [some { Role := "bogus", Parts := [some { Text := "hi" }] },
         some { Role := "user",
                Parts := [some { FunctionResponse := some { ID := "", Name := "f" } }] }] =
      .error (.wrapf "failed to convert content: %w" (.errorf "unsupported role: %s" ["bogus"])) ∧
    functionResponseToBlock
        (some { ID := "call_1", Name := "f",
                Response := some [("done", GoAny.unsupported "chan int")] })
        ChatMessageTypeFunction =
      .error (.wrapf "failed to marshal function response: %w"
        (.errorf "json: unsupported type: %s" ["chan int"])) ∧
    ContentsToMessages strings.ToLower
        [some { Role := "user",
                Parts := [some { Text := "x", FunctionResponse := some { ID := "", Name := "f" } }] }] =
      .ok [{ Role := ChatMessageTypeFunction, Type_ := "text", Content := "x" }] ∧
    ContentsToMessages strings.ToLower
        [some { Role := "user",
                Parts := [some { InlineData := some { MIMEType := "image/png", Data := "PNG" }, FunctionResponse := some { ID := "", Name := "f" } }] }] =
      .ok [{ Role := ChatMessageTypeFunction, Type_ := "image", MimeType := "image/png",
             Content := "PNG" }] ∧
    ContentsToMessages strings.ToLower
        [some { Role := "user",
                Parts := [some { FileData := some { FileURI := "s3://bucket/cat.png", MIMEType := "image/png" }, FunctionResponse := some { ID := "", Name := "f" } }] }] =
      .ok [{ Role := ChatMessageTypeFunction, Type_ := "image_url",
             Content := "s3://bucket/cat.png" }] := by
  decide

/-- C4, amended. Let some part of a sequence of Turns hold a `FunctionResponse` with an
empty id and none of the fields tested before it (no text, no inline data, no file data).
(1) The sequence does not convert: `ContentsToMessages` returns an error and no message,
not even those of earlier Turns, so the part is not dropped. (2) The error is that of the
first failure: when the Turns before and the parts before convert, it is the missing-id
error, which names the function, wrapped as a part error and as a content error. (3) A
`FunctionResponse` with a non-empty id yields the `tool_result` message with that id as
`ToolUseID`, with empty content when the result is nil and the JSON text of the result when
it encodes; when it does not encode, the conversion fails with the marshal error. -/
theorem ContentsToMessages_missing_id (ToLower : String → String)
    (contents : List (Option genai.Content)) (content : genai.Content) (part : genai.Part)
    (resp : genai.FunctionResponse)
    (hc : some content ∈ contents) (hp : some part ∈ content.Parts)
    (hText : part.Text = "") (hInline : part.InlineData = none) (hFile : part.FileData = none)
    (hResp : part.FunctionResponse = some resp) (hid : resp.ID = "") :
    (∃ err, ContentsToMessages ToLower contents = .error err) ∧
    (∀ before after pbefore pafter msgs pmsgs,
      contents = before ++ some content :: after →
      content.Parts = pbefore ++ some part :: pafter →
      ContentsToMessages ToLower before = .ok msgs →
      convertParts ToLower ChatMessageTypeFunction pbefore [] = .ok pmsgs →
      ContentsToMessages ToLower contents =
        .error (.wrapf "failed to convert content: %w" (.wrapf "failed to convert part: %w"
          (.errorf "FunctionResponse.ID is required for tool call correlation (function: %s)"
            [resp.Name])))) ∧
    (∀ (r : genai.FunctionResponse) (role : ChatMessageType), r.ID ≠ "" →
      (r.Response = none →
        functionResponseToBlock (some r) role =
          .ok { Type_ := "tool_result", ToolUseID := r.ID, Content := "", Role := role }) ∧
      (∀ result text, r.Response = some result → json.Marshal (.map result) = .ok text →
        functionResponseToBlock (some r) role =
          .ok { Type_ := "tool_result", ToolUseID := r.ID, Content := text, Role := role }) ∧
      (∀ result err, r.Response = some result → json.Marshal (.map result) = .error err →
        functionResponseToBlock (some r) role =
          .error (.wrapf "failed to marshal function response: %w" err))) := by
  have hpart : ∀ role : ChatMessageType, PartToContentBlock ToLower (some part) role =
      .error (.errorf "FunctionResponse.ID is required for tool call correlation (function: %s)"
        [resp.Name]) := by
    intro role
    simp [PartToContentBlock, hText, hInline, hFile, hResp, functionResponseToBlock, hid]
  refine ⟨?_, ?_, ?_⟩
  · exact ContentsToMessages_fails_of_content ToLower contents content hc
      (contentToMessage_fails_of_part ToLower content part hp (fun r => ⟨_, hpart r⟩))
  · intro before after pbefore pafter msgs pmsgs hcs hps hbefore hpbefore
    have hlen : content.Parts.length ≠ 0 := by
      rw [hps]; simp
    have hrole : resolveRole ToLower content = .ok ChatMessageTypeFunction := by
      unfold resolveRole
      rw [(hasFunctionResponse_iff _).mpr ⟨part, hp, by simp [hResp]⟩]
      rfl
    have hturn : contentToMessage ToLower (some content) =
        .error (.wrapf "failed to convert part: %w"
          (.errorf "FunctionResponse.ID is required for tool call correlation (function: %s)"
            [resp.Name])) := by
      simp only [contentToMessage, hlen, if_false, hrole]
      rw [hps, convertParts_append, hpbefore]
      simp only [convertParts, hpart]
    rw [ContentsToMessages_eq] at hbefore ⊢
    rw [hcs, convertContents_append, hbefore]
    simp only [convertContents, hturn]
  · intro r role hr
    refine ⟨?_, ?_, ?_⟩
    · intro hn
      simp [functionResponseToBlock, hr, hn]
    · intro result text hn hm
      simp [functionResponseToBlock, hr, hn, hm]
    · intro result err hn hm
      simp [functionResponseToBlock, hr, hn, hm]

/-- C4, amended, at a sequence whose first Turn is valid and whose second Turn holds the
`FunctionResponse` of `get_weather` with an empty id: no message comes back, and the error
names the missing id. -/
theorem ContentsToMessages_missing_id_witness :
    ContentsToMessages strings.ToLower
        [some { Role := "user", Parts := [some { Text := "weather?" }] },
         some { Role := "user",
                Parts := [some { FunctionResponse := some { ID := "", Name := "get_weather" } }] }] =
      .error (.wrapf "failed to convert content: %w" (.wrapf "failed to convert part: %w"
        (.errorf "FunctionResponse.ID is required for tool call correlation (function: %s)"
          ["get_weather"]))) :=
  (ContentsToMessages_missing_id strings.ToLower
    [some { Role := "user", Parts := [some { Text := "weather?" }] },
     some { Role := "user",
            Parts := [some { FunctionResponse := some { ID := "", Name := "get_weather" } }] }]
    { Role := "user",
      Parts := [some { FunctionResponse := some { ID := "", Name := "get_weather" } }] }
    { FunctionResponse := some { ID := "", Name := "get_weather" } }
    { ID := "", Name := "get_weather" }
    (by simp) (by simp) rfl rfl rfl rfl rfl).2.1
    [some { Role := "user", Parts := [some { Text := "weather?" }] }] [] [] []
    [{ Role := ChatMessageTypeHuman, Type_ := "text", Content := "weather?" }] []
    rfl rfl (by decide) rfl

end converters

namespace converters

open bedrockclient

/-- A message built from a part carries the role it was converted under, or is the zero
message of a part with no populated field. -/
theorem PartToContentBlock_role_cases (ToLower : String → String) (part : genai.Part)
    (role : ChatMessageType) (m : Message)
    (h : PartToContentBlock ToLower (some part) role = .ok m) : m.Role = role ∨ m.Role = "" := by
  unfold PartToContentBlock at h
  simp only [] at h
  split at h
  · cases h; exact Or.inl rfl
  · split at h
    · unfold inlineDataToBlock at h
      split at h
      · cases h; exact Or.inr rfl
      · simp only [] at h
        split at h
        · split at h
          · cases h
          · cases h; exact Or.inl rfl
        · cases h
    · split at h
      · unfold fileDataToBlock at h
        split at h
        · cases h; exact Or.inr rfl
        · simp only [] at h
          split at h
          · cases h; exact Or.inl rfl
          · cases h
      · split at h
        · unfold functionResponseToBlock at h
          split at h
          · cases h; exact Or.inr rfl
          · split at h
            · cases h
            · split at h
              · cases h; exact Or.inl rfl
              · split at h
                · cases h
                · cases h; exact Or.inl rfl
        · split at h
          · unfold functionCallToBlock at h
            split at h
            · cases h; exact Or.inr rfl
            · cases h; exact Or.inl rfl
          · split at h
            · cases h
            · cases h; exact Or.inr rfl

/-- The role of a Turn is one of the tool-result, assistant and human roles. -/
theorem resolveRole_cases (ToLower : String → String) (content : genai.Content)
    (role : ChatMessageType) (h : resolveRole ToLower content = .ok role) :
    role = ChatMessageTypeFunction ∨ role = ChatMessageTypeAI ∨ role = ChatMessageTypeHuman := by
  unfold resolveRole mapRole at h
  split at h
  · cases h; exact Or.inl rfl
  · split at h
    · cases h; exact Or.inr (Or.inl rfl)
    · split at h
      · cases h; exact Or.inr (Or.inr rfl)
      · split at h
        · cases h; exact Or.inr (Or.inl rfl)
        · cases h

/-- No message of a converted Turn has the system role. -/
theorem contentToMessage_not_system (ToLower : String → String) (content : genai.Content)
    (msgs : List Message) (h : contentToMessage ToLower (some content) = .ok msgs) :
    ∀ m ∈ msgs, m.Role ≠ ChatMessageTypeSystem := by
  unfold contentToMessage at h
  simp only [] at h
  split at h
  · cases h; simp
  · cases hr : resolveRole ToLower content with
    | error err => simp [hr] at h
    | ok role =>
      simp only [hr] at h
      have hall := convertParts_ok ToLower role content.Parts msgs h
      have hrole := resolveRole_cases ToLower content role hr
      intro m hm
      have hex : ∀ (ps : List genai.Part) (ms : List Message),
          List.Forall₂ (fun part m => PartToContentBlock ToLower (some part) role = .ok m)
            ps ms →
          m ∈ ms → ∃ part, PartToContentBlock ToLower (some part) role = .ok m := by
        intro ps ms hf
        induction hf with
        | nil => intro hmem; simp at hmem
        | cons hab _ ih =>
          intro hmem
          rcases List.mem_cons.mp hmem with h1 | h1
          · subst h1; exact ⟨_, hab⟩
          · exact ih h1
      obtain ⟨part, hpm⟩ := hex _ _ hall hm
      rcases PartToContentBlock_role_cases ToLower part role m hpm with h1 | h1
      · rw [h1]
        rcases hrole with h2 | h2 | h2 <;> rw [h2] <;> decide
      · rw [h1]; decide

/-- No message of a converted sequence of Turns has the system role. -/
theorem ContentsToMessages_not_system (ToLower : String → String)
    (contents : List (Option genai.Content)) (msgs : List Message)
    (h : ContentsToMessages ToLower contents = .ok msgs) :
    ∀ m ∈ msgs, m.Role ≠ ChatMessageTypeSystem := by
  rw [ContentsToMessages_eq] at h
  induction contents generalizing msgs with
  | nil =>
    simp [convertContents] at h
    subst h
    simp
  | cons c rest ih =>
    cases c with
    | none =>
      simp only [convertContents] at h
      exact ih msgs h
    | some content =>
      simp only [convertContents] at h
      cases hc : contentToMessage ToLower (some content) with
      | error err => simp [hc] at h
      | ok msg =>
        simp only [hc] at h
        rw [convertContents_acc] at h
        cases hr : convertContents ToLower rest [] with
        | error err => simp [hr] at h
        | ok tail =>
          simp [hr] at h
          subst h
          intro m hm
          rcases List.mem_append.mp hm with h1 | h1
          · exact contentToMessage_not_system ToLower content msg hc m h1
          · exact ih tail hr m h1

/-- The text `SystemInstructionToSystem` builds: the non-empty texts of the non-nil parts, in
order, each followed by a newline. -/
theorem SystemInstructionToSystem_eq (instruction : genai.Content) :
    SystemInstructionToSystem (some instruction) =
      String.join (((instruction.Parts.filterMap id).filter (fun part => part.Text ≠ "")).map
        (fun part => part.Text ++ "\n")) := by
  have hfold : ∀ (l : List String) (acc : String),
      List.foldl (fun r s => r ++ s) acc l = acc ++ List.foldl (fun r s => r ++ s) "" l := by
    intro l
    induction l with
    | nil => intro acc; simp
    | cons x xs ih =>
      intro acc
      simp only [List.foldl_cons]
      rw [ih (acc ++ x), ih ("" ++ x)]
      simp [String.append_assoc]
  have key : ∀ (parts : List (Option genai.Part)) (res : String),
      joinSystemParts parts res =
        res ++ String.join (((parts.filterMap id).filter (fun part => part.Text ≠ "")).map
          (fun part => part.Text ++ "\n")) := by
    intro parts
    induction parts with
    | nil => intro res; simp [joinSystemParts, String.join]
    | cons p rest ih =>
      intro res
      cases p with
      | none => simpa [joinSystemParts] using ih res
      | some part =>
        by_cases ht : part.Text = ""
        · simpa [joinSystemParts, ht] using ih res
        · have hstep : ((List.filterMap id (some part :: rest)).filter
              (fun part => part.Text ≠ "")).map (fun part => part.Text ++ "\n") =
              (part.Text ++ "\n") :: ((rest.filterMap id).filter
                (fun part => part.Text ≠ "")).map (fun part => part.Text ++ "\n") := by
            simp [ht]
          simp only [joinSystemParts, ne_eq, ht, not_false_eq_true, if_true]
          rw [ih, hstep]
          simp only [String.join, List.foldl_cons]
          rw [hfold _ ("" ++ (part.Text ++ "\n"))]
          simp [String.append_assoc]
  unfold SystemInstructionToSystem
  simp only []
  split
  · rename_i h0
    rw [List.length_eq_zero.mp h0]
    simp [String.join]
  · rw [key]; simp

end converters

namespace adkgobedrock

open bedrockclient converters

/-- The text of a system instruction whose parts are nil or have an empty text is empty. -/
theorem SystemInstructionToSystem_empty (instruction : genai.Content)
    (hempty : ∀ part, some part ∈ instruction.Parts → part.Text = "") :
    SystemInstructionToSystem (some instruction) = "" := by
  rw [SystemInstructionToSystem_eq]
  have hnil : (instruction.Parts.filterMap id).filter (fun part => part.Text ≠ "") = [] := by
    rw [List.filter_eq_nil_iff]
    intro part hm
    have hm2 : some part ∈ instruction.Parts := by
      simpa using hm
    simp [hempty part hm2]
  rw [hnil]
  rfl

/-- C9, as stated, fails: a request with a system instruction whose one Turn converts, and
whose tool configuration allows two function names, is refused by `convertRequest`, which
returns the error of the tool choice and no message list. -/
theorem convertRequest_fails_on_tool_config :
    ContentsToMessages strings.ToLower [some { Role := "user", Parts := [some { Text := "hi" }] }] =
      .ok [{ Role := ChatMessageTypeHuman, Type_ := "text", Content := "hi" }] ∧
    (convertRequest strings.ToLower (fun _ : List (Option Unit) => ([] : List Unit))
        { modelName := "claude", maxTokens := 4096 }
        { Contents := [some { Role := "user", Parts := [some { Text := "hi" }] }],
          Config := some
            { SystemInstruction := some { Parts := [some { Text := "be brief" }] },
              ToolConfig := some { FunctionCallingConfig := some { Mode := "ANY", AllowedFunctionNames := ["get_weather", "get_time"] } } } }).map
        Prod.fst =
      .error (.errorf
        "Anthropic does not support multiple AllowedFunctionNames (got %d); use a single function name or remove the restriction"
        ["2"]) := by
  decide

/-- C9, amended. For a request with a system instruction whose Turns convert and whose
tool configuration resolves to a tool choice, `convertRequest` returns the message list
made of one system-role message of type `text`, whose content is the non-empty texts of the
parts of the instruction in order, each followed by a newline, followed by exactly the
messages of `ContentsToMessages`, none of which has the system role. -/
theorem convertRequest_system_first {ToolT LT : Type} (ToLower : String → String)
    (ToolsToBedrockTools : List (Option ToolT) → List LT) (m : bedrockModel)
    (req : model.LLMRequest ToolT) (config : genai.GenerateContentConfig ToolT)
    (instruction : genai.Content) (msgs : List Message)
    (hcfg : req.Config = some config) (hsys : config.SystemInstruction = some instruction)
    (hmsgs : ContentsToMessages ToLower req.Contents = .ok msgs)
    (htool : ∃ choice, ToolConfigToToolChoice config.ToolConfig = .ok choice) :
    (∃ option, convertRequest ToLower ToolsToBedrockTools m req =
      .ok ({ Role := ChatMessageTypeSystem, Type_ := "text",
             Content := String.join
               (((instruction.Parts.filterMap id).filter (fun part => part.Text ≠ "")).map
                 (fun part => part.Text ++ "\n")) } :: msgs, option)) ∧
    (∀ msg ∈ msgs, msg.Role ≠ ChatMessageTypeSystem) := by
  refine ⟨?_, ContentsToMessages_not_system ToLower req.Contents msgs hmsgs⟩
  obtain ⟨choice, hchoice⟩ := htool
  unfold convertRequest
  simp only [hmsgs, hcfg, hsys, SystemInstructionToSystem_eq]
  cases htc : config.ToolConfig with
  | none => exact ⟨_, rfl⟩
  | some toolConfig =>
    rw [htc] at hchoice
    simp only [hchoice]
    exact ⟨_, rfl⟩

/-- C9, amended, at a request with the system instruction of two text parts and one user
Turn, with no tool configuration. -/
theorem convertRequest_system_first_witness :
    (convertRequest strings.ToLower (fun _ : List (Option Unit) => ([] : List Unit))
        { modelName := "claude", maxTokens := 4096 }
        { Contents := [some { Role := "user", Parts := [some { Text := "hi" }] }],
          Config := some
            { SystemInstruction := some
                { Parts := [some { Text := "be brief" }, some { Text := "" },
                            some { Text := "be kind" }] } } }).map Prod.fst =
      .ok [{ Role := ChatMessageTypeSystem, Type_ := "text", Content := "be brief\nbe kind\n" },
           { Role := ChatMessageTypeHuman, Type_ := "text", Content := "hi" }] := by
  obtain ⟨option, h⟩ := (convertRequest_system_first strings.ToLower
    (fun _ : List (Option Unit) => ([] : List Unit))
    { modelName := "claude", maxTokens := 4096 }
    { Contents := [some { Role := "user", Parts := [some { Text := "hi" }] }],
      Config := some
        { SystemInstruction := some
            { Parts := [some { Text := "be brief" }, some { Text := "" },
                        some { Text := "be kind" }] } } }
    { SystemInstruction := some
        { Parts := [some { Text := "be brief" }, some { Text := "" },
                    some { Text := "be kind" }] } }
    { Parts := [some { Text := "be brief" }, some { Text := "" }, some { Text := "be kind" }] }
    [{ Role := ChatMessageTypeHuman, Type_ := "text", Content := "hi" }]
    rfl rfl (by decide) ⟨_, rfl⟩).1
  rw [h]
  rfl

/-- C10, as stated, fails: with a system instruction that has no parts `convertRequest`
returns a system-role message of empty content before the message of the Turn, and with
no system instruction it returns the message of the Turn alone. -/
theorem convertRequest_empty_instruction_not_omitted :
    (convertRequest strings.ToLower (fun _ : List (Option Unit) => ([] : List Unit))
        { modelName := "claude", maxTokens := 4096 }
        { Contents := [some { Role := "user", Parts := [some { Text := "hi" }] }],
          Config := some { SystemInstruction := some { Parts := [] } } }).map Prod.fst =
      .ok [{ Role := ChatMessageTypeSystem, Type_ := "text", Content := "" },
           { Role := ChatMessageTypeHuman, Type_ := "text", Content := "hi" }] ∧
    (convertRequest strings.ToLower (fun _ : List (Option Unit) => ([] : List Unit))
        { modelName := "claude", maxTokens := 4096 }
        { Contents := [some { Role := "user", Parts := [some { Text := "hi" }] }],
          Config := some { SystemInstruction := none } }).map Prod.fst =
      .ok [{ Role := ChatMessageTypeHuman, Type_ := "text", Content := "hi" }] := by
  decide

/-- C10, amended. `SystemInstructionToSystem` gives a missing system instruction and one
with no part, or with only nil and empty-text parts, the same empty text. `convertRequest`
omits the system message only for a missing instruction: for a request whose instruction is
present and empty in that sense it returns what it returns for the same request without
the instruction (the same error, or the same options and messages) with one system-role
message of type `text` and empty content put first. -/
theorem convertRequest_empty_instruction {ToolT LT : Type} (ToLower : String → String)
    (ToolsToBedrockTools : List (Option ToolT) → List LT) (m : bedrockModel)
    (req : model.LLMRequest ToolT) (config : genai.GenerateContentConfig ToolT)
    (instruction : genai.Content)
    (hcfg : req.Config = some config) (hsys : config.SystemInstruction = some instruction)
    (hempty : ∀ part, some part ∈ instruction.Parts → part.Text = "") :
    SystemInstructionToSystem (some instruction) = SystemInstructionToSystem none ∧
    convertRequest ToLower ToolsToBedrockTools m req =
      (convertRequest ToLower ToolsToBedrockTools m
        { req with Config := some { config with SystemInstruction := none } }).map
        (fun r => ({ Role := ChatMessageTypeSystem, Type_ := "text", Content := "" } :: r.1,
          r.2)) := by
  have h0 := SystemInstructionToSystem_empty instruction hempty
  refine ⟨by rw [h0]; rfl, ?_⟩
  obtain ⟨contents, cfg⟩ := req
  simp only at hcfg
  subst hcfg
  obtain ⟨si, t, p, k, ss, mo, tools, tc⟩ := config
  simp only at hsys
  subst hsys
  simp only [convertRequest, h0]
  cases ContentsToMessages ToLower contents with
  | error err => rfl
  | ok msgs =>
    cases tc with
    | none => rfl
    | some toolConfig =>
      simp only []
      cases ToolConfigToToolChoice (some toolConfig) with
      | error err => rfl
      | ok choice => rfl

/-- C10, amended, at a request whose system instruction holds one empty text part. -/
theorem convertRequest_empty_instruction_witness :
    (convertRequest strings.ToLower (fun _ : List (Option Unit) => ([] : List Unit))
        { modelName := "claude", maxTokens := 4096 }
        { Contents := [some { Role := "user", Parts := [some { Text := "hi" }] }],
          Config := some { SystemInstruction := some { Parts := [some { Text := "" }] } } }).map
        Prod.fst =
      .ok [{ Role := ChatMessageTypeSystem, Type_ := "text", Content := "" },
           { Role := ChatMessageTypeHuman, Type_ := "text", Content := "hi" }] := by
  rw [(convertRequest_empty_instruction strings.ToLower
    (fun _ : List (Option Unit) => ([] : List Unit))
    { modelName := "claude", maxTokens := 4096 }
    { Contents := [some { Role := "user", Parts := [some { Text := "hi" }] }],
      Config := some { SystemInstruction := some { Parts := [some { Text := "" }] } } }
    { SystemInstruction := some { Parts := [some { Text := "" }] } }
    { Parts := [some { Text := "" }] }
    rfl rfl (by simp)).2]
  decide

end adkgobedrock

namespace converters

/-- The encoding of the specific-tool directive: the object with `function` (an object with
the one field `name`) and `type`, its keys in sorted order. -/
theorem toolDirective_encoding (name : String) :
    json.Marshal (.map [("type", .str "tool"), ("function", .map [("name", .str name)])]) =
      .ok ("\x7b\"function\":\x7b\"name\":" ++ json.quote name ++ "\x7d,\"type\":\"tool\"\x7d") := by
  simp only [json.Marshal, json.MarshalFields, json.object, json.sortFields, List.foldr,
    json.insertField]
  simp only [json.keyLess, String.intercalate, String.intercalate.go, List.map]
  have h1 : json.quote "function" = "\"function\"" := by decide
  have h2 : json.quote "name" = "\"name\"" := by decide
  have h3 : json.quote "type" = "\"type\"" := by decide
  have h4 : json.quote "tool" = "\"tool\"" := by decide
  simp [h1, h2, h3, h4]
  apply String.ext
  simp [String.data_append]

/-- A policy with at most one allowed name and one of the three modes resolves to a
tool-choice value. -/
theorem ToolConfigToToolChoice_succeeds (fcc : genai.FunctionCallingConfig)
    (hlen : fcc.AllowedFunctionNames.length ≤ 1)
    (hmode : fcc.Mode = genai.FunctionCallingConfigModeNone ∨
      fcc.Mode = genai.FunctionCallingConfigModeAuto ∨
      fcc.Mode = genai.FunctionCallingConfigModeAny) :
    ∃ value, ToolConfigToToolChoice (some { FunctionCallingConfig := some fcc }) =
      .ok (some value) := by
  have hnot : ¬ fcc.AllowedFunctionNames.length > 1 := by omega
  rcases hmode with hm | hm | hm
  · exact ⟨.string "none", by
      simp only [ToolConfigToToolChoice, resolveToolChoice, hnot, if_false, hm]; rfl⟩
  · exact ⟨.string "auto", by
      simp only [ToolConfigToToolChoice, resolveToolChoice, hnot, if_false, hm]; rfl⟩
  · cases hnames : fcc.AllowedFunctionNames with
    | nil =>
      exact ⟨.string "required", by
        simp only [ToolConfigToToolChoice, resolveToolChoice, hnot, if_false, hm, hnames]; rfl⟩
    | cons name rest =>
      cases rest with
      | nil =>
        refine ⟨.bytes
          ("\x7b\"function\":\x7b\"name\":" ++ json.quote name ++ "\x7d,\"type\":\"tool\"\x7d"), ?_⟩
        have hres : resolveToolChoice (some { FunctionCallingConfig := some fcc }) =
            .ok { kind := toolChoiceTool, toolName := name } := by
          simp only [resolveToolChoice, hnot, if_false, hm, hnames]
          rfl
        have hk1 : ¬ (toolChoiceTool = toolChoiceNone) := by decide
        have hk2 : ¬ (toolChoiceTool = toolChoiceAuto) := by decide
        have hk3 : ¬ (toolChoiceTool = toolChoiceAny) := by decide
        simp only [ToolConfigToToolChoice, hres, hk1, hk2, hk3, if_false, if_true,
          toolDirective_encoding]
      | cons other more =>
        rw [hnames] at hlen
        simp at hlen

/-- C11. Tool-choice resolution for a policy with at most one allowed name. An absent policy
(a nil `ToolConfig`, or a nil `FunctionCallingConfig`) resolves to the none outcome and
`ToolConfigToToolChoice` returns the string `none`; so does the mode none; the mode auto
gives the auto outcome and the string `auto`; the mode any with exactly one allowed name
gives the specific-tool outcome carrying that name, returned as the bytes of the JSON
directive of type `tool` whose `function` has that `name`. -/
theorem ToolConfigToToolChoice_at_most_one_name (fcc : genai.FunctionCallingConfig)
    (hlen : fcc.AllowedFunctionNames.length ≤ 1) :
    (resolveToolChoice none = .ok { kind := toolChoiceNone } ∧
      ToolConfigToToolChoice none = .ok (some (.string "none"))) ∧
    (resolveToolChoice (some { FunctionCallingConfig := none }) = .ok { kind := toolChoiceNone } ∧
      ToolConfigToToolChoice (some { FunctionCallingConfig := none }) =
        .ok (some (.string "none"))) ∧
    (fcc.Mode = genai.FunctionCallingConfigModeNone →
      resolveToolChoice (some { FunctionCallingConfig := some fcc }) =
        .ok { kind := toolChoiceNone } ∧
      ToolConfigToToolChoice (some { FunctionCallingConfig := some fcc }) =
        .ok (some (.string "none"))) ∧
    (fcc.Mode = genai.FunctionCallingConfigModeAuto →
      resolveToolChoice (some { FunctionCallingConfig := some fcc }) =
        .ok { kind := toolChoiceAuto } ∧
      ToolConfigToToolChoice (some { FunctionCallingConfig := some fcc }) =
        .ok (some (.string "auto"))) ∧
    (∀ name, fcc.Mode = genai.FunctionCallingConfigModeAny →
      fcc.AllowedFunctionNames = [name] →
      resolveToolChoice (some { FunctionCallingConfig := some fcc }) =
        .ok { kind := toolChoiceTool, toolName := name } ∧
      ToolConfigToToolChoice (some { FunctionCallingConfig := some fcc }) =
        .ok (some (.bytes
          ("\x7b\"function\":\x7b\"name\":" ++ json.quote name ++ "\x7d,\"type\":\"tool\"\x7d")))) := by
  have hnot : ¬ fcc.AllowedFunctionNames.length > 1 := by omega
  refine ⟨⟨rfl, rfl⟩, ⟨rfl, rfl⟩, ?_, ?_, ?_⟩
  · intro hm
    have hres : resolveToolChoice (some { FunctionCallingConfig := some fcc }) =
        .ok { kind := toolChoiceNone } := by
      simp [resolveToolChoice, hnot, hm]
    exact ⟨hres, by simp only [ToolConfigToToolChoice, hres]; rfl⟩
  · intro hm
    have hres : resolveToolChoice (some { FunctionCallingConfig := some fcc }) =
        .ok { kind := toolChoiceAuto } := by
      simp only [resolveToolChoice, hnot, if_false, hm]
      rfl
    exact ⟨hres, by simp only [ToolConfigToToolChoice, hres]; rfl⟩
  · intro name hm hnames
    have hres : resolveToolChoice (some { FunctionCallingConfig := some fcc }) =
        .ok { kind := toolChoiceTool, toolName := name } := by
      simp only [resolveToolChoice, hnot, if_false, hm, hnames]
      rfl
    refine ⟨hres, ?_⟩
    simp only [ToolConfigToToolChoice, hres]
    have hk1 : ¬ (toolChoiceTool = toolChoiceNone) := by decide
    have hk2 : ¬ (toolChoiceTool = toolChoiceAuto) := by decide
    have hk3 : ¬ (toolChoiceTool = toolChoiceAny) := by decide
    simp only [hk1, hk2, hk3, if_false, if_true, toolDirective_encoding]

/-- C11, at the policy of mode any that allows `get_weather` alone. -/
theorem ToolConfigToToolChoice_at_most_one_name_witness :
    ToolConfigToToolChoice (some { FunctionCallingConfig := some { Mode := "ANY", AllowedFunctionNames := ["get_weather"] } }) =
      .ok (some (.bytes
        "\x7b\"function\":\x7b\"name\":\"get_weather\"\x7d,\"type\":\"tool\"\x7d")) :=
  ((ToolConfigToToolChoice_at_most_one_name
    { Mode := "ANY", AllowedFunctionNames := ["get_weather"] } (by decide)).2.2.2.2
    "get_weather" rfl rfl).2

/-- C12, as stated, fails: the policy of mode any that allows two names does not resolve to
the any outcome; resolution fails with the multiple-names error, and
`ToolConfigToToolChoice` returns that error and not `required`. -/
theorem ToolConfigToToolChoice_any_two_names_fails :
    resolveToolChoice (some { FunctionCallingConfig := some { Mode := "ANY", AllowedFunctionNames := ["get_weather", "get_time"] } }) =
      .error (.errorf
        "Anthropic does not support multiple AllowedFunctionNames (got %d); use a single function name or remove the restriction"
        ["2"]) ∧
    ToolConfigToToolChoice (some { FunctionCallingConfig := some { Mode := "ANY", AllowedFunctionNames := ["get_weather", "get_time"] } }) =
      .error (.errorf
        "Anthropic does not support multiple AllowedFunctionNames (got %d); use a single function name or remove the restriction"
        ["2"]) := by
  decide

/-- C12, amended. A policy of mode any with no allowed name resolves to the any outcome and
`ToolConfigToToolChoice` returns the string `required`; with more than one allowed name
resolution fails with the multiple-names error, which `ToolConfigToToolChoice` returns. -/
theorem ToolConfigToToolChoice_any_mode (fcc : genai.FunctionCallingConfig)
    (hmode : fcc.Mode = genai.FunctionCallingConfigModeAny) :
    (fcc.AllowedFunctionNames = [] →
      resolveToolChoice (some { FunctionCallingConfig := some fcc }) =
        .ok { kind := toolChoiceAny } ∧
      ToolConfigToToolChoice (some { FunctionCallingConfig := some fcc }) =
        .ok (some (.string "required"))) ∧
    (fcc.AllowedFunctionNames.length > 1 →
      resolveToolChoice (some { FunctionCallingConfig := some fcc }) =
        .error (.errorf
          "Anthropic does not support multiple AllowedFunctionNames (got %d); use a single function name or remove the restriction"
          [toString fcc.AllowedFunctionNames.length]) ∧
      ToolConfigToToolChoice (some { FunctionCallingConfig := some fcc }) =
        .error (.errorf
          "Anthropic does not support multiple AllowedFunctionNames (got %d); use a single function name or remove the restriction"
          [toString fcc.AllowedFunctionNames.length])) := by
  constructor
  · intro hnames
    have hres : resolveToolChoice (some { FunctionCallingConfig := some fcc }) =
        .ok { kind := toolChoiceAny } := by
      simp only [resolveToolChoice, hnames, hmode]
      rfl
    exact ⟨hres, by simp only [ToolConfigToToolChoice, hres]; rfl⟩
  · intro hlen
    have hres : resolveToolChoice (some { FunctionCallingConfig := some fcc }) =
        .error (.errorf
          "Anthropic does not support multiple AllowedFunctionNames (got %d); use a single function name or remove the restriction"
          [toString fcc.AllowedFunctionNames.length]) := by
      simp only [resolveToolChoice, hlen, if_true]
    exact ⟨hres, by simp only [ToolConfigToToolChoice, hres]⟩

/-- C12, amended, at the policy of mode any with no allowed name. -/
theorem ToolConfigToToolChoice_any_mode_witness :
    ToolConfigToToolChoice (some { FunctionCallingConfig := some { Mode := "ANY", AllowedFunctionNames := [] } }) =
      .ok (some (.string "required")) :=
  ((ToolConfigToToolChoice_any_mode { Mode := "ANY", AllowedFunctionNames := [] } rfl).1 rfl).2

/-- C13. `ToolConfigToToolChoice` fails exactly when a policy is present (the `ToolConfig`
and its `FunctionCallingConfig` are not nil) and either it lists more than one allowed
function name, whatever its mode, or its mode is none of the modes none, auto, any (the
empty mode string is such a mode). In every other case it returns a tool-choice value; an
error comes with no value. -/
theorem ToolConfigToToolChoice_fails_iff (config : Option genai.ToolConfig) :
    ((∃ err, ToolConfigToToolChoice config = .error err) ↔
      ∃ tc fcc, config = some tc ∧ tc.FunctionCallingConfig = some fcc ∧
        (fcc.AllowedFunctionNames.length > 1 ∨
          (fcc.Mode ≠ genai.FunctionCallingConfigModeNone ∧
           fcc.Mode ≠ genai.FunctionCallingConfigModeAuto ∧
           fcc.Mode ≠ genai.FunctionCallingConfigModeAny))) ∧
    ((¬ ∃ err, ToolConfigToToolChoice config = .error err) →
      ∃ value, ToolConfigToToolChoice config = .ok (some value)) ∧
    (∀ tc fcc, config = some tc → tc.FunctionCallingConfig = some fcc →
      fcc.AllowedFunctionNames.length > 1 →
      ToolConfigToToolChoice config = .error (.errorf
        "Anthropic does not support multiple AllowedFunctionNames (got %d); use a single function name or remove the restriction"
        [toString fcc.AllowedFunctionNames.length])) ∧
    (∀ tc fcc, config = some tc → tc.FunctionCallingConfig = some fcc →
      fcc.AllowedFunctionNames.length ≤ 1 →
      fcc.Mode ≠ genai.FunctionCallingConfigModeNone →
      fcc.Mode ≠ genai.FunctionCallingConfigModeAuto →
      fcc.Mode ≠ genai.FunctionCallingConfigModeAny →
      ToolConfigToToolChoice config = .error (.errorf
        "unsupported FunctionCallingConfig mode %q; supported modes are: ModeNone, ModeAuto, ModeAny"
        [fcc.Mode])) := by
  have hmulti : ∀ tc fcc, config = some tc → tc.FunctionCallingConfig = some fcc →
      fcc.AllowedFunctionNames.length > 1 →
      ToolConfigToToolChoice config = .error (.errorf
        "Anthropic does not support multiple AllowedFunctionNames (got %d); use a single function name or remove the restriction"
        [toString fcc.AllowedFunctionNames.length]) := by
    intro tc fcc hc hf hlen
    subst hc
    simp only [ToolConfigToToolChoice, resolveToolChoice, hf, hlen, if_true]
  have hmode : ∀ tc fcc, config = some tc → tc.FunctionCallingConfig = some fcc →
      fcc.AllowedFunctionNames.length ≤ 1 →
      fcc.Mode ≠ genai.FunctionCallingConfigModeNone →
      fcc.Mode ≠ genai.FunctionCallingConfigModeAuto →
      fcc.Mode ≠ genai.FunctionCallingConfigModeAny →
      ToolConfigToToolChoice config = .error (.errorf
        "unsupported FunctionCallingConfig mode %q; supported modes are: ModeNone, ModeAuto, ModeAny"
        [fcc.Mode]) := by
    intro tc fcc hc hf hlen h1 h2 h3
    subst hc
    have hnot : ¬ fcc.AllowedFunctionNames.length > 1 := by omega
    simp only [ToolConfigToToolChoice, resolveToolChoice, hf, hnot, if_false, h1, h2, h3]
  have hok : (¬ ∃ tc fcc, config = some tc ∧ tc.FunctionCallingConfig = some fcc ∧
        (fcc.AllowedFunctionNames.length > 1 ∨
          (fcc.Mode ≠ genai.FunctionCallingConfigModeNone ∧
           fcc.Mode ≠ genai.FunctionCallingConfigModeAuto ∧
           fcc.Mode ≠ genai.FunctionCallingConfigModeAny))) →
      ∃ value, ToolConfigToToolChoice config = .ok (some value) := by
    intro hno
    cases config with
    | none => exact ⟨_, rfl⟩
    | some tc =>
      cases hf : tc.FunctionCallingConfig with
      | none => exact ⟨.string "none", by simp only [ToolConfigToToolChoice, resolveToolChoice, hf]; rfl⟩
      | some fcc =>
        have hlen : fcc.AllowedFunctionNames.length ≤ 1 := by
          by_contra hgt
          exact hno ⟨tc, fcc, rfl, hf, Or.inl (by omega)⟩
        have hcfg : tc = { FunctionCallingConfig := some fcc } := by
          cases tc
          simp only at hf
          subst hf
          rfl
        rw [hcfg]
        by_cases h1 : fcc.Mode = genai.FunctionCallingConfigModeNone
        · exact ToolConfigToToolChoice_succeeds fcc hlen (Or.inl h1)
        · by_cases h2 : fcc.Mode = genai.FunctionCallingConfigModeAuto
          · exact ToolConfigToToolChoice_succeeds fcc hlen (Or.inr (Or.inl h2))
          · by_cases h3 : fcc.Mode = genai.FunctionCallingConfigModeAny
            · exact ToolConfigToToolChoice_succeeds fcc hlen (Or.inr (Or.inr h3))
            · exact absurd ⟨tc, fcc, rfl, hf, Or.inr ⟨h1, h2, h3⟩⟩ hno
  refine ⟨⟨?_, ?_⟩, ?_, hmulti, hmode⟩
  · rintro ⟨err, herr⟩
    by_contra hno
    obtain ⟨value, hv⟩ := hok hno
    rw [hv] at herr
    cases herr
  · rintro ⟨tc, fcc, hc, hf, hbad⟩
    rcases hbad with hlen | ⟨h1, h2, h3⟩
    · exact ⟨_, hmulti tc fcc hc hf hlen⟩
    · by_cases hlen : fcc.AllowedFunctionNames.length > 1
      · exact ⟨_, hmulti tc fcc hc hf hlen⟩
      · exact ⟨_, hmode tc fcc hc hf (by omega) h1 h2 h3⟩
  · intro hnoerr
    apply hok
    rintro ⟨tc, fcc, hc, hf, hbad⟩
    apply hnoerr
    rcases hbad with hlen | ⟨h1, h2, h3⟩
    · exact ⟨_, hmulti tc fcc hc hf hlen⟩
    · by_cases hlen : fcc.AllowedFunctionNames.length > 1
      · exact ⟨_, hmulti tc fcc hc hf hlen⟩
      · exact ⟨_, hmode tc fcc hc hf (by omega) h1 h2 h3⟩

end converters

namespace converters

/-- The accumulator of the tool-call loop is a prefix of its result. -/
theorem convertToolCalls_acc (Unmarshal : String → Except GoError (Option GoMap))
    (calls : List llms.ToolCall) (acc : List (Option genai.Part)) :
    convertToolCalls Unmarshal calls acc =
      match convertToolCalls Unmarshal calls [] with
      | .ok parts => .ok (acc ++ parts)
      | .error err => .error err := by
  induction calls generalizing acc with
  | nil => simp [convertToolCalls]
  | cons call rest ih =>
    simp only [convertToolCalls]
    cases Unmarshal call.FunctionCall.Arguments with
    | error err => rfl
    | ok args =>
      simp only []
      rw [ih (acc ++ _), ih ([] ++ _)]
      cases convertToolCalls Unmarshal rest [] with
      | error err => rfl
      | ok parts => simp

/-- A successful tool-call loop yields one `FunctionCall` part per call, in order, with the
id and the name of the call and its parsed arguments. -/
theorem convertToolCalls_ok (Unmarshal : String → Except GoError (Option GoMap))
    (calls : List llms.ToolCall) (parts : List (Option genai.Part))
    (h : convertToolCalls Unmarshal calls [] = .ok parts) :
    List.Forall₂
      (fun (call : llms.ToolCall) part => ∃ args, Unmarshal call.FunctionCall.Arguments = .ok args ∧
        part = some ({ FunctionCall := some { ID := call.ID, Name := call.FunctionCall.Name, Args := args } } : genai.Part))
      calls parts := by
  induction calls generalizing parts with
  | nil =>
    simp [convertToolCalls] at h
    subst h
    exact List.Forall₂.nil
  | cons call rest ih =>
    simp only [convertToolCalls] at h
    cases hu : Unmarshal call.FunctionCall.Arguments with
    | error err => simp [hu] at h
    | ok args =>
      simp only [hu] at h
      rw [convertToolCalls_acc] at h
      cases hr : convertToolCalls Unmarshal rest [] with
      | error err => simp [hr] at h
      | ok tail =>
        simp [hr] at h
        subst h
        exact List.Forall₂.cons ⟨args, hu, rfl⟩ (ih tail hr)

/-- A tool-call loop that meets a call whose arguments do not parse fails, with a wrapped
parse error. -/
theorem convertToolCalls_fails (Unmarshal : String → Except GoError (Option GoMap))
    (calls : List llms.ToolCall) (acc : List (Option genai.Part)) (call : llms.ToolCall)
    (err : GoError) (hm : call ∈ calls) (hu : Unmarshal call.FunctionCall.Arguments = .error err) :
    ∃ inner, convertToolCalls Unmarshal calls acc =
      .error (.wrapf "failed to convert content block: %w" inner) := by
  induction calls generalizing acc with
  | nil => simp at hm
  | cons c rest ih =>
    simp only [convertToolCalls]
    cases hc : Unmarshal c.FunctionCall.Arguments with
    | error e => exact ⟨e, rfl⟩
    | ok args =>
      have hm2 : call ∈ rest := by
        rcases List.mem_cons.mp hm with h1 | h1
        · subst h1
          rw [hu] at hc
          cases hc
        · exact h1
      exact ih _ hm2

/-- C16. `StopReasonToFinishReason` is the fixed table: `end_turn`, `stop_sequence` and
`tool_use` map to stop, `max_tokens` maps to max-tokens, and every other string maps to
unspecified, among them the empty string and `END_TURN`. It is a total function: it has a
value for every string and no error. -/
theorem StopReasonToFinishReason_table (sr : String) :
    (sr = "end_turn" ∨ sr = "stop_sequence" ∨ sr = "tool_use" →
      StopReasonToFinishReason sr = genai.FinishReasonStop) ∧
    (sr = "max_tokens" → StopReasonToFinishReason sr = genai.FinishReasonMaxTokens) ∧
    (sr ≠ "end_turn" → sr ≠ "stop_sequence" → sr ≠ "tool_use" → sr ≠ "max_tokens" →
      StopReasonToFinishReason sr = genai.FinishReasonUnspecified) ∧
    StopReasonToFinishReason "" = genai.FinishReasonUnspecified ∧
    StopReasonToFinishReason "END_TURN" = genai.FinishReasonUnspecified ∧
    StopReasonToFinishReason "Max_Tokens" = genai.FinishReasonUnspecified := by
  refine ⟨?_, ?_, ?_, by decide, by decide, by decide⟩
  · intro h
    rcases h with h | h | h <;> subst h <;> decide
  · intro h
    subst h
    decide
  · intro h1 h2 h3 h4
    simp [StopReasonToFinishReason, h1, h2, h3, h4]

/-- C16 at the four stop reasons of the table. -/
theorem StopReasonToFinishReason_table_witness :
    StopReasonToFinishReason "end_turn" = "STOP" ∧
    StopReasonToFinishReason "stop_sequence" = "STOP" ∧
    StopReasonToFinishReason "tool_use" = "STOP" ∧
    StopReasonToFinishReason "max_tokens" = "MAX_TOKENS" :=
  ⟨(StopReasonToFinishReason_table "end_turn").1 (Or.inl rfl),
   (StopReasonToFinishReason_table "stop_sequence").1 (Or.inr (Or.inl rfl)),
   (StopReasonToFinishReason_table "tool_use").1 (Or.inr (Or.inr rfl)),
   (StopReasonToFinishReason_table "max_tokens").2.1 rfl⟩

/-- The conversion `int32(n)` keeps a number that fits in 32 bits. -/
theorem toInt32_of_fits (n : Int) (h1 : -2147483648 ≤ n) (h2 : n < 2147483648) :
    toInt32 n = n := by
  unfold toInt32
  omega

/-- C15. `UsageToMetadata` succeeds exactly when the generation-info map holds both an
`input_tokens` and an `output_tokens` entry whose dynamic type is `int`; a nil map, a
missing key or a value of another type gives the failed-to-parse-usage error, and that
error makes `MessageToLLMResponse` fail. On success the three counts are the input count,
the output count and their sum, converted to `int32`: they are these numbers themselves
when the numbers fit in 32 bits. -/
theorem UsageToMetadata_iff (usage : Option GoMap) :
    ((∃ meta, UsageToMetadata usage = .ok meta) ↔
      ∃ i o, mapIndex usage "input_tokens" = some (.int i) ∧
        mapIndex usage "output_tokens" = some (.int o)) ∧
    ((¬ ∃ i o, mapIndex usage "input_tokens" = some (.int i) ∧
        mapIndex usage "output_tokens" = some (.int o)) →
      UsageToMetadata usage = .error (.errorf "failed to parse usage" [])) ∧
    (∀ i o, mapIndex usage "input_tokens" = some (.int i) →
      mapIndex usage "output_tokens" = some (.int o) →
      UsageToMetadata usage =
        .ok { PromptTokenCount := toInt32 i, CandidatesTokenCount := toInt32 o,
              TotalTokenCount := toInt32 (i + o) } ∧
      toInt32 (i + o) = toInt32 (toInt32 i + toInt32 o) ∧
      (0 ≤ i → 0 ≤ o → i + o < 2147483648 →
        UsageToMetadata usage =
          .ok { PromptTokenCount := i, CandidatesTokenCount := o, TotalTokenCount := i + o })) ∧
    (∀ (Unmarshal : String → Except GoError (Option GoMap)) (msg : llms.ContentResponse)
        (choice : llms.ContentChoice) (rest : List llms.ContentChoice),
      msg.Choices = choice :: rest → choice.GenerationInfo = usage →
      (¬ ∃ meta, UsageToMetadata usage = .ok meta) →
      ∃ err, MessageToLLMResponse Unmarshal (some msg) = .error err) := by
  have hok : ∀ i o, mapIndex usage "input_tokens" = some (.int i) →
      mapIndex usage "output_tokens" = some (.int o) →
      UsageToMetadata usage =
        .ok { PromptTokenCount := toInt32 i, CandidatesTokenCount := toInt32 o,
              TotalTokenCount := toInt32 (i + o) } := by
    intro i o hi ho
    simp only [UsageToMetadata, hi, ho]
  have hfail : (¬ ∃ i o, mapIndex usage "input_tokens" = some (.int i) ∧
        mapIndex usage "output_tokens" = some (.int o)) →
      UsageToMetadata usage = .error (.errorf "failed to parse usage" []) := by
    intro hno
    unfold UsageToMetadata
    split
    · rename_i i o hi ho
      exact absurd ⟨i, o, hi, ho⟩ hno
    · rfl
  refine ⟨⟨?_, ?_⟩, hfail, ?_, ?_⟩
  · rintro ⟨meta, hm⟩
    by_contra hno
    rw [hfail hno] at hm
    cases hm
  · rintro ⟨i, o, hi, ho⟩
    exact ⟨_, hok i o hi ho⟩
  · intro i o hi ho
    refine ⟨hok i o hi ho, ?_, ?_⟩
    · unfold toInt32
      omega
    · intro h0 h1 h2
      rw [hok i o hi ho, toInt32_of_fits i (by omega) (by omega),
        toInt32_of_fits o (by omega) (by omega), toInt32_of_fits (i + o) (by omega) h2]
  · intro Unmarshal msg choice rest hc hu hno
    have hfails : ∃ e, UsageToMetadata choice.GenerationInfo = .error e := by
      rw [hu]
      cases hr : UsageToMetadata usage with
      | error e => exact ⟨e, rfl⟩
      | ok meta => exact absurd ⟨meta, hr⟩ hno
    obtain ⟨e, he⟩ := hfails
    simp only [MessageToLLMResponse, hc]
    cases convertToolCalls Unmarshal choice.ToolCalls _ with
    | error err => exact ⟨err, rfl⟩
    | ok parts => exact ⟨e, by simp only [he]⟩

/-- C15 at four maps: counts 12 and 30 give the total 42; a nil map, a map without the
output count and a map whose input count is a string fail. -/
theorem UsageToMetadata_iff_witness :
    UsageToMetadata (some [("input_tokens", .int 12), ("output_tokens", .int 30)]) =
      .ok { PromptTokenCount := 12, CandidatesTokenCount := 30, TotalTokenCount := 42 } ∧
    UsageToMetadata none = .error (.errorf "failed to parse usage" []) ∧
    UsageToMetadata (some [("input_tokens", .int 12)]) =
      .error (.errorf "failed to parse usage" []) ∧
    UsageToMetadata (some [("input_tokens", .str "12"), ("output_tokens", .int 30)]) =
      .error (.errorf "failed to parse usage" []) :=
  ⟨((UsageToMetadata_iff (some [("input_tokens", .int 12), ("output_tokens", .int 30)])).2.2.1
      12 30 rfl rfl).2.2 (by decide) (by decide) (by decide),
   by decide, by decide, by decide⟩

end converters

namespace converters

/-- When the arguments of every call parse, the tool-call loop succeeds with the parts of
the calls. -/
theorem convertToolCalls_of_parsed (Unmarshal : String → Except GoError (Option GoMap))
    (calls : List llms.ToolCall) (parts : List (Option genai.Part))
    (h : List.Forall₂
      (fun (call : llms.ToolCall) part => ∃ args, Unmarshal call.FunctionCall.Arguments = .ok args ∧
        part = some ({ FunctionCall := some { ID := call.ID, Name := call.FunctionCall.Name, Args := args } } : genai.Part))
      calls parts) :
    convertToolCalls Unmarshal calls [] = .ok parts := by
  induction h with
  | nil => rfl
  | cons hhead _ ih =>
    obtain ⟨args, hu, hp⟩ := hhead
    simp only [convertToolCalls, hu]
    rw [convertToolCalls_acc, ih, hp]
    rfl

/-- C14, as stated, fails: the text-only result `Hello world` with stop reason `end_turn`
and no generation info does not convert to a response with one text part; the conversion
fails with the failed-to-parse-usage error. -/
theorem MessageToLLMResponse_text_only_without_usage :
    MessageToLLMResponse (fun _ => .ok (some []))
        (some { Choices := [{ Content := "Hello world", StopReason := "end_turn" }] }) =
      .error (.errorf "failed to parse usage" []) := by
  rfl

/-- C14, amended. `MessageToLLMResponse` fails with the nil-message error when the result is
absent or has no choice. Otherwise its output is that for the first choice alone. It
succeeds exactly when the arguments of every tool call of that choice parse and the
generation info holds the two `int` token counts; the response then has a content of role
`model` whose parts are one text part with the content of the choice when that is not empty
(none when it is empty), followed by one `FunctionCall` part per tool call, in order, with
the id and the name of the call and its parsed arguments, the usage, and the finish reason
of the stop reason. When the arguments of some tool call do not parse the conversion fails
with a wrapped parse error; when they all parse and the generation info is not as
required it fails with the usage error. In particular a text-only result (a non-empty
content, no tool call) with stop reason `end_turn` and a generation info with the two
counts converts to the response with the one text part equal to the content and the
finish reason stop. -/
theorem MessageToLLMResponse_first_choice (Unmarshal : String → Except GoError (Option GoMap))
    (msg : llms.ContentResponse) (choice : llms.ContentChoice) (rest : List llms.ContentChoice)
    (hc : msg.Choices = choice :: rest) :
    MessageToLLMResponse Unmarshal none = .error (.errorf "nil message received" []) ∧
    MessageToLLMResponse Unmarshal (some { Choices := [] }) =
      .error (.errorf "nil message received" []) ∧
    MessageToLLMResponse Unmarshal (some msg) =
      MessageToLLMResponse Unmarshal (some { Choices := [choice] }) ∧
    (∀ resp, MessageToLLMResponse Unmarshal (some msg) = .ok resp →
      ∃ callParts usage,
        List.Forall₂
          (fun (call : llms.ToolCall) part =>
            ∃ args, Unmarshal call.FunctionCall.Arguments = .ok args ∧
              part = some ({ FunctionCall := some { ID := call.ID, Name := call.FunctionCall.Name, Args := args } } : genai.Part))
          choice.ToolCalls callParts ∧
        UsageToMetadata choice.GenerationInfo = .ok usage ∧
        resp = { Content := some { Role := "model", Parts := (if choice.Content ≠ "" then [some { Text := choice.Content }] else []) ++ callParts },
                 UsageMetadata := some usage,
                 FinishReason := StopReasonToFinishReason choice.StopReason }) ∧
    (∀ callParts usage,
      List.Forall₂
        (fun (call : llms.ToolCall) part =>
          ∃ args, Unmarshal call.FunctionCall.Arguments = .ok args ∧
            part = some ({ FunctionCall := some { ID := call.ID, Name := call.FunctionCall.Name, Args := args } } : genai.Part))
        choice.ToolCalls callParts →
      (UsageToMetadata choice.GenerationInfo = .ok usage →
        MessageToLLMResponse Unmarshal (some msg) =
          .ok { Content := some { Role := "model", Parts := (if choice.Content ≠ "" then [some { Text := choice.Content }] else []) ++ callParts },
                UsageMetadata := some usage,
                FinishReason := StopReasonToFinishReason choice.StopReason }) ∧
      (∀ err, UsageToMetadata choice.GenerationInfo = .error err →
        MessageToLLMResponse Unmarshal (some msg) = .error err)) ∧
    (∀ call err, call ∈ choice.ToolCalls →
      Unmarshal call.FunctionCall.Arguments = .error err →
      ∃ inner, MessageToLLMResponse Unmarshal (some msg) =
        .error (.wrapf "failed to convert content block: %w" inner)) ∧
    (∀ usage, choice.Content ≠ "" → choice.ToolCalls = [] → choice.StopReason = "end_turn" →
      UsageToMetadata choice.GenerationInfo = .ok usage →
      MessageToLLMResponse Unmarshal (some msg) =
        .ok { Content := some { Role := "model", Parts := [some { Text := choice.Content }] },
              UsageMetadata := some usage,
              FinishReason := genai.FinishReasonStop }) := by
  have hparsed : ∀ callParts,
      List.Forall₂
        (fun (call : llms.ToolCall) part =>
          ∃ args, Unmarshal call.FunctionCall.Arguments = .ok args ∧
            part = some ({ FunctionCall := some { ID := call.ID, Name := call.FunctionCall.Name, Args := args } } : genai.Part))
        choice.ToolCalls callParts →
      convertToolCalls Unmarshal choice.ToolCalls
          (if choice.Content ≠ "" then [some { Text := choice.Content }] else []) =
        .ok ((if choice.Content ≠ "" then [some { Text := choice.Content }] else []) ++
          callParts) := by
    intro callParts hf
    rw [convertToolCalls_acc, convertToolCalls_of_parsed Unmarshal _ _ hf]
  refine ⟨rfl, rfl, ?_, ?_, ?_, ?_, ?_⟩
  · simp only [MessageToLLMResponse, hc]
  · intro resp hresp
    simp only [MessageToLLMResponse, hc] at hresp
    rw [convertToolCalls_acc] at hresp
    cases hcalls : convertToolCalls Unmarshal choice.ToolCalls [] with
    | error err => simp [hcalls] at hresp
    | ok callParts =>
      simp only [hcalls] at hresp
      cases husage : UsageToMetadata choice.GenerationInfo with
      | error err => simp [husage] at hresp
      | ok usage =>
        simp only [husage, Except.ok.injEq] at hresp
        exact ⟨callParts, usage, convertToolCalls_ok Unmarshal _ _ hcalls, rfl, hresp.symm⟩
  · intro callParts usage hf
    constructor
    · intro husage
      simp only [MessageToLLMResponse, hc, hparsed callParts hf, husage]
    · intro err husage
      simp only [MessageToLLMResponse, hc, hparsed callParts hf, husage]
  · intro call err hm hu
    obtain ⟨inner, hinner⟩ := convertToolCalls_fails Unmarshal choice.ToolCalls
      (if choice.Content ≠ "" then [some { Text := choice.Content }] else []) call err hm hu
    exact ⟨inner, by simp only [MessageToLLMResponse, hc, hinner]⟩
  · intro usage htext hcalls hstop husage
    simp only [MessageToLLMResponse, hc, hcalls, convertToolCalls, husage, hstop, ne_eq, htext,
      not_false_eq_true, if_true]
    rfl

/-- C14, amended, at the text-only result `Hello world` with stop reason `end_turn` and the
token counts 12 and 30. -/
theorem MessageToLLMResponse_first_choice_witness :
    MessageToLLMResponse (fun _ => .ok (some []))
        (some { Choices := [{ Content := "Hello world", StopReason := "end_turn", GenerationInfo := some [("input_tokens", .int 12), ("output_tokens", .int 30)] }] }) =
      .ok { Content := some { Role := "model", Parts := [some { Text := "Hello world" }] },
            UsageMetadata := some { PromptTokenCount := 12, CandidatesTokenCount := 30, TotalTokenCount := 42 },
            FinishReason := "STOP" } :=
  (MessageToLLMResponse_first_choice (fun _ => .ok (some []))
    { Choices := [{ Content := "Hello world", StopReason := "end_turn", GenerationInfo := some [("input_tokens", .int 12), ("output_tokens", .int 30)] }] }
    { Content := "Hello world", StopReason := "end_turn", GenerationInfo := some [("input_tokens", .int 12), ("output_tokens", .int 30)] }
    [] rfl).2.2.2.2.2.2
    { PromptTokenCount := 12, CandidatesTokenCount := 30, TotalTokenCount := 42 }
    (by decide) rfl rfl (by decide)

end converters

namespace adkgobedrock

open bedrockclient converters

/-- Under a consumer that always wants more, the client delivers the chunks of its
uninterrupted run, each yielded as one partial response, and returns the result of that
run. -/
theorem runStreaming_uninterrupted (yield : List StreamItem → Bool)
    (hyield : ∀ items, yield items = true) (run : ClientRun) (yielded : List StreamItem) :
    runStreaming yield run yielded =
      (run.uninterrupted.2,
        yielded ++ run.uninterrupted.1.map (fun bytes => .response (partialResponse bytes))) := by
  induction run generalizing yielded with
  | done result => simp [runStreaming, ClientRun.uninterrupted]
  | chunk bytes next ih =>
    simp only [runStreaming, hyield, if_true, ClientRun.uninterrupted]
    rw [ih none]
    simp

/-- Whatever the consumer answers, the items yielded during the run of the client are
partial responses, added after those yielded before. -/
theorem runStreaming_partials (yield : List StreamItem → Bool) (run : ClientRun)
    (yielded : List StreamItem) :
    ∃ chunks : List String, (runStreaming yield run yielded).2 =
      yielded ++ chunks.map (fun bytes => .response (partialResponse bytes)) := by
  induction run generalizing yielded with
  | done result => exact ⟨[], by simp [runStreaming]⟩
  | chunk bytes next ih =>
    simp only [runStreaming]
    split
    · obtain ⟨chunks, h⟩ := ih none (yielded ++ [.response (partialResponse bytes)])
      exact ⟨bytes :: chunks, by rw [h]; simp⟩
    · obtain ⟨chunks, h⟩ := ih (some (.errorf "yield break" []))
        (yielded ++ [.response (partialResponse bytes)])
      exact ⟨bytes :: chunks, by rw [h]; simp⟩

/-- A response of `MessageToLLMResponse` has neither `Partial` nor `TurnComplete` set. -/
theorem MessageToLLMResponse_flags (Unmarshal : String → Except GoError (Option GoMap))
    (msg : Option llms.ContentResponse) (resp : model.LLMResponse)
    (h : MessageToLLMResponse Unmarshal msg = .ok resp) :
    resp.Partial = false ∧ resp.TurnComplete = false := by
  unfold MessageToLLMResponse at h
  split at h
  · cases h
  · split at h
    · cases h
    · simp only [] at h
      split at h
      · cases h
      · split at h
        · cases h
        · cases h
          exact ⟨rfl, rfl⟩

/-- In a list of partial responses followed by one item, a failure can only be that last
item. -/
theorem failure_is_last (chunks : List String) (final : StreamItem)
    (before after : List StreamItem) (err : GoError)
    (h : chunks.map (fun bytes => StreamItem.response (partialResponse bytes)) ++ [final] =
      before ++ StreamItem.failure err :: after) :
    after = [] ∧ final = .failure err ∧
      before = chunks.map (fun bytes => StreamItem.response (partialResponse bytes)) := by
  induction chunks generalizing before with
  | nil =>
    cases before with
    | nil =>
      simp at h
      exact ⟨h.2, h.1, rfl⟩
    | cons b bs =>
      simp at h
  | cons c cs ih =>
    cases before with
    | nil =>
      simp at h
    | cons b bs =>
      simp only [List.map_cons, List.cons_append, List.cons.injEq] at h
      obtain ⟨h1, h2, h3⟩ := ih bs h.2
      exact ⟨h1, h2, by rw [h3, ← h.1]; rfl⟩

end adkgobedrock

namespace adkgobedrock

open bedrockclient converters

/-- C17. The streaming success sequence. For a request that converts, a consumer that always
wants more, and a run of the client that delivers the chunks `c1..cn` and returns a result
that converts to the response `R`, `generateStream` yields exactly `n + 1` items: for each
chunk in order the response with `Partial` set, role `model` and the one text part equal to
the chunk, then `R` with `TurnComplete` set and `Partial` not set. Exactly one item has
`TurnComplete` set, the last one. -/
theorem generateStream_success {ToolT LT : Type} (ToLower : String → String)
    (ToolsToBedrockTools : List (Option ToolT) → List LT)
    (Unmarshal : String → Except GoError (Option GoMap))
    (CreateCompletion : String → List Message → llms.CallOptions LT → ClientRun)
    (m : bedrockModel) (req : model.LLMRequest ToolT) (yield : List StreamItem → Bool)
    (msgs : List Message) (options : llms.CallOptions LT) (chunks : List String)
    (result : llms.ContentResponse) (R : model.LLMResponse)
    (hreq : convertRequest ToLower ToolsToBedrockTools m req = .ok (msgs, options))
    (hyield : ∀ items, yield items = true)
    (hrun : (CreateCompletion m.modelName msgs options).uninterrupted = (chunks, .ok result))
    (hconv : MessageToLLMResponse Unmarshal (some result) = .ok R) :
    (generateStream ToLower ToolsToBedrockTools Unmarshal CreateCompletion m req yield).yielded =
      chunks.map (fun bytes => StreamItem.response
        { Partial := true,
          Content := some { Role := "model", Parts := [some { Text := bytes }] } }) ++
      [StreamItem.response { R with TurnComplete := true }] ∧
    (generateStream ToLower ToolsToBedrockTools Unmarshal CreateCompletion m req
      yield).yielded.length = chunks.length + 1 ∧
    R.Partial = false ∧
    ((generateStream ToLower ToolsToBedrockTools Unmarshal CreateCompletion m req
      yield).yielded.filter StreamItem.turnComplete).length = 1 ∧
    ((generateStream ToLower ToolsToBedrockTools Unmarshal CreateCompletion m req
      yield).yielded.getLast?.map StreamItem.turnComplete) = some true := by
  have hitems : (generateStream ToLower ToolsToBedrockTools Unmarshal CreateCompletion m req
      yield).yielded =
      chunks.map (fun bytes => StreamItem.response (partialResponse bytes)) ++
      [StreamItem.response { R with TurnComplete := true }] := by
    simp only [generateStream, hreq, runStreaming_uninterrupted yield hyield, hrun, hconv,
      List.nil_append]
  have hfilter : (chunks.map (fun bytes => StreamItem.response (partialResponse bytes))).filter
      StreamItem.turnComplete = [] := by
    rw [List.filter_eq_nil_iff]
    intro item hitem
    obtain ⟨bytes, _, rfl⟩ := List.mem_map.mp hitem
    simp [StreamItem.turnComplete, partialResponse]
  refine ⟨hitems, ?_, (MessageToLLMResponse_flags Unmarshal _ R hconv).1, ?_, ?_⟩
  · rw [hitems]; simp
  · rw [hitems, List.filter_append, hfilter]
    simp [StreamItem.turnComplete]
  · rw [hitems]
    simp [StreamItem.turnComplete]

/-- C17 at the client that delivers `Hel`, `lo `, `world` and returns the content
`Hello world`: four items, three partial responses and the final response. -/
theorem generateStream_success_witness :
    (generateStream strings.ToLower (fun _ : List (Option Unit) => ([] : List Unit))
        (fun _ => .ok (some []))
        (fun _ _ _ => ClientRun.scripted (.ok { Choices := [{ Content := "Hello world", StopReason := "end_turn", GenerationInfo := some [("input_tokens", .int 12), ("output_tokens", .int 30)] }] }) ["Hel", "lo ", "world"])
        { modelName := "claude", maxTokens := 4096 }
        { Contents := [some { Role := "user", Parts := [some { Text := "hi" }] }] }
        (fun _ => true)).yielded =
      [StreamItem.response { Partial := true, Content := some { Role := "model", Parts := [some { Text := "Hel" }] } },
       StreamItem.response { Partial := true, Content := some { Role := "model", Parts := [some { Text := "lo " }] } },
       StreamItem.response { Partial := true, Content := some { Role := "model", Parts := [some { Text := "world" }] } },
       StreamItem.response
         { Content := some { Role := "model", Parts := [some { Text := "Hello world" }] },
           UsageMetadata := some { PromptTokenCount := 12, CandidatesTokenCount := 30, TotalTokenCount := 42 },
           FinishReason := "STOP", Partial := false, TurnComplete := true }] :=
  (generateStream_success strings.ToLower (fun _ : List (Option Unit) => ([] : List Unit))
    (fun _ => .ok (some []))
    (fun _ _ _ => ClientRun.scripted (.ok { Choices := [{ Content := "Hello world", StopReason := "end_turn", GenerationInfo := some [("input_tokens", .int 12), ("output_tokens", .int 30)] }] }) ["Hel", "lo ", "world"])
    { modelName := "claude", maxTokens := 4096 }
    { Contents := [some { Role := "user", Parts := [some { Text := "hi" }] }] }
    (fun _ => true)
    [{ Role := ChatMessageTypeHuman, Type_ := "text", Content := "hi" }]
    { MaxTokens := 4096 }
    ["Hel", "lo ", "world"]
    { Choices := [{ Content := "Hello world", StopReason := "end_turn", GenerationInfo := some [("input_tokens", .int 12), ("output_tokens", .int 30)] }] }
    { Content := some { Role := "model", Parts := [some { Text := "Hello world" }] },
      UsageMetadata := some { PromptTokenCount := 12, CandidatesTokenCount := 30, TotalTokenCount := 42 },
      FinishReason := "STOP" }
    rfl (fun _ => rfl) rfl rfl).1

/-- C18. The streaming failures. (1) When the request does not convert, `generateStream`
yields that one failure, wrapped, and nothing else, and does not call the client. (2) For a
consumer that always wants more: when the client fails after delivering `k` chunks, the
items are the `k` partial responses and then that one failure, wrapped; when the client
returns a result that does not convert, they are the partial responses and then the failure
of the conversion, wrapped. (3) For every consumer and client: a failure is the last item
yielded, and no item yielded with it has `TurnComplete` set. -/
theorem generateStream_failure {ToolT LT : Type} (ToLower : String → String)
    (ToolsToBedrockTools : List (Option ToolT) → List LT)
    (Unmarshal : String → Except GoError (Option GoMap))
    (CreateCompletion : String → List Message → llms.CallOptions LT → ClientRun)
    (m : bedrockModel) (req : model.LLMRequest ToolT) (yield : List StreamItem → Bool) :
    (∀ err, convertRequest ToLower ToolsToBedrockTools m req = .error err →
      (generateStream ToLower ToolsToBedrockTools Unmarshal CreateCompletion m req yield).yielded =
        [StreamItem.failure (.wrapf "failed to convert request: %w" err)] ∧
      (generateStream ToLower ToolsToBedrockTools Unmarshal CreateCompletion m req
        yield).clientCalled = false) ∧
    (∀ msgs options chunks err,
      convertRequest ToLower ToolsToBedrockTools m req = .ok (msgs, options) →
      (∀ items, yield items = true) →
      (CreateCompletion m.modelName msgs options).uninterrupted = (chunks, .error err) →
      (generateStream ToLower ToolsToBedrockTools Unmarshal CreateCompletion m req yield).yielded =
        chunks.map (fun bytes => StreamItem.response
          { Partial := true,
            Content := some { Role := "model", Parts := [some { Text := bytes }] } }) ++
        [StreamItem.failure (.wrapf "failed to call model: %w" err)]) ∧
    (∀ msgs options chunks result err,
      convertRequest ToLower ToolsToBedrockTools m req = .ok (msgs, options) →
      (∀ items, yield items = true) →
      (CreateCompletion m.modelName msgs options).uninterrupted = (chunks, .ok result) →
      MessageToLLMResponse Unmarshal (some result) = .error err →
      (generateStream ToLower ToolsToBedrockTools Unmarshal CreateCompletion m req yield).yielded =
        chunks.map (fun bytes => StreamItem.response
          { Partial := true,
            Content := some { Role := "model", Parts := [some { Text := bytes }] } }) ++
        [StreamItem.failure (.wrapf "failed to convert stream response: %w" err)]) ∧
    (∀ before after err,
      (generateStream ToLower ToolsToBedrockTools Unmarshal CreateCompletion m req yield).yielded =
        before ++ StreamItem.failure err :: after →
      after = [] ∧ ∀ item ∈ before, item.turnComplete = false ∧ ∃ bytes, item =
        StreamItem.response
          { Partial := true,
            Content := some { Role := "model", Parts := [some { Text := bytes }] } }) := by
  refine ⟨?_, ?_, ?_, ?_⟩
  · intro err herr
    simp only [generateStream, herr, and_self]
  · intro msgs options chunks err hreq hyield hrun
    simp only [generateStream, hreq, runStreaming_uninterrupted yield hyield, hrun,
      List.nil_append]
    rfl
  · intro msgs options chunks result err hreq hyield hrun hconv
    simp only [generateStream, hreq, runStreaming_uninterrupted yield hyield, hrun, hconv,
      List.nil_append]
    rfl
  · intro before after err hsplit
    have hshape : ∃ (chunks : List String) (final : StreamItem),
        (generateStream ToLower ToolsToBedrockTools Unmarshal CreateCompletion m req
          yield).yielded =
          chunks.map (fun bytes => StreamItem.response (partialResponse bytes)) ++ [final] := by
      unfold generateStream
      cases hreq : convertRequest ToLower ToolsToBedrockTools m req with
      | error e => exact ⟨[], _, rfl⟩
      | ok pair =>
        obtain ⟨msgs, options⟩ := pair
        simp only []
        obtain ⟨chunks, hchunks⟩ := runStreaming_partials yield
          (CreateCompletion m.modelName msgs options) []
        rw [List.nil_append] at hchunks
        cases hrun : runStreaming yield (CreateCompletion m.modelName msgs options) [] with
        | mk res yielded =>
          rw [hrun] at hchunks
          simp only at hchunks
          subst hchunks
          cases res with
          | error e => exact ⟨chunks, _, rfl⟩
          | ok originResp =>
            simp only []
            cases MessageToLLMResponse Unmarshal (some originResp) with
            | error e => exact ⟨chunks, _, rfl⟩
            | ok resp => exact ⟨chunks, _, rfl⟩
    obtain ⟨chunks, final, hitems⟩ := hshape
    rw [hitems] at hsplit
    obtain ⟨h1, _, h3⟩ := failure_is_last chunks final before after err hsplit
    refine ⟨h1, ?_⟩
    intro item hitem
    rw [h3] at hitem
    obtain ⟨bytes, _, rfl⟩ := List.mem_map.mp hitem
    exact ⟨rfl, bytes, rfl⟩

/-- C18 at two runs: a request whose Turn has an unsupported role, and a client that fails
after the chunks `Hel` and `lo `. -/
theorem generateStream_failure_witness :
    (generateStream strings.ToLower (fun _ : List (Option Unit) => ([] : List Unit))
        (fun _ => .ok (some []))
        (fun _ _ _ => ClientRun.scripted (.ok { Choices := [] }) ["Hel"])
        { modelName := "claude", maxTokens := 4096 }
        { Contents := [some { Role := "bogus", Parts := [some { Text := "hi" }] }] }
        (fun _ => true)).yielded =
      [StreamItem.failure (.wrapf "failed to convert request: %w"
        (.wrapf "failed to convert contents: %w" (.wrapf "failed to convert content: %w"
          (.errorf "unsupported role: %s" ["bogus"]))))] ∧
    (generateStream strings.ToLower (fun _ : List (Option Unit) => ([] : List Unit))
        (fun _ => .ok (some []))
        (fun _ _ _ => ClientRun.scripted (.error (.errorf "throttled" [])) ["Hel", "lo "])
        { modelName := "claude", maxTokens := 4096 }
        { Contents := [some { Role := "user", Parts := [some { Text := "hi" }] }] }
        (fun _ => true)).yielded =
      [StreamItem.response { Partial := true, Content := some { Role := "model", Parts := [some { Text := "Hel" }] } },
       StreamItem.response { Partial := true, Content := some { Role := "model", Parts := [some { Text := "lo " }] } },
       StreamItem.failure (.wrapf "failed to call model: %w" (.errorf "throttled" []))] :=
  ⟨((generateStream_failure strings.ToLower (fun _ : List (Option Unit) => ([] : List Unit))
      (fun _ => .ok (some []))
      (fun _ _ _ => ClientRun.scripted (.ok { Choices := [] }) ["Hel"])
      { modelName := "claude", maxTokens := 4096 }
      { Contents := [some { Role := "bogus", Parts := [some { Text := "hi" }] }] }
      (fun _ => true)).1 _ rfl).1,
   (generateStream_failure strings.ToLower (fun _ : List (Option Unit) => ([] : List Unit))
      (fun _ => .ok (some []))
      (fun _ _ _ => ClientRun.scripted (.error (.errorf "throttled" [])) ["Hel", "lo "])
      { modelName := "claude", maxTokens := 4096 }
      { Contents := [some { Role := "user", Parts := [some { Text := "hi" }] }] }
      (fun _ => true)).2.1
      [{ Role := ChatMessageTypeHuman, Type_ := "text", Content := "hi" }]
      { MaxTokens := 4096 } ["Hel", "lo "] (.errorf "throttled" []) rfl (fun _ => rfl) rfl⟩

end adkgobedrock

namespace converters

/-- The value a guarded assignment leaves at a key. -/
theorem lookup_setIf (present : Bool) (key : String) (value : GoAny) (k : String) :
    (setIf present key value).lookup k =
      if present = true ∧ k = key then some value else none := by
  unfold setIf
  by_cases h : k = key
  · cases present <;> simp [h]
  · have hb : (k == key) = false := by simpa using h
    cases present <;> simp [h, List.lookup_cons, hb]

/-- The value a pointer-guarded assignment leaves at a key. -/
theorem lookup_setSome (key : String) (value : Option GoAny) (k : String) :
    (setSome key value).lookup k = if k = key then value else none := by
  unfold setSome
  cases value with
  | none => simp
  | some v =>
    by_cases h : k = key
    · simp [h]
    · have hb : (k == key) = false := by simpa using h
      simp [h, List.lookup_cons, hb]

/-- The entries a guarded assignment adds. -/
theorem mem_setIf (present : Bool) (key : String) (value : GoAny) (entry : String × GoAny) :
    entry ∈ setIf present key value ↔ present = true ∧ entry = (key, value) := by
  unfold setIf
  cases present <;> simp

/-- The entries a pointer-guarded assignment adds. -/
theorem mem_setSome (key : String) (value : Option GoAny) (entry : String × GoAny) :
    entry ∈ setSome key value ↔ ∃ v, value = some v ∧ entry = (key, v) := by
  unfold setSome
  cases value <;> simp

/-- The function `SchemaToMap` returns a map for a schema that is not nil. -/
theorem SchemaToMap_some (ToLower : String → String) (schema : genai.Schema) :
    ∃ m, SchemaToMap ToLower (some schema) = some m := by
  rw [SchemaToMap]
  exact ⟨_, rfl⟩

/-- The function `SchemaToMap` returns nil for the nil schema only. -/
theorem SchemaToMap_eq_none_iff (ToLower : String → String) (schema : Option genai.Schema) :
    SchemaToMap ToLower schema = none ↔ schema = none := by
  cases schema with
  | none => simp [SchemaToMap]
  | some s => simp [SchemaToMap]

/-- The loop over `AnyOf` keeps, in order, the maps of the branches for which `SchemaToMap`
does not return nil. -/
theorem anyOfToMaps_eq (ToLower : String → String) (branches : List (Option genai.Schema)) :
    anyOfToMaps ToLower branches = branches.filterMap (SchemaToMap ToLower) := by
  induction branches with
  | nil => simp [anyOfToMaps]
  | cons s rest ih =>
    rw [anyOfToMaps]
    cases hs : SchemaToMap ToLower s with
    | none => simp [hs, ih]
    | some m => simp [hs, ih]

/-- The loop of `schemaPropertiesToMap` maps each named schema that is not nil to its
flattened map, under the same name and in the same order. -/
theorem propertiesToEntries_eq (ToLower : String → String)
    (props : List (String × Option genai.Schema)) :
    propertiesToEntries ToLower props =
      props.filterMap (fun p => (SchemaToMap ToLower p.2).map (fun m => (p.1, GoAny.map m))) := by
  induction props with
  | nil => simp [propertiesToEntries]
  | cons p rest ih =>
    obtain ⟨name, schema⟩ := p
    cases schema with
    | none =>
      rw [propertiesToEntries, ih]
      simp [SchemaToMap]
    | some sch =>
      rw [propertiesToEntries, ih]
      obtain ⟨m, hm⟩ := SchemaToMap_some ToLower sch
      simp [hm, GoAny.ofMap]

end converters

namespace converters

/-- The map `SchemaToMap` returns for a schema that is not nil, key by key. -/
theorem SchemaToMap_lookup (ToLower : String → String) (schema : genai.Schema) :
    ∃ m, SchemaToMap ToLower (some schema) = some m ∧
      m.lookup "type" =
        (if schema.Type_ = "" then none else some (.str (ToLower schema.Type_))) ∧
      m.lookup "description" =
        (if schema.Description = "" then none else some (.str schema.Description)) ∧
      m.lookup "enum" =
        (if schema.Enum.length > 0 then some (.strings schema.Enum) else none) ∧
      m.lookup "format" = (if schema.Format = "" then none else some (.str schema.Format)) ∧
      m.lookup "items" = (SchemaToMap ToLower schema.Items).map GoAny.map ∧
      m.lookup "properties" =
        (if mapLen schema.Properties > 0 then
          (schemaPropertiesToMap ToLower schema.Properties).map GoAny.map
        else none) ∧
      m.lookup "required" =
        (if schema.Required.length > 0 then some (.strings schema.Required) else none) ∧
      m.lookup "nullable" = (if schema.Nullable = some true then some (.bool true) else none) ∧
      m.lookup "default" = schema.Default ∧
      m.lookup "minimum" = schema.Minimum.map GoAny.float64 ∧
      m.lookup "maximum" = schema.Maximum.map GoAny.float64 ∧
      m.lookup "minLength" = schema.MinLength.map GoAny.int64 ∧
      m.lookup "maxLength" = schema.MaxLength.map GoAny.int64 ∧
      m.lookup "minItems" = schema.MinItems.map GoAny.int64 ∧
      m.lookup "maxItems" = schema.MaxItems.map GoAny.int64 ∧
      m.lookup "pattern" = (if schema.Pattern = "" then none else some (.str schema.Pattern)) ∧
      m.lookup "anyOf" =
        (if (schema.AnyOf.filterMap (SchemaToMap ToLower)).length > 0 then
          some (.maps (schema.AnyOf.filterMap (SchemaToMap ToLower)))
        else none) ∧
      (∀ entry ∈ m, entry.1 ∈ ["type", "description", "enum", "format", "items", "properties",
        "required", "nullable", "default", "minimum", "maximum", "minLength", "maxLength",
        "minItems", "maxItems", "pattern", "anyOf"]) := by
  have hitems : (if schema.Items.isSome = true ∧ "items" = "items" then
        some (GoAny.ofMap (SchemaToMap ToLower schema.Items)) else none) =
      (SchemaToMap ToLower schema.Items).map GoAny.map := by
    cases h : schema.Items with
    | none => simp [SchemaToMap]
    | some item =>
      obtain ⟨im, him⟩ := SchemaToMap_some ToLower item
      simp [him, GoAny.ofMap]
  have hprops : (if decide (mapLen schema.Properties > 0) = true ∧ "properties" = "properties" then
        some (GoAny.ofMap (schemaPropertiesToMap ToLower schema.Properties)) else none) =
      (if mapLen schema.Properties > 0 then
        (schemaPropertiesToMap ToLower schema.Properties).map GoAny.map
      else none) := by
    cases h : schema.Properties with
    | none => simp [mapLen]
    | some props =>
      rw [schemaPropertiesToMap]
      by_cases hpos : mapLen (some props) > 0
      · simp [hpos, GoAny.ofMap]
      · simp [hpos]
  refine ⟨_, by rw [SchemaToMap], ?_, ?_, ?_, ?_, ?_, ?_, ?_, ?_, ?_, ?_, ?_, ?_, ?_, ?_, ?_, ?_,
    ?_, ?_⟩
  · simp [List.lookup_append, lookup_setIf, lookup_setSome]
  · simp [List.lookup_append, lookup_setIf, lookup_setSome]
  · simp [List.lookup_append, lookup_setIf, lookup_setSome]
  · simp [List.lookup_append, lookup_setIf, lookup_setSome]
  · rw [← hitems]
    simp [List.lookup_append, lookup_setIf, lookup_setSome]
  · rw [← hprops]
    simp [List.lookup_append, lookup_setIf, lookup_setSome]
  · simp [List.lookup_append, lookup_setIf, lookup_setSome]
  · simp [List.lookup_append, lookup_setIf, lookup_setSome]
  · simp [List.lookup_append, lookup_setIf, lookup_setSome]
  · simp [List.lookup_append, lookup_setIf, lookup_setSome]
  · simp [List.lookup_append, lookup_setIf, lookup_setSome]
  · simp [List.lookup_append, lookup_setIf, lookup_setSome]
  · simp [List.lookup_append, lookup_setIf, lookup_setSome]
  · simp [List.lookup_append, lookup_setIf, lookup_setSome]
  · simp [List.lookup_append, lookup_setIf, lookup_setSome]
  · simp [List.lookup_append, lookup_setIf, lookup_setSome]
  · simp only [List.lookup_append, lookup_setIf, lookup_setSome, anyOfToMaps_eq]
    by_cases hany : (schema.AnyOf.filterMap (SchemaToMap ToLower)).length > 0
    · have hlen : schema.AnyOf.length > 0 := by
        cases hA : schema.AnyOf with
        | nil => simp [hA] at hany
        | cons x xs => simp
      simp [hany, hlen]
    · simp [hany]
  · intro entry hentry
    simp only [List.mem_append, mem_setIf, mem_setSome, or_assoc] at hentry
    rcases hentry with h | h | h | h | h | h | h | h | h | h | h | h | h | h | h | h | h
    all_goals first
      | (obtain ⟨_, rfl⟩ := h; simp)
      | (obtain ⟨_, _, rfl⟩ := h; simp)

end converters

namespace converters

/-- C19. Schema flattening keeps the structure. For a schema that is not nil `SchemaToMap`
returns a map whose `type` is the lower-cased type name, whose `description`, `enum`,
`pattern`, `default`, `minimum`, `maximum`, `minLength`, `maxLength`, `minItems` and
`maxItems` are the values of the schema unchanged, whose `items` is `SchemaToMap` of the items
schema, whose `properties` is the map of `SchemaToMap` over the named properties (those that
are not nil, under their names) and whose `required` is the required list; each key is there
when its field is set, with that value. Hence the flattening of an array schema whose items
have an enum list has under `items` a map whose `enum` is that list. -/
theorem SchemaToMap_structure (ToLower : String → String) (schema : genai.Schema) :
    ∃ m, SchemaToMap ToLower (some schema) = some m ∧
      m.lookup "type" =
        (if schema.Type_ = "" then none else some (.str (ToLower schema.Type_))) ∧
      m.lookup "description" =
        (if schema.Description = "" then none else some (.str schema.Description)) ∧
      m.lookup "enum" =
        (if schema.Enum.length > 0 then some (.strings schema.Enum) else none) ∧
      m.lookup "pattern" = (if schema.Pattern = "" then none else some (.str schema.Pattern)) ∧
      m.lookup "default" = schema.Default ∧
      m.lookup "minimum" = schema.Minimum.map GoAny.float64 ∧
      m.lookup "maximum" = schema.Maximum.map GoAny.float64 ∧
      m.lookup "minLength" = schema.MinLength.map GoAny.int64 ∧
      m.lookup "maxLength" = schema.MaxLength.map GoAny.int64 ∧
      m.lookup "minItems" = schema.MinItems.map GoAny.int64 ∧
      m.lookup "maxItems" = schema.MaxItems.map GoAny.int64 ∧
      m.lookup "items" = (SchemaToMap ToLower schema.Items).map GoAny.map ∧
      (∀ props, schema.Properties = some props → props.length > 0 →
        schemaPropertiesToMap ToLower schema.Properties =
          some (props.filterMap
            (fun p => (SchemaToMap ToLower p.2).map (fun pm => (p.1, GoAny.map pm)))) ∧
        m.lookup "properties" =
          some (.map (props.filterMap
            (fun p => (SchemaToMap ToLower p.2).map (fun pm => (p.1, GoAny.map pm)))))) ∧
      m.lookup "required" =
        (if schema.Required.length > 0 then some (.strings schema.Required) else none) ∧
      (∀ item : genai.Schema, schema.Items = some item → item.Enum.length > 0 →
        ∃ im, m.lookup "items" = some (.map im) ∧
          im.lookup "enum" = some (.strings item.Enum)) := by
  obtain ⟨m, hm, htype, hdesc, henum, _, hitems, hprops, hreq, _, hdefault, hmin, hmax, hminL,
    hmaxL, hminI, hmaxI, hpattern, _, _⟩ := SchemaToMap_lookup ToLower schema
  refine ⟨m, hm, htype, hdesc, henum, hpattern, hdefault, hmin, hmax, hminL, hmaxL, hminI,
    hmaxI, hitems, ?_, hreq, ?_⟩
  · intro props hp hlen
    have hflat : schemaPropertiesToMap ToLower schema.Properties =
        some (props.filterMap
          (fun p => (SchemaToMap ToLower p.2).map (fun pm => (p.1, GoAny.map pm)))) := by
      rw [hp, schemaPropertiesToMap, propertiesToEntries_eq]
    refine ⟨hflat, ?_⟩
    have hpos : mapLen schema.Properties > 0 := by
      rw [hp]
      exact hlen
    rw [hprops, if_pos hpos, hflat]
    rfl
  · intro item hitem henumItem
    obtain ⟨im, him, _, _, himEnum, _⟩ := SchemaToMap_lookup ToLower item
    refine ⟨im, ?_, ?_⟩
    · rw [hitems, hitem, him]
      rfl
    · rw [himEnum, if_pos henumItem]

/-- C19 at the array schema whose items are strings with the enum list `celsius`,
`fahrenheit`, and at the object schema that holds it as the property `units` of its
property `options`. -/
theorem SchemaToMap_structure_witness :
    (∃ m im, SchemaToMap strings.ToLower
        (some { genai.Schema.zero with Type_ := "ARRAY", Items := some { genai.Schema.zero with Type_ := "STRING", Enum := ["celsius", "fahrenheit"] } }) = some m ∧
      m.lookup "type" = some (.str "array") ∧
      m.lookup "items" = some (.map im) ∧
      im.lookup "enum" = some (.strings ["celsius", "fahrenheit"])) ∧
    SchemaToMap strings.ToLower
        (some { genai.Schema.zero with
          Type_ := "OBJECT",
          Required := ["options"],
          Properties := some [("options", some { genai.Schema.zero with
            Type_ := "OBJECT",
            Properties := some [("units", some { genai.Schema.zero with Type_ := "ARRAY", Items := some { genai.Schema.zero with Type_ := "STRING", Enum := ["celsius", "fahrenheit"] } })] })] }) =
      some [("type", .str "object"),
            ("properties", .map [("options", .map
              [("type", .str "object"),
               ("properties", .map [("units", .map
                 [("type", .str "array"),
                  ("items", .map [("type", .str "string"),
                                  ("enum", .strings ["celsius", "fahrenheit"])])])])])]),
            ("required", .strings ["options"])] := by
  constructor
  · obtain ⟨m, hm, htype, _, _, _, _, _, _, _, _, _, _, _, _, _, harray⟩ :=
      SchemaToMap_structure strings.ToLower
        { genai.Schema.zero with Type_ := "ARRAY", Items := some { genai.Schema.zero with Type_ := "STRING", Enum := ["celsius", "fahrenheit"] } }
    obtain ⟨im, him, henum⟩ := harray
      { genai.Schema.zero with Type_ := "STRING", Enum := ["celsius", "fahrenheit"] } rfl
      (by decide)
    exact ⟨m, im, hm, by rw [htype]; rfl, him, henum⟩
  · simp [SchemaToMap, schemaPropertiesToMap, propertiesToEntries, anyOfToMaps, setIf, setSome,
      mapLen, genai.Schema.zero, strings.ToLower, GoAny.ofMap]

/-- C20. The omission rules of schema flattening. For a schema that is not nil the map of
`SchemaToMap` has the key `nullable` exactly when nullability is set and true, with the
value true (never false); it has the key `anyOf` exactly when some branch remains after the
branches for which `SchemaToMap` returns nothing (nil: the nil branches) are left out, with
the flattened remaining branches in their order; and every other key is there exactly when
its field is set (a string is not empty, a list or map has an entry, a pointer is not nil).
The map has no other key. -/
theorem SchemaToMap_omission (ToLower : String → String) (schema : genai.Schema) :
    ∃ m, SchemaToMap ToLower (some schema) = some m ∧
      m.lookup "nullable" = (if schema.Nullable = some true then some (.bool true) else none) ∧
      m.lookup "anyOf" =
        (if (schema.AnyOf.filterMap (SchemaToMap ToLower)).length > 0 then
          some (.maps (schema.AnyOf.filterMap (SchemaToMap ToLower)))
        else none) ∧
      (∀ branch, SchemaToMap ToLower branch = none ↔ branch = none) ∧
      ((m.lookup "type").isSome = true ↔ schema.Type_ ≠ "") ∧
      ((m.lookup "description").isSome = true ↔ schema.Description ≠ "") ∧
      ((m.lookup "enum").isSome = true ↔ schema.Enum ≠ []) ∧
      ((m.lookup "format").isSome = true ↔ schema.Format ≠ "") ∧
      ((m.lookup "items").isSome = true ↔ schema.Items ≠ none) ∧
      ((m.lookup "properties").isSome = true ↔ mapLen schema.Properties > 0) ∧
      ((m.lookup "required").isSome = true ↔ schema.Required ≠ []) ∧
      ((m.lookup "default").isSome = true ↔ schema.Default.isSome = true) ∧
      ((m.lookup "minimum").isSome = true ↔ schema.Minimum ≠ none) ∧
      ((m.lookup "maximum").isSome = true ↔ schema.Maximum ≠ none) ∧
      ((m.lookup "minLength").isSome = true ↔ schema.MinLength ≠ none) ∧
      ((m.lookup "maxLength").isSome = true ↔ schema.MaxLength ≠ none) ∧
      ((m.lookup "minItems").isSome = true ↔ schema.MinItems ≠ none) ∧
      ((m.lookup "maxItems").isSome = true ↔ schema.MaxItems ≠ none) ∧
      ((m.lookup "pattern").isSome = true ↔ schema.Pattern ≠ "") ∧
      (∀ entry ∈ m, entry.1 ∈ ["type", "description", "enum", "format", "items", "properties",
        "required", "nullable", "default", "minimum", "maximum", "minLength", "maxLength",
        "minItems", "maxItems", "pattern", "anyOf"]) := by
  obtain ⟨m, hm, htype, hdesc, henum, hformat, hitems, hprops, hreq, hnull, hdefault, hmin, hmax,
    hminL, hmaxL, hminI, hmaxI, hpattern, hanyOf, hkeys⟩ := SchemaToMap_lookup ToLower schema
  refine ⟨m, hm, hnull, hanyOf, SchemaToMap_eq_none_iff ToLower, ?_, ?_, ?_, ?_, ?_, ?_, ?_, ?_,
    ?_, ?_, ?_, ?_, ?_, ?_, ?_, hkeys⟩
  · rw [htype]; split <;> simp_all
  · rw [hdesc]; split <;> simp_all
  · rw [henum]; split <;> simp_all [List.length_pos]
  · rw [hformat]; split <;> simp_all
  · rw [hitems]
    cases hi : schema.Items with
    | none => simp [SchemaToMap]
    | some item =>
      have := (SchemaToMap_eq_none_iff ToLower (some item))
      cases hs : SchemaToMap ToLower (some item) with
      | none => simp [hs] at this
      | some im => simp
  · rw [hprops]
    by_cases hpos : mapLen schema.Properties > 0
    · rw [if_pos hpos]
      cases hp : schema.Properties with
      | none => simp [hp, mapLen] at hpos
      | some props =>
        rw [schemaPropertiesToMap]
        rw [hp] at hpos
        simp [hpos]
    · rw [if_neg hpos]
      simp [hpos]
  · rw [hreq]; split <;> simp_all [List.length_pos]
  · rw [hdefault]
  · rw [hmin]; cases schema.Minimum <;> simp
  · rw [hmax]; cases schema.Maximum <;> simp
  · rw [hminL]; cases schema.MinLength <;> simp
  · rw [hmaxL]; cases schema.MaxLength <;> simp
  · rw [hminI]; cases schema.MinItems <;> simp
  · rw [hmaxI]; cases schema.MaxItems <;> simp
  · rw [hpattern]; split <;> simp_all

/-- C20 at three schemas: nullable set to false gives no key; a nil branch of `anyOf` is
left out and the branch with no field set is kept as the empty map; `anyOf` with nil
branches only gives no key. -/
theorem SchemaToMap_omission_witness :
    SchemaToMap strings.ToLower
        (some { genai.Schema.zero with Type_ := "STRING", Nullable := some false }) =
      some [("type", .str "string")] ∧
    SchemaToMap strings.ToLower
        (some { genai.Schema.zero with Type_ := "STRING", Nullable := some true }) =
      some [("type", .str "string"), ("nullable", .bool true)] ∧
    SchemaToMap strings.ToLower
        (some { genai.Schema.zero with
          AnyOf := [some { genai.Schema.zero with Type_ := "STRING" }, none, some genai.Schema.zero, some { genai.Schema.zero with Type_ := "INTEGER" }] }) =
      some [("anyOf", .maps [[("type", .str "string")], [], [("type", .str "integer")]])] ∧
    SchemaToMap strings.ToLower (some { genai.Schema.zero with AnyOf := [none, none] }) =
      some [] := by
  refine ⟨?_, ?_, ?_, ?_⟩
  · simp [SchemaToMap, anyOfToMaps, setIf, setSome, mapLen, genai.Schema.zero, strings.ToLower]
  · simp [SchemaToMap, anyOfToMaps, setIf, setSome, mapLen, genai.Schema.zero, strings.ToLower]
  · simp [SchemaToMap, anyOfToMaps, setIf, setSome, mapLen, genai.Schema.zero, strings.ToLower]
  · simp [SchemaToMap, anyOfToMaps, setIf, setSome, mapLen, genai.Schema.zero, strings.ToLower]

end converters

namespace converters

/-- C13 at four policies: the empty mode and the mode `VALIDATED` fail, two allowed names
fail in the mode auto, and the mode none with one allowed name succeeds. -/
theorem ToolConfigToToolChoice_fails_iff_witness :
    ToolConfigToToolChoice (some { FunctionCallingConfig := some { Mode := "" } }) =
      .error (.errorf
        "unsupported FunctionCallingConfig mode %q; supported modes are: ModeNone, ModeAuto, ModeAny"
        [""]) ∧
    ToolConfigToToolChoice (some { FunctionCallingConfig := some { Mode := "VALIDATED" } }) =
      .error (.errorf
        "unsupported FunctionCallingConfig mode %q; supported modes are: ModeNone, ModeAuto, ModeAny"
        ["VALIDATED"]) ∧
    (∃ err, ToolConfigToToolChoice (some { FunctionCallingConfig := some { Mode := "AUTO", AllowedFunctionNames := ["a", "b"] } }) = .error err) ∧
    ToolConfigToToolChoice (some { FunctionCallingConfig := some { Mode := "NONE", AllowedFunctionNames := ["a"] } }) =
      .ok (some (.string "none")) :=
  ⟨(ToolConfigToToolChoice_fails_iff (some { FunctionCallingConfig := some { Mode := "" } })).2.2.2
      { FunctionCallingConfig := some { Mode := "" } } { Mode := "" } rfl rfl (by decide)
      (by decide) (by decide) (by decide),
   by decide,
   (ToolConfigToToolChoice_fails_iff (some { FunctionCallingConfig := some { Mode := "AUTO", AllowedFunctionNames := ["a", "b"] } })).1.2
      ⟨{ FunctionCallingConfig := some { Mode := "AUTO", AllowedFunctionNames := ["a", "b"] } },
        { Mode := "AUTO", AllowedFunctionNames := ["a", "b"] }, rfl, rfl, Or.inl (by decide)⟩,
   by decide⟩

end converters

namespace converters

/-- The strings `appendStrings` collects, each as a Go `any`, are the entries of the slice
that are strings, in the order of the slice. -/
theorem appendStrings_map_str (req : List GoAny) :
    (appendStrings req).map GoAny.str =
      req.filter (fun r => match r with | .str _ => true | _ => false) := by
  induction req with
  | nil => rfl
  | cons r rest ih =>
    cases r <;> simp [appendStrings, ih]

/-- The function `appendStrings` collects as many strings as the slice has string entries. -/
theorem appendStrings_length (req : List GoAny) :
    (appendStrings req).length =
      req.countP (fun r => match r with | .str _ => true | _ => false) := by
  rw [List.countP_eq_length_filter, ← appendStrings_map_str, List.length_map]

/-- C23: `extractRequiredFields` returns a `[]string` unchanged; for a `[]any` it returns
the entries that are strings, in their order (as Go `any` values they are the slice filtered
to its string entries), so as many names as the slice has string entries; for nil and for a
value of any other type it returns no name. The function is total: it returns a list on every
input. -/
theorem extractRequiredFields_coercion :
    (∀ req : List String, extractRequiredFields (some (.strings req)) = req) ∧
    (∀ req : List GoAny,
      (extractRequiredFields (some (.slice req))).map GoAny.str =
        req.filter (fun r => match r with | .str _ => true | _ => false) ∧
      (extractRequiredFields (some (.slice req))).length =
        req.countP (fun r => match r with | .str _ => true | _ => false)) ∧
    extractRequiredFields none = [] ∧
    (∀ v : GoAny, (∀ req, v ≠ .strings req) → (∀ req, v ≠ .slice req) →
      extractRequiredFields (some v) = []) := by
  refine ⟨fun _ => rfl, fun req => ⟨appendStrings_map_str req, appendStrings_length req⟩,
    rfl, ?_⟩
  intro v h1 h2
  cases v with
  | strings req => exact absurd rfl (h1 req)
  | slice req => exact absurd rfl (h2 req)
  | _ => rfl

/-- C23 at four values: a `[]any` with two strings among five entries, a `[]string`, a
number, and a `[]any` without a string. -/
theorem extractRequiredFields_coercion_witness :
    extractRequiredFields (some (.slice [.str "city", .int 3, .null, .str "unit", .bool true])) =
      ["city", "unit"] ∧
    extractRequiredFields (some (.strings ["city", "unit"])) = ["city", "unit"] ∧
    extractRequiredFields (some (.int 3)) = [] ∧
    (extractRequiredFields (some (.slice [.int 1, .null]))).length = 0 :=
  ⟨rfl, extractRequiredFields_coercion.1 ["city", "unit"],
   extractRequiredFields_coercion.2.2.2 (.int 3) (fun _ h => by cases h) (fun _ h => by cases h),
   (extractRequiredFields_coercion.2.1 [.int 1, .null]).2⟩

end converters

namespace converters

/-- C22: for every function declaration, `FunctionDeclarationToTool` returns a tool of type
`function` with the name and the description of the declaration, whose parameters are the
map of exactly the three keys `type` (the string `object`), `properties` (a map) and
`required` (a list of strings), the two being the results of `extractFunctionParams`. A
declaration with neither a native schema nor a raw value gets the empty map. With a native
schema, `properties` is the flattened map of its properties (the empty map when it has
none) and `required` is its required list, and the tool is the same whatever the raw value
is. -/
theorem FunctionDeclarationToTool_shape (ToLower : String → String)
    (fd : genai.FunctionDeclaration) :
    (∃ (properties : GoMap) (required : List String),
      FunctionDeclarationToTool ToLower fd =
        { Type_ := "function",
          Function := some { Name := fd.Name, Description := fd.Description, Parameters := .map [("type", .str "object"), ("properties", .map properties), ("required", .strings required)] } } ∧
      (properties, required) = extractFunctionParams ToLower fd) ∧
    (fd.Parameters = none → fd.ParametersJsonSchema = none →
      extractFunctionParams ToLower fd = ([], [])) ∧
    (∀ schema, fd.Parameters = some schema →
      extractFunctionParams ToLower fd =
        ((schemaPropertiesToMap ToLower schema.Properties).getD [], schema.Required) ∧
      ∀ raw, FunctionDeclarationToTool ToLower { fd with ParametersJsonSchema := raw } =
        FunctionDeclarationToTool ToLower fd) := by
  refine ⟨⟨_, _, rfl, rfl⟩, ?_, ?_⟩
  · intro h1 h2
    simp only [extractFunctionParams, h1, h2]
  · intro schema h
    refine ⟨?_, ?_⟩
    · simp only [extractFunctionParams, h]
    · intro raw
      simp only [FunctionDeclarationToTool, extractFunctionParams, h]

/-- C22 at a declaration with a native schema and a raw map that names another property:
the tool is that of the native schema alone. -/
theorem FunctionDeclarationToTool_shape_witness :
    FunctionDeclarationToTool strings.ToLower
        { Name := "search", Description := "Search the web",
          Parameters := some { genai.Schema.zero with Type_ := "OBJECT", Properties := some [("q", some { genai.Schema.zero with Type_ := "STRING" })], Required := ["q"] },
          ParametersJsonSchema := some (.map (some [("properties", .map [("zip", .map [("type", .str "integer")])]), ("required", .strings ["zip"])])) } =
      FunctionDeclarationToTool strings.ToLower
        { Name := "search", Description := "Search the web",
          Parameters := some { genai.Schema.zero with Type_ := "OBJECT", Properties := some [("q", some { genai.Schema.zero with Type_ := "STRING" })], Required := ["q"] } } :=
  ((FunctionDeclarationToTool_shape strings.ToLower
      { Name := "search", Description := "Search the web",
        Parameters := some { genai.Schema.zero with Type_ := "OBJECT", Properties := some [("q", some { genai.Schema.zero with Type_ := "STRING" })], Required := ["q"] } }).2.2
    { genai.Schema.zero with Type_ := "OBJECT", Properties := some [("q", some { genai.Schema.zero with Type_ := "STRING" })], Required := ["q"] }
    rfl).2
    (some (.map (some [("properties", .map [("zip", .map [("type", .str "integer")])]), ("required", .strings ["zip"])])))

end converters

namespace converters

/-- C21 fails at the schema with one required property `q` of type `STRING`: carried as a
native schema, the property is flattened with the type name `string`; carried as a raw map
with the same entries, the property map is handed on as it is, with the type name `STRING`.
The two tools differ. -/
theorem FunctionDeclarationToTool_raw_map_not_normalized :
    FunctionDeclarationToTool strings.ToLower
        { Name := "search",
          Parameters := some { genai.Schema.zero with Type_ := "OBJECT", Properties := some [("q", some { genai.Schema.zero with Type_ := "STRING" })], Required := ["q"] } } =
      { Type_ := "function",
        Function := some { Name := "search", Parameters := .map [("type", .str "object"), ("properties", .map [("q", .map [("type", .str "string")])]), ("required", .strings ["q"])] } } ∧
    FunctionDeclarationToTool strings.ToLower
        { Name := "search",
          ParametersJsonSchema := some (.map (some [("type", .str "OBJECT"), ("properties", .map [("q", .map [("type", .str "STRING")])]), ("required", .strings ["q"])])) } =
      { Type_ := "function",
        Function := some { Name := "search", Parameters := .map [("type", .str "object"), ("properties", .map [("q", .map [("type", .str "STRING")])]), ("required", .strings ["q"])] } } ∧
    FunctionDeclarationToTool strings.ToLower
        { Name := "search",
          Parameters := some { genai.Schema.zero with Type_ := "OBJECT", Properties := some [("q", some { genai.Schema.zero with Type_ := "STRING" })], Required := ["q"] } } ≠
      FunctionDeclarationToTool strings.ToLower
        { Name := "search",
          ParametersJsonSchema := some (.map (some [("type", .str "OBJECT"), ("properties", .map [("q", .map [("type", .str "STRING")])]), ("required", .strings ["q"])])) } := by
  have hnative : FunctionDeclarationToTool strings.ToLower
        { Name := "search",
          Parameters := some { genai.Schema.zero with Type_ := "OBJECT", Properties := some [("q", some { genai.Schema.zero with Type_ := "STRING" })], Required := ["q"] } } =
      { Type_ := "function",
        Function := some { Name := "search", Parameters := .map [("type", .str "object"), ("properties", .map [("q", .map [("type", .str "string")])]), ("required", .strings ["q"])] } } := by
    simp [FunctionDeclarationToTool, extractFunctionParams, SchemaToMap, schemaPropertiesToMap,
      propertiesToEntries, anyOfToMaps, setIf, setSome, mapLen, genai.Schema.zero,
      strings.ToLower, GoAny.ofMap]
  refine ⟨hnative, rfl, ?_⟩
  rw [hnative]
  intro h
  simp [FunctionDeclarationToTool, extractFunctionParams, mapIndex, assertMap, List.lookup,
    extractRequiredFields] at h

/-- C21, amended: a declaration that carries a raw map is converted with the value of the
key `properties` of the map as it is (the empty map when that value is not a map) and with
the value of the key `required` coerced by `extractRequiredFields`; a declaration that
carries a native schema is converted with its properties flattened by
`schemaPropertiesToMap` and with its required list. So the two declarations are converted to
the same tool exactly when the properties of the raw map are already the flattened
properties of the native schema and its required entries are the required names of the
native schema. -/
theorem FunctionDeclarationToTool_raw_map (ToLower : String → String)
    (name description : String) (schema : genai.Schema) (raw : Option GoMap) :
    extractFunctionParams ToLower
        { Name := name, Description := description, ParametersJsonSchema := some (.map raw) } =
      ((assertMap (mapIndex raw "properties")).getD [],
       extractRequiredFields (mapIndex raw "required")) ∧
    extractFunctionParams ToLower
        { Name := name, Description := description, Parameters := some schema } =
      ((schemaPropertiesToMap ToLower schema.Properties).getD [], schema.Required) ∧
    (FunctionDeclarationToTool ToLower
        { Name := name, Description := description, Parameters := some schema } =
      FunctionDeclarationToTool ToLower
        { Name := name, Description := description, ParametersJsonSchema := some (.map raw) } ↔
      (schemaPropertiesToMap ToLower schema.Properties).getD [] =
        (assertMap (mapIndex raw "properties")).getD [] ∧
      schema.Required = extractRequiredFields (mapIndex raw "required")) := by
  refine ⟨rfl, rfl, ?_⟩
  constructor
  · intro h
    simp only [FunctionDeclarationToTool, extractFunctionParams] at h
    simp at h
    exact h
  · intro h
    simp only [FunctionDeclarationToTool, extractFunctionParams]
    rw [h.1, h.2]

/-- C21, amended, at the schema with one required property `q` of type `STRING` and the raw
map that holds its flattened form, the required names given as a `[]any`: the two tools are
the same. -/
theorem FunctionDeclarationToTool_raw_map_witness :
    FunctionDeclarationToTool strings.ToLower
        { Name := "search", Description := "",
          Parameters := some { genai.Schema.zero with Type_ := "OBJECT", Properties := some [("q", some { genai.Schema.zero with Type_ := "STRING" })], Required := ["q"] } } =
      FunctionDeclarationToTool strings.ToLower
        { Name := "search", Description := "",
          ParametersJsonSchema := some (.map (some [("type", .str "object"), ("properties", .map [("q", .map [("type", .str "string")])]), ("required", .slice [.str "q"])])) } :=
  (FunctionDeclarationToTool_raw_map strings.ToLower "search" ""
    { genai.Schema.zero with Type_ := "OBJECT", Properties := some [("q", some { genai.Schema.zero with Type_ := "STRING" })], Required := ["q"] }
    (some [("type", .str "object"), ("properties", .map [("q", .map [("type", .str "string")])]), ("required", .slice [.str "q"])])).2.2.2
    ⟨by simp [SchemaToMap, schemaPropertiesToMap, propertiesToEntries, anyOfToMaps, setIf,
        setSome, mapLen, genai.Schema.zero, strings.ToLower, GoAny.ofMap, mapIndex, assertMap,
        List.lookup],
     by rfl⟩

end converters

namespace adkgobedrock

open bedrockclient converters

/-- The limit of a model built by `NewModel` is positive: the limit given when that is
positive, 4096 otherwise. -/
theorem NewModel_maxTokens_pos (modelName : String) (maxTokens : Int) :
    0 < (NewModel modelName maxTokens).maxTokens ∧
    (NewModel modelName maxTokens).maxTokens = if 0 < maxTokens then maxTokens else 4096 := by
  unfold NewModel defaultMaxTokens
  by_cases h : maxTokens ≤ 0
  · have h2 : ¬ 0 < maxTokens := by omega
    simp [h, h2]
  · have h2 : 0 < maxTokens := by omega
    simp [h, h2]

/-- The `MaxTokens` of the options of a request that converts. -/
theorem convertRequest_MaxTokens {ToolT LT : Type} (ToLower : String → String)
    (ToolsToBedrockTools : List (Option ToolT) → List LT)
    (m : bedrockModel) (req : model.LLMRequest ToolT)
    (msgs : List Message) (options : llms.CallOptions LT)
    (h : convertRequest ToLower ToolsToBedrockTools m req = .ok (msgs, options)) :
    options.MaxTokens =
      match req.Config with
      | none => m.maxTokens
      | some config =>
        if config.MaxOutputTokens > 0 then config.MaxOutputTokens else m.maxTokens := by
  unfold convertRequest at h
  cases hc : ContentsToMessages ToLower req.Contents with
  | error e => rw [hc] at h; simp at h
  | ok messages =>
    rw [hc] at h
    cases hcfg : req.Config with
    | none =>
      rw [hcfg] at h
      simp only [Except.ok.injEq, Prod.mk.injEq] at h
      rw [← h.2]
    | some config =>
      rw [hcfg] at h
      simp only at h
      cases htc : config.ToolConfig with
      | none =>
        rw [htc] at h
        simp only [Except.ok.injEq, Prod.mk.injEq] at h
        rw [← h.2]
      | some toolConfig =>
        rw [htc] at h
        simp only at h
        cases hch : ToolConfigToToolChoice (some toolConfig) with
        | error e => rw [hch] at h; simp at h
        | ok toolChoice =>
          rw [hch] at h
          simp only [Except.ok.injEq, Prod.mk.injEq] at h
          rw [← h.2]

/-- C25: for a model built by `NewModel` with any limit `maxTokens` and a request that
`convertRequest` converts, the `MaxTokens` of the options is positive; it is the
`MaxOutputTokens` of the configuration of the request when that is positive, and otherwise
(no configuration, or `MaxOutputTokens` not positive) the limit of the model, which is
`maxTokens` when that is positive and 4096 when it is zero or negative. -/
theorem convertRequest_max_tokens_positive {ToolT LT : Type} (ToLower : String → String)
    (ToolsToBedrockTools : List (Option ToolT) → List LT)
    (modelName : String) (maxTokens : Int) (req : model.LLMRequest ToolT)
    (msgs : List Message) (options : llms.CallOptions LT)
    (h : convertRequest ToLower ToolsToBedrockTools (NewModel modelName maxTokens) req =
      .ok (msgs, options)) :
    options.MaxTokens > 0 ∧
    (∀ config, req.Config = some config → config.MaxOutputTokens > 0 →
      options.MaxTokens = config.MaxOutputTokens) ∧
    (req.Config = none ∨ (∃ config, req.Config = some config ∧ config.MaxOutputTokens ≤ 0) →
      options.MaxTokens = if maxTokens > 0 then maxTokens else 4096) := by
  have hmax := convertRequest_MaxTokens ToLower ToolsToBedrockTools _ req msgs options h
  obtain ⟨hpos, hval⟩ := NewModel_maxTokens_pos modelName maxTokens
  refine ⟨?_, ?_, ?_⟩
  · rw [hmax]
    cases req.Config with
    | none => exact hpos
    | some config =>
      simp only
      split
      · assumption
      · exact hpos
  · intro config hcfg hgt
    rw [hmax, hcfg]
    simp only [hgt, if_true]
  · intro hcase
    rw [hmax]
    rcases hcase with hnone | ⟨config, hcfg, hle⟩
    · rw [hnone]
      exact hval
    · rw [hcfg]
      have hng : ¬ config.MaxOutputTokens > 0 := by omega
      simp only [hng, if_false]
      exact hval

/-- C25 at two requests to models built with the limits -5 and 1024: a request whose
configuration asks for no limit gets 4096, a request that asks for 256 tokens gets 256. -/
theorem convertRequest_max_tokens_positive_witness :
    convertRequest strings.ToLower (ToolsToBedrockTools strings.ToLower) (NewModel "claude" (-5))
        { Contents := [some { Role := "user", Parts := [some { Text := "hi" }] }],
          Config := some { MaxOutputTokens := 0 } } =
      .ok ([{ Role := ChatMessageTypeHuman, Type_ := "text", Content := "hi" }],
        { MaxTokens := 4096 }) ∧
    (4096 : Int) > 0 ∧
    convertRequest strings.ToLower (ToolsToBedrockTools strings.ToLower) (NewModel "claude" 1024)
        { Contents := [some { Role := "user", Parts := [some { Text := "hi" }] }],
          Config := some { MaxOutputTokens := 256 } } =
      .ok ([{ Role := ChatMessageTypeHuman, Type_ := "text", Content := "hi" }],
        { MaxTokens := 256 }) ∧
    (256 : Int) > 0 :=
  ⟨by rfl,
   (convertRequest_max_tokens_positive strings.ToLower (ToolsToBedrockTools strings.ToLower)
    "claude" (-5)
    { Contents := [some { Role := "user", Parts := [some { Text := "hi" }] }],
      Config := some { MaxOutputTokens := 0 } }
    [{ Role := ChatMessageTypeHuman, Type_ := "text", Content := "hi" }]
    { MaxTokens := 4096 } (by rfl)).1,
   by rfl,
   (convertRequest_max_tokens_positive strings.ToLower (ToolsToBedrockTools strings.ToLower)
    "claude" 1024
    { Contents := [some { Role := "user", Parts := [some { Text := "hi" }] }],
      Config := some { MaxOutputTokens := 256 } }
    [{ Role := ChatMessageTypeHuman, Type_ := "text", Content := "hi" }]
    { MaxTokens := 256 } (by rfl)).1⟩

end adkgobedrock

namespace adkgobedrock

open bedrockclient converters

/-- C24 at a consumer that stops at the first item, against a client that hands over the
chunk `bytes`, has the chunks `rest` left, and returns the error of the streaming function
when that function fails: the consumer answers false to the partial response of `bytes`, the
streaming function returns the error `yield break`, the client returns it, and
`generateStream` calls `yield` once more, with the failure that wraps this error. -/
theorem generateStream_yields_after_stop (Unmarshal : String → Except GoError (Option GoMap))
    (result : Except GoError llms.ContentResponse) (bytes : String) (rest : List String) :
    (generateStream strings.ToLower (ToolsToBedrockTools strings.ToLower) Unmarshal
        (fun _ _ _ => ClientRun.scripted result (bytes :: rest))
        (NewModel "claude" 4096)
        { Contents := [some { Role := "user", Parts := [some { Text := "hi" }] }] }
        (fun _ => false)).yielded =
      [StreamItem.response { Partial := true, Content := some { Role := "model", Parts := [some { Text := bytes }] } },
       StreamItem.failure (.wrapf "failed to call model: %w" (.errorf "yield break" []))] := by
  rfl

end adkgobedrock
